import Mathlib

/-!
# hyprpicker: pixel normalisation, double buffering and coordinate mapping

A shallow embedding of `src/hyprpicker.cpp` / `src/hyprpicker.hpp`.

Modelling conventions
* A byte of shared memory (`uint8_t`, `unsigned char`) is a `Fin 256`; a buffer is a
  `List Byte`.  A read outside the list yields `0`, a write outside the list is dropped;
  theorems about buffers assume the allocation is large enough, as the C code does.
* `double` values are rationals.  Where the rounding of `double` arithmetic is observable
  it is modelled: the arithmetic of `Vector2D` (`+`, `*`, `/`), which maps the pointer to
  a pixel of the captured frame, rounds every result to binary64 (`toDouble`), and the
  10-bit rescaling in `convertBuffer` uses an explicit binary64 division (`f64div`); the
  two models give the same quotients (`f64div_agrees`).  The zoom parameters of the
  magnifier and its spring update are exact rationals, with the binary64 value of the
  damping coefficient.
* `int` loop counters and byte offsets are natural numbers; buffers are assumed smaller
  than 2 GiB so that no `int` offset overflows.
* `exit(code)` (through `CHyprpicker::finish`) is `Except.error code`.
* A pointer that may be null is an `Option`; a pointer to one of the two presentation
  buffers of a surface is the index of the slot.
-/

namespace Hyprpicker

/-! ## Basic data -/

/-- One byte of buffer memory. -/
abbrev Byte := Fin 256

/-- Truncating store of a number into a byte (`(uint8_t)v`). -/
def toUInt8 (v : Nat) : Byte := ⟨v % 256, Nat.mod_lt _ (by decide)⟩

/-! ## Rounding to binary64 -/

/-- The position of the leading binary digit of `n`, found in at most `fuel` halvings. -/
def log2Fuel : Nat → Nat → Nat
  | 0, _ => 0
  | fuel + 1, n => if n < 2 then 0 else log2Fuel fuel (n / 2) + 1

/-- The position of the leading binary digit of `n`: `2 ^ log2Nat n ≤ n < 2 ^ (log2Nat n + 1)`
for `n > 0`. -/
def log2Nat (n : Nat) : Nat := log2Fuel n n

/-- The power `2 ^ z` as a rational number. -/
def pow2 (z : ℤ) : ℚ :=
  if 0 ≤ z then ((2 ^ z.toNat : ℕ) : ℚ) else 1 / ((2 ^ (-z).toNat : ℕ) : ℚ)

/-- The binary exponent of a positive rational: `2 ^ ilog2 q ≤ q < 2 ^ (ilog2 q + 1)`. -/
def ilog2 (q : ℚ) : ℤ :=
  let e0 : ℤ := (log2Nat q.num.toNat : ℤ) - (log2Nat q.den : ℤ)
  if pow2 e0 ≤ q then e0 else e0 - 1

/-- The integer nearest to a non-negative rational, halves to the even neighbour. -/
def roundHalfEven (x : ℚ) : Nat :=
  let f := ⌊x⌋₊
  if x - f < 1 / 2 then f else if 1 / 2 < x - f then f + 1 else if f % 2 = 0 then f else f + 1

/-- The binary64 number nearest to a positive rational `q`: `q` is scaled to a significand
in `[2 ^ 52, 2 ^ 53)`, which is rounded to an integer, halves to even. -/
def toDoublePos (q : ℚ) : ℚ :=
  let ulp := pow2 (ilog2 q - 52)
  (roundHalfEven (q / ulp) : ℚ) * ulp

/-- The result of a binary64 operation whose exact value is `q`: the nearest number with a
53-bit significand, round-to-nearest-even.  The exponent range is not bounded: overflow
and subnormal numbers are not modelled (the coordinates this is applied to are far from
both). -/
def toDouble (q : ℚ) : ℚ :=
  if q = 0 then 0 else if 0 < q then toDoublePos q else -toDoublePos (-q)

/-- The vector type `Hyprutils::Math::Vector2D`, a pair of `double`s. -/
structure Vector2D where
  x : ℚ
  y : ℚ
deriving DecidableEq

namespace Vector2D

/-- Component-wise `Vector2D::floor`. -/
def floor (v : Vector2D) : Vector2D := ⟨⌊v.x⌋, ⌊v.y⌋⟩

/-- Component-wise `Vector2D::round` (`std::round`: halves away from zero). -/
def round (v : Vector2D) : Vector2D :=
  ⟨if 0 ≤ v.x then ⌊v.x + 1 / 2⌋ else ⌈v.x - 1 / 2⌉,
   if 0 ≤ v.y then ⌊v.y + 1 / 2⌋ else ⌈v.y - 1 / 2⌉⟩

/-- Component-wise `operator+`: each sum is one binary64 addition. -/
instance : Add Vector2D := ⟨fun a b => ⟨toDouble (a.x + b.x), toDouble (a.y + b.y)⟩⟩
/-- Component-wise `operator*`: each product is one binary64 multiplication. -/
instance : Mul Vector2D := ⟨fun a b => ⟨toDouble (a.x * b.x), toDouble (a.y * b.y)⟩⟩
/-- Component-wise `operator/`: each quotient is one binary64 division. -/
instance : Div Vector2D := ⟨fun a b => ⟨toDouble (a.x / b.x), toDouble (a.y / b.y)⟩⟩

end Vector2D

/-- The C cast `(int)d` of a `double`: truncation towards zero (as a natural number for
the non-negative sizes it is applied to; negative values give `0`). -/
def castInt (d : ℚ) : Nat := ⌊d⌋₊

/-- Number of iterations of `for (int i = 0; i < d; ++i)` for a `double` bound `d`. -/
def loopCount (d : ℚ) : Nat := ⌈d⌉₊

/-- `std::clamp(v, lo, hi)`. -/
def clamp (v lo hi : ℚ) : ℚ := if v < lo then lo else if hi < v then hi else v

/-! ### Pixel format tags

The values of `enum wl_shm_format` (Wayland core protocol, `wayland-client-protocol.h`);
all but the first two are DRM fourcc codes. -/

def WL_SHM_FORMAT_ARGB8888 : Nat := 0
def WL_SHM_FORMAT_XRGB8888 : Nat := 1
def WL_SHM_FORMAT_XBGR8888 : Nat := 0x34324258
def WL_SHM_FORMAT_ABGR8888 : Nat := 0x34324241
def WL_SHM_FORMAT_RGB888 : Nat := 0x34324752
def WL_SHM_FORMAT_BGR888 : Nat := 0x34324742
def WL_SHM_FORMAT_XRGB2101010 : Nat := 0x30335258
def WL_SHM_FORMAT_XBGR2101010 : Nat := 0x30334258

/-- Modelled from the spec: `SPoolBuffer` is declared in `helpers/PoolBuffer.hpp`, which
is not among the sources; these are the members `hyprpicker.cpp` reads and writes: pixel
grid size, format tag, row stride in bytes, the mapped bytes, the optional 32-bit copy
kept for 24-bit captures, and the flag set while the presenter owns the buffer. -/
structure SPoolBuffer where
  pixelSize : Vector2D
  format : Nat
  stride : Nat
  data : List Byte
  paddedData : Option (List Byte)
  busy : Bool
deriving DecidableEq

/-- Modelled from the spec: `SMonitor` is declared in `helpers/Monitor.hpp`, which is not
among the sources; these are the members `hyprpicker.cpp` reads: logical size and
geometry scale. -/
structure SMonitor where
  size : Vector2D
  scale : ℚ
deriving DecidableEq

/-- Modelled from the spec: `CLayerSurface` is declared in `helpers/LayerSurface.hpp`,
which is not among the sources; these are the members `hyprpicker.cpp` reads and writes.
`pSurface` is the identity of the `wl_surface` proxy, `buffer0`/`buffer1` are
`buffers[0]`/`buffers[1]`, `screenBuffer` is the captured frame, `frameCallback` tells
whether a frame callback is pending. -/
structure CLayerSurface where
  pSurface : Nat
  m_pMonitor : SMonitor
  fractionalScale : ℚ
  buffer0 : Option SPoolBuffer
  buffer1 : Option SPoolBuffer
  screenBuffer : Option SPoolBuffer
  frameCallback : Bool
  dirty : Bool
  rendered : Bool
deriving DecidableEq

/-- The slot `pLS->buffers[i]`. -/
def CLayerSurface.buffers (pLS : CLayerSurface) (i : Nat) : Option SPoolBuffer :=
  if i = 0 then pLS.buffer0 else pLS.buffer1

/-- Modelled from the spec: `CColor` is declared in `helpers/Color.hpp`, which is not
among the sources; a colour is a 4-channel (R, G, B, A) byte tuple. -/
structure CColor where
  r : Byte
  g : Byte
  b : Byte
  a : Byte
deriving DecidableEq

/-! ## Byte-level memory access -/

/-- Read of the byte at offset `o`. -/
def readByte (d : List Byte) (o : Nat) : Byte := d.getD o 0

/-- Store of the byte `v` at offset `o`. -/
def writeByte (d : List Byte) (o : Nat) (v : Byte) : List Byte := d.set o v

/-- Little-endian load of a `uint32_t` at byte offset `o` (`*px`). -/
def readU32 (d : List Byte) (o : Nat) : Nat :=
  (readByte d o).val + (readByte d (o + 1)).val * 2 ^ 8 + (readByte d (o + 2)).val * 2 ^ 16
    + (readByte d (o + 3)).val * 2 ^ 24

/-- Little-endian store of a `uint32_t` at byte offset `o` (`*px = v`). -/
def writeU32 (d : List Byte) (o : Nat) (v : Nat) : List Byte :=
  writeByte (writeByte (writeByte (writeByte d o (toUInt8 v)) (o + 1) (toUInt8 (v / 2 ^ 8)))
    (o + 2) (toUInt8 (v / 2 ^ 16))) (o + 3) (toUInt8 (v / 2 ^ 24))

/-! ## A model of the binary64 operations used by the 10-bit rescaling -/

/-- A non-negative binary64 value `mant / 2 ^ shift`. -/
structure F64 where
  mant : Nat
  shift : Nat
deriving DecidableEq

/-- Exact value of a binary64 number. -/
def F64.toRat (f : F64) : ℚ := (f.mant : ℚ) / 2 ^ f.shift

/-- Search for the least `s` with `2 ^ 52 ≤ n * 2 ^ s / d`, the scaling that gives the
quotient a 53-bit significand. -/
def f64NormShift (n d : Nat) : Nat → Nat → Nat
  | 0, s => s
  | fuel + 1, s => if 2 ^ 52 * d ≤ n * 2 ^ s then s else f64NormShift n d fuel (s + 1)

/-- Quotient `a / b` rounded to the nearest integer, ties to even. -/
def roundNearestEven (a b : Nat) : Nat :=
  let q := a / b
  let r := a % b
  if 2 * r < b then q else if b < 2 * r then q + 1 else if q % 2 = 0 then q else q + 1

/-- The binary64 quotient `(double)n / (double)d` of two integers below `2 ^ 53` with
`0 < d`: the exact quotient rounded to 53 significant bits, round-to-nearest-even (the
quotient of such operands is never subnormal and never overflows). -/
def f64div (n d : Nat) : F64 :=
  if n = 0 then ⟨0, 0⟩
  else
    let s := f64NormShift n d 1100 0
    ⟨roundNearestEven (n * 2 ^ s) d, s⟩

/-- The function `std::round` on a non-negative binary64 value: nearest integer, halves
away from zero. -/
def f64round (f : F64) : Nat := (2 * f.mant + 2 ^ f.shift) / 2 ^ (f.shift + 1)

/-! ## `CHyprpicker::convertBuffer` -/

/-- The statement `std::swap(px->red, px->blue)` on the `SPixel` at byte offset `o`
(fields `blue, green, red, alpha` in memory order). -/
def swapRedBlue (d : List Byte) (o : Nat) : List Byte :=
  let blue := readByte d o
  let red := readByte d (o + 2)
  writeByte (writeByte d (o + 2) blue) o red

/-- The 32-bit word written for the 10-bit word `px` (lines 281-287): each field is
masked and shifted out, rescaled in `double` arithmetic, rounded and truncated to
`uint8_t`; the sum of the shifted bytes is stored as a `uint32_t`. -/
def convert2101010 (FLIP : Bool) (px : Nat) : Nat :=
  let R := toUInt8 (f64round (f64div (255 * ((px &&& 0b00000000000000000000001111111111) >>> 0)) 1023))
  let G := toUInt8 (f64round (f64div (255 * ((px &&& 0b00000000000011111111110000000000) >>> 10)) 1023))
  let B := toUInt8 (f64round (f64div (255 * ((px &&& 0b00111111111100000000000000000000) >>> 20)) 1023))
  let A := toUInt8 (f64round (f64div (255 * ((px &&& 0b11000000000000000000000000000000) >>> 30)) 3))
  (((if FLIP then B else R).val <<< 0) + (G.val <<< 8) + ((if FLIP then R else B).val <<< 16)
    + (A.val <<< 24)) % 2 ^ 32

/-- The loop body of the 10-bit case at byte offset `o`. -/
def convertPixel2101010 (FLIP : Bool) (d : List Byte) (o : Nat) : List Byte :=
  writeU32 d o (convert2101010 FLIP (readU32 d o))

/-- The two nested loops of `convertBuffer`, `y` outer and `x` inner, applying `body` at
byte offset `y * (int)pixelSize.x * 4 + x * 4`. -/
def forEachPixel (pixelSize : Vector2D) (body : List Byte → Nat → List Byte)
    (data : List Byte) : List Byte :=
  (List.range (loopCount pixelSize.y)).foldl
    (fun d y => (List.range (loopCount pixelSize.x)).foldl
      (fun d x => body d (y * castInt pixelSize.x * 4 + x * 4)) d) data

/-- `CHyprpicker::convertBuffer`: in-place normalisation of a 32-bit capture.  The result
is the buffer after the call, or the exit status when the process is terminated. -/
def convertBuffer (pBuffer : SPoolBuffer) : Except Nat SPoolBuffer :=
  if pBuffer.format = WL_SHM_FORMAT_ARGB8888 ∨ pBuffer.format = WL_SHM_FORMAT_XRGB8888 then
    .ok pBuffer
  else if pBuffer.format = WL_SHM_FORMAT_ABGR8888 ∨ pBuffer.format = WL_SHM_FORMAT_XBGR8888 then
    .ok { pBuffer with data := forEachPixel pBuffer.pixelSize swapRedBlue pBuffer.data }
  else if pBuffer.format = WL_SHM_FORMAT_XRGB2101010
      ∨ pBuffer.format = WL_SHM_FORMAT_XBGR2101010 then
    let FLIP : Bool := pBuffer.format = WL_SHM_FORMAT_XBGR2101010
    .ok { pBuffer with
      data := forEachPixel pBuffer.pixelSize (convertPixel2101010 FLIP) pBuffer.data }
  else
    .error 1

/-! ## `CHyprpicker::convert24To32Buffer` -/

/-- Loop body of the `WL_SHM_FORMAT_BGR888` case at pixel `(x, y)`: `srcPx` is an
`SPixel3` with fields `blue, green, red` in memory order, `dstPx` an `SPixel4` with fields
`blue, green, red, alpha` in memory order, and
`*dstPx = {.blue = srcPx->red, .green = srcPx->green, .red = srcPx->blue, .alpha = 0xFF}`. -/
def convertPixelBGR888 (oldBuffer : List Byte) (stride newBufferStride : Nat)
    (newBuffer : List Byte) (y x : Nat) : List Byte :=
  let srcOff := y * stride + x * 3
  let srcBlue := readByte oldBuffer srcOff
  let srcGreen := readByte oldBuffer (srcOff + 1)
  let srcRed := readByte oldBuffer (srcOff + 2)
  let dstOff := y * newBufferStride + x * 4
  writeByte (writeByte (writeByte (writeByte newBuffer dstOff srcRed) (dstOff + 1) srcGreen)
    (dstOff + 2) srcBlue) (dstOff + 3) 0xFF

/-- Loop body of the `WL_SHM_FORMAT_RGB888` case at pixel `(x, y)`: `srcPx` is an
`SPixel3` with fields `red, green, blue` in memory order, `dstPx` an `SPixel4` with fields
`alpha, red, green, blue` in memory order, and
`*dstPx = {.alpha = 0xFF, .red = srcPx->red, .green = srcPx->green, .blue = srcPx->blue}`. -/
def convertPixelRGB888 (oldBuffer : List Byte) (stride newBufferStride : Nat)
    (newBuffer : List Byte) (y x : Nat) : List Byte :=
  let srcOff := y * stride + x * 3
  let srcRed := readByte oldBuffer srcOff
  let srcGreen := readByte oldBuffer (srcOff + 1)
  let srcBlue := readByte oldBuffer (srcOff + 2)
  let dstOff := y * newBufferStride + x * 4
  writeByte (writeByte (writeByte (writeByte newBuffer dstOff 0xFF) (dstOff + 1) srcRed)
    (dstOff + 2) srcGreen) (dstOff + 3) srcBlue

/-- The two nested loops of `convert24To32Buffer`, `y` outer and `x` inner. -/
def forEachPixel24 (pixelSize : Vector2D) (body : List Byte → Nat → Nat → List Byte)
    (newBuffer : List Byte) : List Byte :=
  (List.range (loopCount pixelSize.y)).foldl
    (fun d y => (List.range (loopCount pixelSize.x)).foldl (fun d x => body d y x) d) newBuffer

/-- `CHyprpicker::convert24To32Buffer`: the freshly allocated 32-bit copy of a 24-bit
capture, or the exit status when the process is terminated.  The `malloc`ed block, whose
initial contents are unspecified in C, starts out zeroed here. -/
def convert24To32Buffer (pBuffer : SPoolBuffer) : Except Nat (List Byte) :=
  let newBuffer : List Byte :=
    List.replicate (castInt ((castInt pBuffer.pixelSize.x : ℚ) * pBuffer.pixelSize.y * 4)) 0
  let newBufferStride := castInt (pBuffer.pixelSize.x * 4)
  let oldBuffer := pBuffer.data
  if pBuffer.format = WL_SHM_FORMAT_BGR888 then
    .ok (forEachPixel24 pBuffer.pixelSize
      (convertPixelBGR888 oldBuffer pBuffer.stride newBufferStride) newBuffer)
  else if pBuffer.format = WL_SHM_FORMAT_RGB888 then
    .ok (forEachPixel24 pBuffer.pixelSize
      (convertPixelRGB888 oldBuffer pBuffer.stride newBufferStride) newBuffer)
  else
    .error 1

/-! ## `CHyprpicker::getColorFromPixel` -/

/-- `CHyprpicker::getColorFromPixel`.  The pixel is read through an `SPixel` with fields
`blue, green, red, alpha` in memory order, from `paddedData` when it is set and from
`data` otherwise.  `none` stands for the dereference of a null `screenBuffer`. -/
def getColorFromPixel (pLS : CLayerSurface) (pix : Vector2D) : Option CColor :=
  match pLS.screenBuffer with
  | none => none
  | some screenBuffer =>
    let pix := pix.floor
    if pix.x ≥ screenBuffer.pixelSize.x ∨ pix.y ≥ screenBuffer.pixelSize.y ∨ pix.x < 0
        ∨ pix.y < 0 then
      some ⟨0, 0, 0, 0⟩
    else
      let dataSrc := match screenBuffer.paddedData with
        | some padded => padded
        | none => screenBuffer.data
      let off := castInt pix.y * castInt screenBuffer.pixelSize.x * 4 + castInt pix.x * 4
      some ⟨readByte dataSrc (off + 2), readByte dataSrc (off + 1), readByte dataSrc off,
        readByte dataSrc (off + 3)⟩

/-- Modelled from the spec: the capture path that calls `convert24To32Buffer` is not
among the sources.  A surface showing the 24-bit capture `frame` keeps the 32-bit copy as
the `paddedData` of its `screenBuffer`, which is where `getColorFromPixel` samples from;
`getColorFromPixel` reads nothing else of the surface. -/
def surfaceOf24BitFrame (frame : SPoolBuffer) (converted : List Byte) : CLayerSurface :=
  { pSurface := 0, m_pMonitor := ⟨frame.pixelSize, 1⟩, fractionalScale := 1,
    buffer0 := none, buffer1 := none,
    screenBuffer := some { frame with paddedData := some converted },
    frameCallback := false, dirty := false, rendered := false }

/-- Conversion of a 24-bit capture followed by a lookup of pixel `pix`: the exit status
if the conversion terminates the process, otherwise the sampled colour. -/
def sample24 (frame : SPoolBuffer) (pix : Vector2D) : Except Nat (Option CColor) :=
  match convert24To32Buffer frame with
  | .error code => .error code
  | .ok converted => .ok (getColorFromPixel (surfaceOf24BitFrame frame converted) pix)

/-! ## `CHyprpicker::getBufferForLS` -/

/-- `CHyprpicker::getBufferForLS`: the loop visits slot 0, then slot 1, and assigns
`returns` at every slot that is allocated and not busy, without leaving the loop.  The
returned pointer is the index of the slot, `none` the null pointer. -/
def getBufferForLS (pLS : CLayerSurface) : Option Nat :=
  (List.range 2).foldl
    (fun returns i =>
      match pLS.buffers i with
      | none => returns
      | some buffer => if buffer.busy then returns else some i)
    none

/-! ## Controller state and pointer events -/

/-- The output modes `eOutputMode`. -/
inductive eOutputMode where
  | OUTPUT_CMYK
  | OUTPUT_HEX
  | OUTPUT_RGB
  | OUTPUT_HSL
  | OUTPUT_HSV
deriving DecidableEq

/-- What the picker reads of the `xkb_state` behind `m_pXKBState`: whether the Shift and
Alt modifiers are effective (`xkb_state_mod_name_is_active`). -/
structure XkbState where
  shift : Bool
  alt : Bool
deriving DecidableEq

/-- The data members of `CHyprpicker` read or written by the core: options, surfaces,
pointer and nudge state, held keys, zoom animation state and the multi-pick buffer.
`m_pLastSurface` is the index of the focused surface in `m_vLayerSurfaces`,
`m_pXKBState` is null until a keymap has been compiled. -/
structure CHyprpicker where
  m_pXKBState : Option XkbState
  m_bSelectedOutputMode : eOutputMode
  m_bFancyOutput : Bool
  m_bAutoCopy : Bool
  m_bNotify : Bool
  m_bRenderInactive : Bool
  m_bNoZoom : Bool
  m_bNoFractional : Bool
  m_bDisablePreview : Bool
  m_bUseLowerCase : Bool
  m_vLayerSurfaces : List CLayerSurface
  m_pLastSurface : Option Nat
  m_vLastCoords : Vector2D
  m_bCoordsInitialized : Bool
  m_vNudgeBufPx : Vector2D
  m_keyLeft : Bool
  m_keyRight : Bool
  m_keyUp : Bool
  m_keyDown : Bool
  m_repeatRate : Int
  m_repeatDelay : Int
  m_zoomRadiusTargetSrcPx : ℚ
  m_zoomRadiusCurrentSrcPx : ℚ
  m_zoomRadiusVel : ℚ
  m_zoomAnimInitialized : Bool
  m_zoomMagTarget : ℚ
  m_zoomMagCurrent : ℚ
  m_zoomMagVel : ℚ
  m_zoomMagBase : ℚ
  m_zoomMagBaseSet : Bool
  m_lockAperture : Bool
  m_lockedAperture : ℚ
  m_apertureBaseUI : ℚ
  m_apertureBaseSet : Bool
  m_multiBuffer : List String
  m_multiMode : Bool
deriving DecidableEq

/-- The controller with the default member initialisers of `hyprpicker.hpp`, no
surface and the pointer at the origin. -/
def initialState : CHyprpicker :=
  { m_pXKBState := none,
    m_bSelectedOutputMode := .OUTPUT_HEX, m_bFancyOutput := true, m_bAutoCopy := false,
    m_bNotify := false, m_bRenderInactive := false, m_bNoZoom := false,
    m_bNoFractional := false, m_bDisablePreview := false, m_bUseLowerCase := false,
    m_vLayerSurfaces := [], m_pLastSurface := none, m_vLastCoords := ⟨0, 0⟩,
    m_bCoordsInitialized := false, m_vNudgeBufPx := ⟨0, 0⟩,
    m_keyLeft := false, m_keyRight := false, m_keyUp := false, m_keyDown := false,
    m_repeatRate := 0, m_repeatDelay := 600,
    m_zoomRadiusTargetSrcPx := 10, m_zoomRadiusCurrentSrcPx := 10, m_zoomRadiusVel := 0,
    m_zoomAnimInitialized := false,
    m_zoomMagTarget := 10, m_zoomMagCurrent := 10, m_zoomMagVel := 0,
    m_zoomMagBase := 10, m_zoomMagBaseSet := false,
    m_lockAperture := false, m_lockedAperture := 0,
    m_apertureBaseUI := 0, m_apertureBaseSet := false,
    m_multiBuffer := [], m_multiMode := false }

/-- Modelled from the spec: `CLayerSurface::markDirty` (`helpers/LayerSurface.cpp`, not
part of the sources at hand) files a redraw request for the surface: it registers a frame
callback and flags the surface dirty; requests made before the next presentation
opportunity collapse into one repaint. -/
def CLayerSurface.markDirty (ls : CLayerSurface) : CLayerSurface :=
  { ls with frameCallback := true, dirty := true }

/-- `CHyprpicker::markDirty`: every surface without a pending frame callback is marked. -/
def markDirty (s : CHyprpicker) : CHyprpicker :=
  { s with m_vLayerSurfaces :=
      s.m_vLayerSurfaces.map (fun ls => if ls.frameCallback then ls else ls.markDirty) }

/-- The conversion `wl_fixed_to_double` of a 24.8 fixed-point protocol coordinate. -/
def wl_fixed_to_double (f : Int) : ℚ := (f : ℚ) / 256

/-- The loop of the enter handler: index of the first surface whose `wl_surface` is
`surface`, if any. -/
def findSurface (surfaces : List CLayerSurface) (surface : Nat) : Option Nat :=
  surfaces.findIdx? (fun ls => ls.pSurface = surface)

/-- The pointer-enter handler installed by `initMouse` (`setEnter`). -/
def setEnter (s : CHyprpicker) (surface : Nat) (surface_x surface_y : Int) : CHyprpicker :=
  let x := wl_fixed_to_double surface_x
  let y := wl_fixed_to_double surface_y
  let s1 := { s with m_vLastCoords := ⟨x, y⟩, m_bCoordsInitialized := true,
                     m_vNudgeBufPx := ⟨0, 0⟩ }
  let s2 := match findSurface s1.m_vLayerSurfaces surface with
    | some i => { s1 with m_pLastSurface := some i }
    | none => s1
  markDirty s2

/-- The pointer-motion handler installed by `initMouse` (`setMotion`). -/
def setMotion (s : CHyprpicker) (surface_x surface_y : Int) : CHyprpicker :=
  let x := wl_fixed_to_double surface_x
  let y := wl_fixed_to_double surface_y
  markDirty { s with m_vLastCoords := ⟨x, y⟩, m_vNudgeBufPx := ⟨0, 0⟩ }

/-! ## Frame-space coordinates handed to the pixel lookup -/

/-- The value of `centerBuf` passed to `getColorFromPixel` by `renderSurface` (lines
378-379 and 412-416) for the surface `pSurface`, the presentation buffer `PBUFFER` being
drawn and the captured frame `screenBuffer`.  The five `Vector2D` operations each round to
binary64; the bound `pixelSize - 1.0` of the clamp is exact, pixel sizes being whole
numbers. -/
def renderSurface_centerBuf (s : CHyprpicker) (pSurface : CLayerSurface)
    (PBUFFER screenBuffer : SPoolBuffer) : Vector2D :=
  let MOUSECOORDSABS := s.m_vLastCoords.floor / pSurface.m_pMonitor.size
  let CLICKPOS := MOUSECOORDSABS * PBUFFER.pixelSize
  let BASEPOSBUF := CLICKPOS / PBUFFER.pixelSize * screenBuffer.pixelSize
  let centerBuf := BASEPOSBUF + s.m_vNudgeBufPx
  ⟨clamp centerBuf.x 0 (screenBuffer.pixelSize.x - 1),
   clamp centerBuf.y 0 (screenBuffer.pixelSize.y - 1)⟩

/-- The value of `CLICKPOS` passed to `getColorFromPixel` by `finalizePickAtCurrent`
(lines 783-787) for the focused surface `pLastSurface` and its captured frame
`screenBuffer`.  The three `Vector2D` operations each round to binary64; the bound
`pixelSize - 1.0` of the clamp is exact, pixel sizes being whole numbers. -/
def finalizePickAtCurrent_CLICKPOS (s : CHyprpicker) (pLastSurface : CLayerSurface)
    (screenBuffer : SPoolBuffer) : Vector2D :=
  let MOUSECOORDSABS := s.m_vLastCoords.floor / pLastSurface.m_pMonitor.size
  let CLICKPOS := MOUSECOORDSABS * screenBuffer.pixelSize
  let CLICKPOS := CLICKPOS + s.m_vNudgeBufPx
  ⟨clamp CLICKPOS.x 0 (screenBuffer.pixelSize.x - 1),
   clamp CLICKPOS.y 0 (screenBuffer.pixelSize.y - 1)⟩

/-! ## Reference formulas of the specification -/

/-- The conversion `logicalToFrame` in the words of the specification:
`pointLogical / monitorLogicalSize × frameSize`. -/
def logicalToFrame (pointLogical monitorLogicalSize frameSize : ℚ) : ℚ :=
  pointLogical / monitorLogicalSize * frameSize

/-- Rescaling of a field with maximum `maxIn` to eight bits in the words of the
specification: `round(255 * value / maxIn)` in exact arithmetic, rounded to nearest. -/
def rescaleExact (value maxIn : Nat) : ℤ := round ((255 * value : ℚ) / maxIn)

deriving instance DecidableEq for Except

/-! ## Concrete inputs -/

/-- A `1 × 1` XBGR2101010 frame whose only word has the fields 1023, 512, 1 and 2. -/
def frame2101010 : SPoolBuffer :=
  { pixelSize := ⟨(1 : Nat), (1 : Nat)⟩, format := WL_SHM_FORMAT_XBGR2101010, stride := 4,
    data := [0xFF, 0x03, 0x18, 0x80], paddedData := none, busy := false }

/-- A `2 × 1` XBGR8888 frame. -/
def frameXBGR8888 : SPoolBuffer :=
  { pixelSize := ⟨(2 : Nat), (1 : Nat)⟩, format := WL_SHM_FORMAT_XBGR8888, stride := 8,
    data := [1, 2, 3, 4, 5, 6, 7, 8], paddedData := none, busy := false }

/-- A `1 × 1` RGB888 frame with the source bytes 10, 20, 30 (one padding byte per row). -/
def frameRGB888 : SPoolBuffer :=
  { pixelSize := ⟨1, 1⟩, format := WL_SHM_FORMAT_RGB888, stride := 4,
    data := [10, 20, 30, 0], paddedData := none, busy := false }

/-- A `2 × 1` RGB888 frame with the source bytes 1, 2, 3 and 4, 5, 6. -/
def frameRGB888Wide : SPoolBuffer :=
  { pixelSize := ⟨2, 1⟩, format := WL_SHM_FORMAT_RGB888, stride := 8,
    data := [1, 2, 3, 4, 5, 6, 0, 0], paddedData := none, busy := false }

/-- A free `1 × 1` presentation buffer filled with the byte `fill`. -/
def freeBuffer (fill : Byte) : SPoolBuffer :=
  { pixelSize := ⟨1, 1⟩, format := WL_SHM_FORMAT_ARGB8888, stride := 4,
    data := [fill, fill, fill, fill], paddedData := none, busy := false }

/-- A surface on a `2 × 1` monitor whose two presentation buffers are allocated and free
and whose captured frame is `4 × 1`. -/
def surfaceTwoFree : CLayerSurface :=
  { pSurface := 7, m_pMonitor := ⟨⟨2, 1⟩, 1⟩, fractionalScale := 1,
    buffer0 := some (freeBuffer 0), buffer1 := some (freeBuffer 1),
    screenBuffer := some { pixelSize := ⟨4, 1⟩, format := WL_SHM_FORMAT_ARGB8888, stride := 16,
                           data := List.replicate 16 0, paddedData := none, busy := false },
    frameCallback := false, dirty := false, rendered := false }

/-- The captured `4 × 1` frame of `surfaceTwoFree`. -/
def frame4x1 : SPoolBuffer :=
  { pixelSize := ⟨4, 1⟩, format := WL_SHM_FORMAT_ARGB8888, stride := 16,
    data := List.replicate 16 0, paddedData := none, busy := false }

/-- A controller focused on `surfaceTwoFree` with the pointer at logical `(1.5, 0)`, as
reported by the protocol in 24.8 fixed point, and no nudge. -/
def stateHalfPixel : CHyprpicker :=
  { initialState with
    m_vLayerSurfaces := [surfaceTwoFree], m_pLastSurface := some 0,
    m_vLastCoords := ⟨wl_fixed_to_double 384, wl_fixed_to_double 0⟩,
    m_bCoordsInitialized := true }

/-- A controller focused on `surfaceTwoFree` with the pointer far outside the monitor
and a large nudge. -/
def stateOutside : CHyprpicker :=
  { initialState with
    m_vLayerSurfaces := [surfaceTwoFree], m_pLastSurface := some 0,
    m_vLastCoords := ⟨-50, 9000⟩, m_vNudgeBufPx := ⟨-800, 800⟩,
    m_bCoordsInitialized := true }

/-! ## Zoom animation (`defines.hpp`, spring update of `renderSurface`, scroll helpers) -/

def ZOOM_TOGGLE_FACTOR : ℚ := 3
def ZOOM_MAG_MIN : ℚ := 2
def ZOOM_MAG_MAX : ℚ := 60
def ZOOM_RADIUS_MIN : ℚ := 4
def ZOOM_RADIUS_MAX : ℚ := 60
def SPRING_K : ℚ := 1000
def SPRING_ZETA : ℚ := 1

/-- Integer square root by Newton iteration from an upper bound `x`. -/
def isqrtIter (n : Nat) : Nat → Nat → Nat
  | 0, x => x
  | fuel + 1, x =>
    let y := (x + n / x) / 2
    if y < x then isqrtIter n fuel y else x

/-- Search for the least `s` with `2 ^ 104 ≤ n * 4 ^ s`, the scaling that gives the square
root a 53-bit significand. -/
def f64SqrtShift (n : Nat) : Nat → Nat → Nat
  | 0, s => s
  | fuel + 1, s => if 2 ^ 104 ≤ n * 4 ^ s then s else f64SqrtShift n fuel (s + 1)

/-- The binary64 value of `std::sqrt((double)n)` for an integer `0 < n < 2 ^ 53`: the exact
root rounded to 53 significant bits (a tie cannot occur for a square root). -/
def f64sqrt (n : Nat) : F64 :=
  let s := f64SqrtShift n 1100 0
  let N := n * 4 ^ s
  let m := isqrtIter N 400 N
  ⟨if m < N - m * m then m + 1 else m, s⟩

/-- The damping coefficient `c = 2.0 * std::sqrt(k) * zeta` of the spring update; the
products by `2.0` and by `zeta = 1.0` are exact in binary64. -/
def SPRING_C : ℚ := 2 * (f64sqrt 1000).toRat * SPRING_ZETA

/-- One spring update of a scalar (lines 455-465 for the radius, 467-476 for the
magnification): current value, target, velocity and elapsed time in, new value and
velocity out. -/
def springUpdate (current target vel dt : ℚ) : ℚ × ℚ :=
  let x := current - target
  let a := (-SPRING_K * x) - (SPRING_C * vel)
  let vel := vel + a * dt
  let current := current + vel * dt
  if |current - target| < 1 / 100 ∧ |vel| < 1 / 100 then (target, 0) else (current, vel)

/-- The branch `if (!m_zoomAnimInitialized)` of `renderSurface` (lines 434-446), taken on
the first render of the magnifier. -/
def zoomAnimInit (s : CHyprpicker) : CHyprpicker :=
  let s1 := { s with m_zoomAnimInitialized := true,
                     m_zoomRadiusCurrentSrcPx := s.m_zoomRadiusTargetSrcPx,
                     m_zoomRadiusVel := 0,
                     m_zoomMagCurrent := s.m_zoomMagTarget,
                     m_zoomMagVel := 0 }
  if s1.m_zoomMagBaseSet then s1
  else { s1 with m_zoomMagBase := s1.m_zoomMagTarget, m_zoomMagBaseSet := true }

/-- The block `if (dt > 0.0)` of `renderSurface` (lines 449-487): spring update of the
radius, spring update of the magnification, then the aperture lock. -/
def zoomSpringTick (s : CHyprpicker) (dt : ℚ) : CHyprpicker :=
  if dt > 0 then
    let r := springUpdate s.m_zoomRadiusCurrentSrcPx s.m_zoomRadiusTargetSrcPx s.m_zoomRadiusVel dt
    let m := springUpdate s.m_zoomMagCurrent s.m_zoomMagTarget s.m_zoomMagVel dt
    let s1 := { s with m_zoomRadiusCurrentSrcPx := r.1, m_zoomRadiusVel := r.2,
                       m_zoomMagCurrent := m.1, m_zoomMagVel := m.2 }
    if s1.m_lockAperture then
      let targetR := if s1.m_zoomMagCurrent > 1 / 100
        then s1.m_lockedAperture / s1.m_zoomMagCurrent else s1.m_zoomRadiusCurrentSrcPx
      let s2 := { s1 with m_zoomRadiusCurrentSrcPx := targetR,
                          m_zoomRadiusTargetSrcPx := targetR, m_zoomRadiusVel := 0 }
      if |s2.m_zoomMagCurrent - s2.m_zoomMagTarget| < 1 / 100 ∧ |s2.m_zoomMagVel| < 1 / 100 then
        { s2 with m_lockAperture := false }
      else s2
    else s1
  else s

/-- The animation update of one `renderSurface` pass (lines 431-488) with `dt` the time
elapsed since the previous pass: the first pass initialises the animation and measures no
elapsed time, every later pass runs the spring tick. -/
def renderSurface_zoomUpdate (s : CHyprpicker) (dt : ℚ) : CHyprpicker :=
  if s.m_zoomAnimInitialized then zoomSpringTick s dt else zoomSpringTick (zoomAnimInit s) 0

/-- `CHyprpicker::handleAltToggle`. -/
def handleAltToggle (s : CHyprpicker) (toTriple : Bool) : CHyprpicker :=
  let s1 := if s.m_zoomMagBaseSet then s
    else { s with m_zoomMagBase := s.m_zoomMagTarget, m_zoomMagBaseSet := true }
  let targetMag := if toTriple then s1.m_zoomMagBase * ZOOM_TOGGLE_FACTOR else s1.m_zoomMagBase
  let s2 := { s1 with m_zoomMagTarget := clamp targetMag ZOOM_MAG_MIN ZOOM_MAG_MAX }
  let s3 := { s2 with m_lockedAperture := s2.m_zoomRadiusCurrentSrcPx * s2.m_zoomMagCurrent,
                      m_lockAperture := true }
  if s3.m_zoomMagTarget > 1 / 100 then
    let targetR :=
      clamp (s3.m_lockedAperture / s3.m_zoomMagTarget) ZOOM_RADIUS_MIN ZOOM_RADIUS_MAX
    { s3 with m_zoomRadiusTargetSrcPx := targetR }
  else s3

/-- `CHyprpicker::handleRadiusToggle`. -/
def handleRadiusToggle (s : CHyprpicker) (toDouble : Bool) : CHyprpicker :=
  let s1 := if s.m_apertureBaseSet then s
    else { s with m_apertureBaseUI := s.m_zoomRadiusCurrentSrcPx * s.m_zoomMagCurrent,
                  m_apertureBaseSet := true }
  let desiredAperture := if toDouble then s1.m_apertureBaseUI * 2 else s1.m_apertureBaseUI
  let targetR := clamp (desiredAperture / s1.m_zoomMagCurrent) ZOOM_RADIUS_MIN ZOOM_RADIUS_MAX
  let s2 := if s1.m_zoomMagCurrent > 1 / 100 then { s1 with m_zoomRadiusTargetSrcPx := targetR }
    else s1
  { s2 with m_lockAperture := false }

/-- The events that act on the zoom state: a magnification toggle, a radius toggle, and
an animation pass after `dt` seconds. -/
inductive ZoomEvent where
  | altToggle (toTriple : Bool)
  | radiusToggle (toDouble : Bool)
  | tick (dt : ℚ)

/-- Effect of one zoom event. -/
def applyZoomEvent (s : CHyprpicker) : ZoomEvent → CHyprpicker
  | .altToggle toTriple => handleAltToggle s toTriple
  | .radiusToggle toDouble => handleRadiusToggle s toDouble
  | .tick dt => renderSurface_zoomUpdate s dt

/-- Effect of a sequence of zoom events, first event first. -/
def runZoom (s : CHyprpicker) (events : List ZoomEvent) : CHyprpicker :=
  events.foldl applyZoomEvent s

/-- The scalar reached from value `x0` at rest after `n` spring updates towards `target`
with the fixed time step `dt`: value and velocity. -/
def springIterate (target dt : ℚ) (x0 : ℚ) : Nat → ℚ × ℚ
  | 0 => (x0, 0)
  | n + 1 =>
    let p := springIterate target dt x0 n
    springUpdate p.1 target p.2 dt

/-- Step conditions under which the update cannot overshoot: `c dt ≤ 1` and the time step
is large enough to absorb the tiny underdamping of the rounded coefficient. -/
def GoodStep (dt : ℚ) : Prop :=
  0 < dt ∧ SPRING_C * dt ≤ 1
    ∧ 0 ≤ (SPRING_C ^ 2 / 4 - SPRING_K) + dt * (SPRING_C / 2) * (SPRING_C ^ 2 / 2 - SPRING_K)

/-- A displacement on the upper side of the target with a velocity towards it that is at
most `c / 2` times the displacement. -/
def Approaching (x t v : ℚ) : Prop :=
  t ≤ x ∧ v ≤ 0 ∧ -(SPRING_C / 2) * (x - t) ≤ v

/-- A time step past the point where the damping term reverses the velocity
(`c dt > 1`) and still short enough for the update to approach the target from one side
(`k dt² + c dt < 2`). -/
def WideStep (dt : ℚ) : Prop :=
  0 < dt ∧ 1 < SPRING_C * dt ∧ SPRING_K * dt ^ 2 + SPRING_C * dt < 2

/-- A state above the target that moves towards it slowly enough not to pass it at a wide
step: `-(k dt) (x - t) ≤ (1 - k dt²) v ≤ 0`. -/
def Braking (x t v dt : ℚ) : Prop :=
  t ≤ x ∧ v ≤ 0 ∧ -(SPRING_K * dt) * (x - t) ≤ (1 - SPRING_K * dt ^ 2) * v

/-- The factor by which one update at a wide step shrinks the displacement at least. -/
def wideRate (dt : ℚ) : ℚ :=
  (1 - SPRING_K * dt ^ 2)
    + (SPRING_C * dt - 1) * (SPRING_K * dt ^ 2) / (1 - SPRING_K * dt ^ 2)

/-- The zoom state after the first magnifier render, a magnification toggle up and `n`
animation passes 1/64 s apart. -/
def zoomedInAfter (n : Nat) : CHyprpicker :=
  runZoom initialState ([.tick 0, .altToggle true] ++ List.replicate n (.tick (1 / 64)))

/-- The zoom state settled at magnification 30 after a toggle up from the initial state:
base 10 remembered, radius `100 / 30` as left by the aperture lock, lock released. -/
def zoomedInSettled : CHyprpicker :=
  { initialState with
    m_zoomAnimInitialized := true, m_zoomMagTarget := 30, m_zoomMagCurrent := 30,
    m_zoomMagBaseSet := true, m_zoomRadiusTargetSrcPx := 10 / 3,
    m_zoomRadiusCurrentSrcPx := 10 / 3, m_lockedAperture := 100 }

/-! ## Pick session (`finalizePickAtCurrent`, key and button handlers) -/

/-- A call to one of the output collaborators: `NClipboard::copy(text)`,
`Debug::log(NONE, ...)` with the formatted line `text`, `NNotify::send(hexColor, text)`. -/
inductive Effect where
  | clipboardCopy (text : String)
  | log (text : String)
  | notify (hexColor text : String)
deriving DecidableEq

/-- Result of an event handler: the controller afterwards, the collaborator calls made
in order, and the exit status if the handler terminated the process. -/
structure Outcome where
  state : CHyprpicker
  effects : List Effect
  exit : Option Nat
deriving DecidableEq

/-- `CHyprpicker::finish(code)` after the collaborator calls `effects`: the surfaces are
cleared and the process exits with status `code`. -/
def finish (s : CHyprpicker) (effects : List Effect) (code : Nat) : Outcome :=
  ⟨{ s with m_vLayerSurfaces := [] }, effects, some code⟩

/-- The texts that depend on `float` arithmetic and on `CColor::getCMYK`, `getHSL`,
`getHSV` (`helpers/Color.cpp`, not among the sources), taken as given: the foreground
shade `FG` chosen by the luminance test (0 or 255), the `std::format` rendering of a
colour in the CMYK, HSL and HSV modes, and the `printf` rendering (`%g`) of the same. -/
structure FloatText where
  FG : CColor → Nat
  formatted : eOutputMode → CColor → String
  printed : eOutputMode → CColor → String

/-- The lambda `toHex` of `finalizePickAtCurrent`: the characters `DS[i / 16]` and
`DS[i % 16]` of the digit string selected by `m_bUseLowerCase`. -/
def toHex (m_bUseLowerCase : Bool) (i : Nat) : String :=
  let DS := (if m_bUseLowerCase then "0123456789abcdef" else "0123456789ABCDEF").toList
  String.mk [DS.getD (i / 16) '0', DS.getD (i % 16) '0']

/-- The format item `{:02x}` of `std::format` applied to an unsigned integer: lowercase
hexadecimal, padded with zeros to two characters. -/
def format02x (n : Nat) : String :=
  let digits := Nat.toDigits 16 n
  String.mk (List.replicate (2 - digits.length) '0' ++ digits)

/-- Decimal rendering of an integer (`{}` of `std::format`, `%i` of `printf`). -/
def formatDec (n : Nat) : String := toString n

/-- The string `hexColor` (line 804). -/
def hexColorOf (COL : CColor) : String :=
  "#" ++ format02x COL.r.val ++ format02x COL.g.val ++ format02x COL.b.val

/-- The string `formattedColor` (lines 807-835). -/
def formattedColorOf (fx : FloatText) (mode : eOutputMode) (COL : CColor) : String :=
  match mode with
  | .OUTPUT_CMYK => fx.formatted .OUTPUT_CMYK COL
  | .OUTPUT_HEX => hexColorOf COL
  | .OUTPUT_RGB =>
    formatDec COL.r.val ++ " " ++ formatDec COL.g.val ++ " " ++ formatDec COL.b.val
  | .OUTPUT_HSL => fx.formatted .OUTPUT_HSL COL
  | .OUTPUT_HSV => fx.formatted .OUTPUT_HSV COL

/-- The colour value printed by the single-pick `Debug::log` calls, without the terminal
colouring: `#%s%s%s` of the `toHex` strings, `%i %i %i`, or the `%g` renderings. -/
def singlePickBody (fx : FloatText) (s : CHyprpicker) (COL : CColor) : String :=
  match s.m_bSelectedOutputMode with
  | .OUTPUT_CMYK => fx.printed .OUTPUT_CMYK COL
  | .OUTPUT_HEX =>
    "#" ++ toHex s.m_bUseLowerCase COL.r.val ++ toHex s.m_bUseLowerCase COL.g.val
      ++ toHex s.m_bUseLowerCase COL.b.val
  | .OUTPUT_RGB =>
    formatDec COL.r.val ++ " " ++ formatDec COL.g.val ++ " " ++ formatDec COL.b.val
  | .OUTPUT_HSL => fx.printed .OUTPUT_HSL COL
  | .OUTPUT_HSV => fx.printed .OUTPUT_HSV COL

/-- The escape sequence `\033[38;2;FG;FG;FG;48;2;r;g;bm` that opens a fancy log line. -/
def fancyPrefix (FG : Nat) (COL : CColor) : String :=
  "\x1b[38;2;" ++ formatDec FG ++ ";" ++ formatDec FG ++ ";" ++ formatDec FG ++ ";48;2;"
    ++ formatDec COL.r.val ++ ";" ++ formatDec COL.g.val ++ ";" ++ formatDec COL.b.val ++ "m"

/-- The escape sequence `\033[0m` that closes a fancy log line. -/
def fancySuffix : String := "\x1b[0m"

/-- The line logged by a single pick (lines 883-886, 895-898, 907-910, 925-928). -/
def singlePickLine (fx : FloatText) (s : CHyprpicker) (COL : CColor) : String :=
  if s.m_bFancyOutput then
    fancyPrefix (fx.FG COL) COL ++ singlePickBody fx s COL ++ fancySuffix
  else singlePickBody fx s COL

/-- The three texts a pick works with: `hexColor`, `formattedColor`, and the line a
single pick logs. -/
structure PickTexts where
  hexColor : String
  formattedColor : String
  logLine : String
deriving DecidableEq

/-- The texts of a pick of the colour `COL`. -/
def pickTexts (fx : FloatText) (s : CHyprpicker) (COL : CColor) : PickTexts :=
  ⟨hexColorOf COL, formattedColorOf fx s.m_bSelectedOutputMode COL, singlePickLine fx s COL⟩

/-- The loop that builds `joined` (lines 848-853 and 864-869): entry `i` is preceded by a
newline unless `i` is zero. -/
def joinLoop : Nat → List String → String → String
  | _, [], joined => joined
  | i, entry :: rest, joined =>
    joinLoop (i + 1) rest ((if i ≠ 0 then joined ++ "\n" else joined) ++ entry)

/-- The string `joined` for the buffer `m_multiBuffer`. -/
def joinEntries (m_multiBuffer : List String) : String := joinLoop 0 m_multiBuffer ""

/-- Delivery of a finished multi-pick (lines 847-859 and 863-875): the current entry is
appended, the buffer joined, the result copied or logged, and the process finished. -/
def finishMultiPick (s : CHyprpicker) (t : PickTexts) : Outcome :=
  let s1 := { s with m_multiBuffer := s.m_multiBuffer ++ [t.formattedColor] }
  let joined := joinEntries s1.m_multiBuffer
  finish s1 [if s1.m_bAutoCopy then .clipboardCopy joined else .log joined] 0

/-- The single pick (lines 878-936): the line is logged, `formattedColor` is copied when
auto-copy is on, a notification is sent when notifications are on (with `hexColor` as
its text in hex mode), and the process is finished. -/
def singlePick (s : CHyprpicker) (t : PickTexts) : Outcome :=
  let notifyText := match s.m_bSelectedOutputMode with
    | .OUTPUT_HEX => t.hexColor
    | _ => t.formattedColor
  finish s
    ([Effect.log t.logLine]
      ++ (if s.m_bAutoCopy then [Effect.clipboardCopy t.formattedColor] else [])
      ++ (if s.m_bNotify then [Effect.notify t.hexColor notifyText] else []))
    0

/-- The decision "multi-pick vs single pick" of `finalizePickAtCurrent` (lines 837-937)
once the texts of the current colour are known. -/
def decidePick (s : CHyprpicker) (forceFinalize withShift : Bool) (t : PickTexts) : Outcome :=
  if !forceFinalize then
    if withShift then
      ⟨{ s with m_multiMode := true, m_multiBuffer := s.m_multiBuffer ++ [t.formattedColor] },
        [], none⟩
    else if s.m_multiMode then finishMultiPick s t
    else singlePick s t
  else if s.m_multiMode then finishMultiPick s t
  else singlePick s t

/-- The value of `withShift` (line 838). -/
def shiftActive (s : CHyprpicker) : Bool :=
  match s.m_pXKBState with
  | some xkb => xkb.shift
  | none => false

/-- `CHyprpicker::finalizePickAtCurrent` with the value of `withShift` made explicit.
`none` stands for undefined behaviour: the dereference of a dangling surface pointer or of
a null `screenBuffer`. -/
def finalizePickWith (fx : FloatText) (s : CHyprpicker) (forceFinalize withShift : Bool) :
    Option Outcome :=
  match s.m_pLastSurface with
  | none => some ⟨s, [], none⟩
  | some i =>
    match s.m_vLayerSurfaces[i]? with
    | none => none
    | some pLastSurface =>
      match pLastSurface.screenBuffer with
      | none => none
      | some screenBuffer =>
        match getColorFromPixel pLastSurface
            (finalizePickAtCurrent_CLICKPOS s pLastSurface screenBuffer) with
        | none => none
        | some COL => some (decidePick s forceFinalize withShift (pickTexts fx s COL))

/-- `CHyprpicker::finalizePickAtCurrent`. -/
def finalizePickAtCurrent (fx : FloatText) (s : CHyprpicker) (forceFinalize : Bool) :
    Option Outcome :=
  finalizePickWith fx s forceFinalize (shiftActive s)

def WL_POINTER_BUTTON_STATE_PRESSED : Nat := 1
def WL_KEYBOARD_KEY_STATE_RELEASED : Nat := 0
def WL_KEYBOARD_KEY_STATE_PRESSED : Nat := 1
def XKB_KEY_Escape : Nat := 0xff1b
def XKB_KEY_Return : Nat := 0xff0d
def XKB_KEY_KP_Enter : Nat := 0xff8d
def XKB_KEY_Left : Nat := 0xff51
def XKB_KEY_Up : Nat := 0xff52
def XKB_KEY_Right : Nat := 0xff53
def XKB_KEY_Down : Nat := 0xff54

/-- The pointer-button handler installed by `initMouse` (`setButton`). -/
def setButton (fx : FloatText) (s : CHyprpicker) (_button button_state : Nat) : Option Outcome :=
  if button_state = WL_POINTER_BUTTON_STATE_PRESSED then finalizePickAtCurrent fx s false
  else some ⟨s, [], none⟩

/-- The nudge of a key press (lines 1049-1060) with step `step`. -/
def nudgeOnPress (s : CHyprpicker) (sym : Nat) (step : ℚ) : CHyprpicker :=
  if sym = XKB_KEY_Left then
    markDirty { s with m_vNudgeBufPx := ⟨s.m_vNudgeBufPx.x - step, s.m_vNudgeBufPx.y⟩,
                       m_keyLeft := true }
  else if sym = XKB_KEY_Right then
    markDirty { s with m_vNudgeBufPx := ⟨s.m_vNudgeBufPx.x + step, s.m_vNudgeBufPx.y⟩,
                       m_keyRight := true }
  else if sym = XKB_KEY_Up then
    markDirty { s with m_vNudgeBufPx := ⟨s.m_vNudgeBufPx.x, s.m_vNudgeBufPx.y - step⟩,
                       m_keyUp := true }
  else if sym = XKB_KEY_Down then
    markDirty { s with m_vNudgeBufPx := ⟨s.m_vNudgeBufPx.x, s.m_vNudgeBufPx.y + step⟩,
                       m_keyDown := true }
  else s

/-- The key-release branch (lines 1061-1068). -/
def clearHeldKey (s : CHyprpicker) (sym : Nat) : CHyprpicker :=
  if sym = XKB_KEY_Left then { s with m_keyLeft := false }
  else if sym = XKB_KEY_Right then { s with m_keyRight := false }
  else if sym = XKB_KEY_Up then { s with m_keyUp := false }
  else if sym = XKB_KEY_Down then { s with m_keyDown := false }
  else s

/-- The key handler installed by `initKeyboard` (`setKey`).  `sym` is the keysym that
`xkb_state_key_get_one_sym(m_pXKBState, key + 8)` resolves the key to; it is read only
when `m_pXKBState` is set. -/
def setKey (fx : FloatText) (s : CHyprpicker) (key state sym : Nat) : Option Outcome :=
  match s.m_pXKBState with
  | some xkb =>
    if state = WL_KEYBOARD_KEY_STATE_PRESSED then
      if sym = XKB_KEY_Escape then some (finish s [] 2)
      else if sym = XKB_KEY_Return ∨ sym = XKB_KEY_KP_Enter then finalizePickAtCurrent fx s true
      else if !s.m_bNoZoom ∧ s.m_bCoordsInitialized ∧ s.m_pLastSurface.isSome then
        some ⟨nudgeOnPress s sym (if xkb.shift then 8 else 1), [], none⟩
      else some ⟨s, [], none⟩
    else if state = WL_KEYBOARD_KEY_STATE_RELEASED then some ⟨clearHeldKey s sym, [], none⟩
    else some ⟨s, [], none⟩
  | none =>
    if key = 1 ∧ state = WL_KEYBOARD_KEY_STATE_PRESSED then some (finish s [] 2)
    else some ⟨s, [], none⟩

/-! ### Reference formulas of the specification for the output texts -/

/-- Two-digit hexadecimal of a byte value, uppercase unless `lower` is set. -/
def hexByte (lower : Bool) (n : Nat) : String :=
  let digits := (Nat.toDigits 16 n).map (fun ch => if lower then ch else ch.toUpper)
  String.mk (List.replicate (2 - digits.length) '0' ++ digits)

/-- Hex notation `#RRGGBB` of a colour, alpha ignored. -/
def hexNotation (lower : Bool) (COL : CColor) : String :=
  "#" ++ hexByte lower COL.r.val ++ hexByte lower COL.g.val ++ hexByte lower COL.b.val

/-- Decimal triplet `R G B` of a colour, separated by single spaces. -/
def rgbNotation (COL : CColor) : String :=
  toString COL.r.val ++ " " ++ toString COL.g.val ++ " " ++ toString COL.b.val

/-! ### Concrete inputs for the pick session -/

/-- Float-dependent texts for colours whose channels are all 0 or 255 and for the hex and
RGB modes: the luminance test is exact there (`FLUMI(0) = 0`, `FLUMI(1) = 1`), the
float-mode strings are not used. -/
def primaryFloatText : FloatText :=
  { FG := fun COL =>
      let lum (ch : Byte) : ℚ := if ch.val = 255 then 1 else 0
      if 2126 / 10000 * lum COL.r + 7152 / 10000 * lum COL.g + 722 / 10000 * lum COL.b
          > 17913 / 100000 then 0 else 255,
    formatted := fun _ _ => "",
    printed := fun _ _ => "" }

/-- Pure red, opaque. -/
def red : CColor := ⟨255, 0, 0, 255⟩

/-- A `1 × 1` ARGB8888 frame holding one opaque red pixel (bytes blue, green, red, alpha). -/
def frameRed : SPoolBuffer :=
  { pixelSize := ⟨1, 1⟩, format := WL_SHM_FORMAT_ARGB8888, stride := 4,
    data := [0, 0, 255, 255], paddedData := none, busy := false }

/-- A surface on a `1 × 1` monitor showing `frameRed`. -/
def surfaceRed : CLayerSurface :=
  { pSurface := 3, m_pMonitor := ⟨⟨1, 1⟩, 1⟩, fractionalScale := 1,
    buffer0 := none, buffer1 := none, screenBuffer := some frameRed,
    frameCallback := false, dirty := false, rendered := false }

/-- A controller with the default options, the pointer on `surfaceRed`, a keymap loaded
and no modifier held. -/
def stateOnRed : CHyprpicker :=
  { initialState with
    m_pXKBState := some ⟨false, false⟩,
    m_vLayerSurfaces := [surfaceRed], m_pLastSurface := some 0,
    m_vLastCoords := ⟨0, 0⟩, m_bCoordsInitialized := true }

/-- The controller `stateOnRed` with fancy output switched off. -/
def statePlainOnRed : CHyprpicker := { stateOnRed with m_bFancyOutput := false }

/-- The texts of an entry `#FF0000`. -/
def entryRed : PickTexts := ⟨"#ff0000", "#FF0000", "#FF0000"⟩

/-- The texts of an entry `#00FF00`. -/
def entryGreen : PickTexts := ⟨"#00ff00", "#00FF00", "#00FF00"⟩

/-- An accumulating session over the red pixel: one entry buffered, Shift held. -/
def stateAccumulating : CHyprpicker :=
  { stateOnRed with
    m_pXKBState := some ⟨true, false⟩, m_multiMode := true, m_multiBuffer := ["#00ff00"] }

/-! ## Zoom animation: the parts of one tick, toggle histories -/

/-- The aperture-lock block at the end of the animation tick of `renderSurface` (lines
477-486), run after the two spring updates. -/
def zoomApertureLock (s : CHyprpicker) : CHyprpicker :=
  if s.m_lockAperture then
    let targetR := if s.m_zoomMagCurrent > 1 / 100
      then s.m_lockedAperture / s.m_zoomMagCurrent else s.m_zoomRadiusCurrentSrcPx
    let s2 := { s with m_zoomRadiusCurrentSrcPx := targetR,
                       m_zoomRadiusTargetSrcPx := targetR, m_zoomRadiusVel := 0 }
    if |s2.m_zoomMagCurrent - s2.m_zoomMagTarget| < 1 / 100 ∧ |s2.m_zoomMagVel| < 1 / 100 then
      { s2 with m_lockAperture := false }
    else s2
  else s

/-- Direction of the last magnification toggle among `events`, if there is one. -/
def lastAltToggle (events : List ZoomEvent) : Option Bool :=
  events.foldl
    (fun acc e =>
      match e with
      | .altToggle toTriple => some toTriple
      | _ => acc)
    none

/-- The zoom state right after the first render and a magnification toggle up: the
aperture lock is active. -/
def zoomLocked : CHyprpicker := handleAltToggle (zoomAnimInit initialState) true

/-! ## `CHyprpicker::renderSurface`: buffer acquisition and submission -/

/-- The surface with slot `i` of `buffers` replaced. -/
def CLayerSurface.setBuffer (pLS : CLayerSurface) (i : Nat) (buffer : SPoolBuffer) :
    CLayerSurface :=
  if i = 0 then { pLS with buffer0 := some buffer } else { pLS with buffer1 := some buffer }

/-- Modelled from the spec: `CLayerSurface::sendFrame` (`helpers/LayerSurface.cpp`, not
part of the sources at hand) hands the drawn buffer to the presenter: it registers a frame
callback, attaches and commits, and the pending redraw request is served.  It touches no
`busy` flag; the presenter clears `busy` later, when it releases the buffer. -/
def CLayerSurface.sendFrame (ls : CLayerSurface) : CLayerSurface :=
  { ls with frameCallback := true, dirty := false }

/-- The controller after the animation update of `renderSurface` (lines 431-488), which
runs only when the surface is the focused one, the render is not forced inactive, the
pointer position is known and the magnifier is enabled. -/
def renderSurface_animate (s : CHyprpicker) (i : Nat) (forceInactive : Bool) (dt : ℚ) :
    CHyprpicker :=
  if s.m_pLastSurface = some i ∧ !forceInactive ∧ s.m_bCoordsInitialized ∧ !s.m_bNoZoom then
    renderSurface_zoomUpdate s dt
  else s

/-- The surface after the drawing calls have left `data` in the buffer `PBUFFER` of slot
`slot` and the tail of `renderSurface` (lines 717-725) has run: `sendFrame`,
`PBUFFER->busy = true`, `pSurface->rendered = true`. -/
def renderSurface_submit (pSurface : CLayerSurface) (slot : Nat) (PBUFFER : SPoolBuffer)
    (data : List Byte) : CLayerSurface :=
  let drawn := { PBUFFER with data := data }
  let pSurface1 := (pSurface.setBuffer slot drawn).sendFrame
  let pSurface2 := pSurface1.setBuffer slot { drawn with busy := true }
  { pSurface2 with rendered := true }

/-- `CHyprpicker::renderSurface` for the surface at index `i` of `m_vLayerSurfaces`, with
`dt` the time since the previous animation pass.  The pixels cairo leaves in the
presentation buffer are taken as given: `paint s pSurface PBUFFER forceInactive` is the
content of `PBUFFER->data` after the drawing calls (lines 362-715), for the controller as
it is after the animation update.  `none` stands for a dangling surface pointer. -/
def renderSurface (paint : CHyprpicker → CLayerSurface → SPoolBuffer → Bool → List Byte)
    (s : CHyprpicker) (i : Nat) (forceInactive : Bool) (dt : ℚ) : Option CHyprpicker :=
  match s.m_vLayerSurfaces[i]? with
  | none => none
  | some pSurface =>
    match getBufferForLS pSurface with
    | none => some s
    | some slot =>
      match pSurface.buffers slot, pSurface.screenBuffer with
      | some PBUFFER, some _ =>
        let s1 := renderSurface_animate s i forceInactive dt
        let data := paint s1 pSurface PBUFFER forceInactive
        let surfaces := s1.m_vLayerSurfaces.set i (renderSurface_submit pSurface slot PBUFFER data)
        some { s1 with m_vLayerSurfaces := surfaces }
      | _, _ => some s

/-- A paint function for concrete runs: the buffer is cleared to transparent. -/
def paintClear (_s : CHyprpicker) (_pSurface : CLayerSurface) (PBUFFER : SPoolBuffer)
    (_forceInactive : Bool) : List Byte :=
  List.replicate PBUFFER.data.length 0

/-- The surface `surfaceRed` with two free `1 × 1` presentation buffers. -/
def surfaceRedTwoFree : CLayerSurface :=
  { surfaceRed with buffer0 := some (freeBuffer 1), buffer1 := some (freeBuffer 2) }

/-- A controller whose only surface is `surfaceRedTwoFree`, focused. -/
def stateTwoFree : CHyprpicker :=
  { stateOnRed with m_vLayerSurfaces := [surfaceRedTwoFree] }

/-! ## `CHyprpicker::renderSurface`: magnifier centre and colour label -/

/-- The value of `uiCenter` in `renderSurface` (lines 378-379 and 418-423): the centre of
the magnifier in the presentation buffer `PBUFFER`. -/
def renderSurface_uiCenter (s : CHyprpicker) (pSurface : CLayerSurface)
    (PBUFFER screenBuffer : SPoolBuffer) : Vector2D :=
  let SCALEBUFS := screenBuffer.pixelSize / PBUFFER.pixelSize
  let MOUSECOORDSABS := s.m_vLastCoords.floor / pSurface.m_pMonitor.size
  let CLICKPOS := MOUSECOORDSABS * PBUFFER.pixelSize
  let SCALEBUFS_INV : Vector2D := ⟨toDouble (1 / SCALEBUFS.x), toDouble (1 / SCALEBUFS.y)⟩
  let uiCenter := CLICKPOS + (s.m_vNudgeBufPx * SCALEBUFS_INV)
  ⟨clamp uiCenter.x 0 (PBUFFER.pixelSize.x - 1), clamp uiCenter.y 0 (PBUFFER.pixelSize.y - 1)⟩

/-- The rectangle of the label drawn by `renderSurface` (lines 618-632) as
`(x, y, width, height)`, for the magnifier centre `uiCenter`, the size `pixelSize` of the
presentation buffer and `length = previewBuffer.length()`. -/
def renderSurface_labelRect (uiCenter pixelSize : Vector2D) (length : Nat) : ℚ × ℚ × ℚ × ℚ :=
  let width : ℚ := 8 + (11 * length : Nat)
  let height : ℚ := 28
  let xy : ℚ × ℚ :=
    if uiCenter.y > pixelSize.y - 50 ∧ uiCenter.x > pixelSize.x - 100 then
      (uiCenter.x - 80, uiCenter.y - 40)
    else if uiCenter.y > pixelSize.y - 50 then (uiCenter.x, uiCenter.y - 40)
    else if uiCenter.x > pixelSize.x - 100 then (uiCenter.x - 80, uiCenter.y + 20)
    else (uiCenter.x, uiCenter.y + 20)
  let x := xy.1 - 11 / 2 * length
  (x, xy.2, width, height)

/-- A free `1920 × 1080` presentation buffer. -/
def buffer1080p : SPoolBuffer :=
  { pixelSize := ⟨1920, 1080⟩, format := WL_SHM_FORMAT_ARGB8888, stride := 7680,
    data := List.replicate (1920 * 1080 * 4) 0, paddedData := none, busy := false }

/-! ## Key repeat (`startRepeatThread`) and key presses -/

/-- The locals of the repeat thread: `anyPrev`, `pressStart`, `nextRepeat`.  Time points
are readings of `steady_clock` in nanoseconds. -/
structure RepeatLocals where
  anyPrev : Bool
  pressStart : Int
  nextRepeat : Int
deriving DecidableEq

/-- The duration `milliseconds(n)` in nanoseconds. -/
def milliseconds (n : Int) : Int := n * 1000000

/-- The body of the branch `now >= nextRepeat` of the repeat loop (lines 962-974): the
nudge of every held direction by `step`, when the magnifier is active.  The members
`m_vNudgeBufPx.x` and `.y` are updated in the order Left, Right, Up, Down. -/
def repeatNudge (s : CHyprpicker) : CHyprpicker :=
  let step : ℚ := if shiftActive s then 8 else 1
  if !s.m_bNoZoom ∧ s.m_bCoordsInitialized ∧ s.m_pLastSurface.isSome then
    let x := s.m_vNudgeBufPx.x
    let x := if s.m_keyLeft then x - step else x
    let x := if s.m_keyRight then x + step else x
    let y := s.m_vNudgeBufPx.y
    let y := if s.m_keyUp then y - step else y
    let y := if s.m_keyDown then y + step else y
    markDirty { s with m_vNudgeBufPx := ⟨x, y⟩ }
  else s

/-- One pass through the body of `while (true)` in the repeat thread (lines 949-982), up
to the `sleep_for`, with `now` the reading of `steady_clock::now()`.  The atomics and the
controller members are read as one snapshot `s`.  The interval
`duration_cast<milliseconds>(duration<double>(1.0 / rate))` is `1000 / rate` whole
milliseconds, the quotient being truncated (exact arithmetic). -/
def repeatIteration (l : RepeatLocals) (s : CHyprpicker) (now : Int) :
    RepeatLocals × CHyprpicker :=
  let any := s.m_keyLeft || s.m_keyRight || s.m_keyUp || s.m_keyDown
  if any then
    if !l.anyPrev then
      ({ l with anyPrev := true, pressStart := now,
                nextRepeat := now + milliseconds (max 0 s.m_repeatDelay) }, s)
    else
      let rate := s.m_repeatRate
      if rate > 0 then
        if now ≥ l.nextRepeat then
          ({ l with nextRepeat := now + milliseconds (1000 / rate) }, repeatNudge s)
        else (l, s)
      else (l, s)
  else ({ l with anyPrev := false }, s)

/-- The repeat loop over the clock readings `nows`, one iteration per reading, with no
other thread touching the controller in between. -/
def repeatRun (l : RepeatLocals) (s : CHyprpicker) (nows : List Int) : RepeatLocals × CHyprpicker :=
  nows.foldl (fun p now => repeatIteration p.1 p.2 now) (l, s)

/-- The controller after the key presses `syms` have been delivered in order to the key
handler; `none` if a handler run is undefined or has ended the process. -/
def pressKeys (fx : FloatText) (s : CHyprpicker) : List Nat → Option CHyprpicker
  | [] => some s
  | sym :: rest =>
    match setKey fx s 0 WL_KEYBOARD_KEY_STATE_PRESSED sym with
    | some o => if o.exit.isSome then none else pressKeys fx o.state rest
    | none => none

/-- The controller `stateOnRed` with the Right key held and the repeat info "30 per
second, no delay" announced. -/
def stateRightHeld : CHyprpicker :=
  { stateOnRed with m_keyRight := true, m_repeatRate := 30, m_repeatDelay := 0 }

/-- A `4 × 1` frame shown on a `4 × 1` monitor. -/
def surface4x1 : CLayerSurface :=
  { pSurface := 5, m_pMonitor := ⟨⟨4, 1⟩, 1⟩, fractionalScale := 1,
    buffer0 := none, buffer1 := none, screenBuffer := some frame4x1,
    frameCallback := false, dirty := false, rendered := false }

/-- A controller with a keymap loaded, focused on `surface4x1`, pointer at logical
`(2, 0)`. -/
def stateOn4x1 : CHyprpicker :=
  { initialState with
    m_pXKBState := some ⟨false, false⟩,
    m_vLayerSurfaces := [surface4x1], m_pLastSurface := some 0,
    m_vLastCoords := ⟨2, 0⟩, m_bCoordsInitialized := true }

/-- Unit vector of a direction key in frame pixels: Left and Up are negative. -/
def nudgeDelta (sym : Nat) : Vector2D :=
  if sym = XKB_KEY_Left then ⟨-1, 0⟩
  else if sym = XKB_KEY_Right then ⟨1, 0⟩
  else if sym = XKB_KEY_Up then ⟨0, -1⟩
  else if sym = XKB_KEY_Down then ⟨0, 1⟩
  else ⟨0, 0⟩

/-- The step a direction key moves the nudge by: 8 with Shift, 1 without, and nothing
while the magnifier is off, the pointer position unknown or no surface focused. -/
def pressStep (s : CHyprpicker) : ℚ :=
  if !s.m_bNoZoom ∧ s.m_bCoordsInitialized ∧ s.m_pLastSurface.isSome then
    (if shiftActive s then 8 else 1)
  else 0

/-- The sampled position `pos` sits on the edge of a frame of size `size` that the
direction key `sym` pushes towards. -/
def atEdge (sym : Nat) (pos size : Vector2D) : Prop :=
  (sym = XKB_KEY_Left → pos.x = 0) ∧ (sym = XKB_KEY_Right → pos.x = size.x - 1)
  ∧ (sym = XKB_KEY_Up → pos.y = 0) ∧ (sym = XKB_KEY_Down → pos.y = size.y - 1)

/-! ## Presentation-buffer size and concrete inputs for the coordinate mapping -/

/-- The conversion `uiToFrame` in the words of the specification:
`pointUI / presentationSize × frameSize`. -/
def uiToFrame (pointUI presentationSize frameSize : ℚ) : ℚ :=
  pointUI / presentationSize * frameSize

/-- The size `MONITORSIZE` that `recheckACK` (lines 166-173) gives both presentation
buffers of a surface: the logical size of the monitor times the fractional scale (the
integer scale without a captured frame or with fractional scaling disabled), one binary64
multiplication per axis, rounded to whole pixels. -/
def recheckACK_MONITORSIZE (s : CHyprpicker) (ls : CLayerSurface) : Vector2D :=
  let scale := if ls.screenBuffer.isSome && !s.m_bNoFractional then ls.fractionalScale
    else ls.m_pMonitor.scale
  Vector2D.round
    ⟨toDouble (ls.m_pMonitor.size.x * scale), toDouble (ls.m_pMonitor.size.y * scale)⟩

/-- A surface on a monitor of logical size `1920 × 1080` at scale 1. -/
def surface1080p : CLayerSurface :=
  { pSurface := 11, m_pMonitor := ⟨⟨1920, 1080⟩, 1⟩, fractionalScale := 1,
    buffer0 := none, buffer1 := none, screenBuffer := none,
    frameCallback := false, dirty := false, rendered := false }

/-- The pointer at the logical position `(123, 0)` of `surface1080p`. -/
def stateAt123 : CHyprpicker :=
  { initialState with
    m_vLayerSurfaces := [surface1080p], m_pLastSurface := some 0,
    m_vLastCoords := ⟨123, 0⟩, m_bCoordsInitialized := true }

/-- A captured frame `10 × 1` whose pixel `i` has the blue value `10 i`. -/
def frame10x1 : SPoolBuffer :=
  { pixelSize := ⟨10, 1⟩, format := WL_SHM_FORMAT_ARGB8888, stride := 40,
    data := (List.map (fun i => [toUInt8 (10 * i), 0, 0, 255]) (List.range 10)).flatten,
    paddedData := none, busy := false }

/-- A free `3 × 1` presentation buffer. -/
def presentation3x1 : SPoolBuffer :=
  { pixelSize := ⟨3, 1⟩, format := WL_SHM_FORMAT_ARGB8888, stride := 12,
    data := List.replicate 12 0, paddedData := none, busy := false }

/-- A surface on a monitor of logical size `10 × 1` with the frame `frame10x1` and the
presentation buffers `presentation3x1`. -/
def surface10x1 : CLayerSurface :=
  { pSurface := 12, m_pMonitor := ⟨⟨10, 1⟩, 1⟩, fractionalScale := 3 / 10,
    buffer0 := some presentation3x1, buffer1 := some presentation3x1,
    screenBuffer := some frame10x1,
    frameCallback := false, dirty := false, rendered := false }

/-- The pointer at the logical position `(7, 0)` of `surface10x1`. -/
def stateAtSeven : CHyprpicker :=
  { initialState with
    m_vLayerSurfaces := [surface10x1], m_pLastSurface := some 0,
    m_vLastCoords := ⟨7, 0⟩, m_bCoordsInitialized := true }

/-- A captured frame of `1366 × 768` pixels (the lookups below use its size only). -/
def frame768 : SPoolBuffer :=
  { pixelSize := ⟨1366, 768⟩, format := WL_SHM_FORMAT_ARGB8888, stride := 5464,
    data := [], paddedData := none, busy := false }

/-- A presentation buffer of `1368 × 770` pixels. -/
def presentation770 : SPoolBuffer :=
  { pixelSize := ⟨1368, 770⟩, format := WL_SHM_FORMAT_ARGB8888, stride := 5472,
    data := [], paddedData := none, busy := false }

/-- A surface on a monitor of logical size `608 × 342` with the fractional scale `2.25`,
whose captured frame is `frame768`. -/
def surface768 : CLayerSurface :=
  { pSurface := 13, m_pMonitor := ⟨⟨608, 342⟩, 3⟩, fractionalScale := 9 / 4,
    buffer0 := some presentation770, buffer1 := some presentation770,
    screenBuffer := some frame768,
    frameCallback := false, dirty := false, rendered := false }

/-- The pointer at the logical position `(0, 57)` of `surface768`. -/
def stateAt57 : CHyprpicker :=
  { initialState with
    m_vLayerSurfaces := [surface768], m_pLastSurface := some 0,
    m_vLastCoords := ⟨0, 57⟩, m_bCoordsInitialized := true }

/-! # Theorems -/

/-! ## Rounding to binary64: exponent, monotonicity, accuracy -/

theorem log2Fuel_spec : ∀ (fuel n : Nat), 0 < n → n ≤ fuel →
    2 ^ log2Fuel fuel n ≤ n ∧ n < 2 ^ (log2Fuel fuel n + 1) := by
  intro fuel
  induction fuel with
  | zero =>
    intro n hn hle
    omega
  | succ fuel ih =>
    intro n hn hle
    unfold log2Fuel
    by_cases h2 : n < 2
    · rw [if_pos h2]
      have : n = 1 := by omega
      subst this
      norm_num
    · rw [if_neg h2]
      have hdiv : 0 < n / 2 := Nat.div_pos (by omega) (by norm_num)
      have hle2 : n / 2 ≤ fuel := by omega
      obtain ⟨h1, h3⟩ := ih (n / 2) hdiv hle2
      have e1 : 2 ^ (log2Fuel fuel (n / 2) + 1) = 2 * 2 ^ log2Fuel fuel (n / 2) := by ring
      have e2 : 2 ^ (log2Fuel fuel (n / 2) + 1 + 1) = 2 * 2 ^ (log2Fuel fuel (n / 2) + 1) := by
        ring
      constructor
      · rw [e1]
        omega
      · rw [e2]
        omega

theorem log2Nat_spec (n : Nat) (hn : 0 < n) :
    2 ^ log2Nat n ≤ n ∧ n < 2 ^ (log2Nat n + 1) :=
  log2Fuel_spec n n hn (le_refl n)

theorem pow2_eq (z : ℤ) : pow2 z = (2 : ℚ) ^ z := by
  unfold pow2
  split_ifs with h
  · obtain ⟨n, rfl⟩ := Int.eq_ofNat_of_zero_le h
    simp
  · push_neg at h
    obtain ⟨n, hn⟩ := Int.eq_ofNat_of_zero_le (show 0 ≤ -z by omega)
    have hz : z = -(n : ℤ) := by omega
    subst hz
    simp

theorem pow2_pos (z : ℤ) : 0 < pow2 z := by
  rw [pow2_eq]
  positivity

/-- The exponent brackets the number. -/
theorem ilog2_spec (q : ℚ) (hq : 0 < q) :
    (2 : ℚ) ^ ilog2 q ≤ q ∧ q < (2 : ℚ) ^ (ilog2 q + 1) := by
  have hnum : 0 < q.num := Rat.num_pos.mpr hq
  have hn : 0 < q.num.toNat := by omega
  have hd : 0 < q.den := q.den_pos
  obtain ⟨a1, a2⟩ := log2Nat_spec q.num.toNat hn
  obtain ⟨b1, b2⟩ := log2Nat_spec q.den hd
  have hqe : q = (q.num.toNat : ℚ) / (q.den : ℚ) := by
    have h1 : ((q.num.toNat : ℤ) : ℚ) = (q.num : ℚ) := by
      rw [Int.toNat_of_nonneg (le_of_lt hnum)]
    have h2 : ((q.num.toNat : ℕ) : ℚ) = ((q.num.toNat : ℤ) : ℚ) := by norm_cast
    rw [h2, h1]
    exact (Rat.num_div_den q).symm
  set n := q.num.toNat with hndef
  set d := q.den with hddef
  set a := log2Nat n with hadef
  set b := log2Nat d with hbdef
  have hdq : (0 : ℚ) < d := by exact_mod_cast hd
  have A1 : (2 : ℚ) ^ a ≤ n := by exact_mod_cast a1
  have A2 : (n : ℚ) < 2 ^ (a + 1) := by exact_mod_cast a2
  have B1 : (2 : ℚ) ^ b ≤ d := by exact_mod_cast b1
  have B2 : (d : ℚ) < 2 ^ (b + 1) := by exact_mod_cast b2
  have hpa : (0 : ℚ) < 2 ^ a := by positivity
  have hpb : (0 : ℚ) < 2 ^ b := by positivity
  have hz : ∀ (m : ℤ), (2 : ℚ) ^ ((a : ℤ) - (b : ℤ) + m) = 2 ^ a / 2 ^ b * 2 ^ m := by
    intro m
    rw [zpow_add₀ (by norm_num), zpow_sub₀ (by norm_num), zpow_natCast, zpow_natCast]
  have hup : q < (2 : ℚ) ^ ((a : ℤ) - (b : ℤ) + 1) := by
    rw [hz 1, hqe, zpow_one, div_mul_eq_mul_div, div_lt_div_iff₀ hdq hpb]
    have e : (2 : ℚ) ^ (a + 1) = 2 ^ a * 2 := by ring
    nlinarith
  have hlow : (2 : ℚ) ^ ((a : ℤ) - (b : ℤ) + -1) ≤ q := by
    rw [hz (-1), hqe, zpow_neg, zpow_one, div_mul_eq_mul_div, div_le_div_iff₀ hpb hdq]
    have e : (2 : ℚ) ^ (b + 1) = 2 ^ b * 2 := by ring
    have : (2 : ℚ) ^ a * 2⁻¹ * d ≤ 2 ^ a * 2⁻¹ * (2 ^ b * 2) := by
      apply mul_le_mul_of_nonneg_left _ (by positivity)
      rw [← e]
      exact le_of_lt B2
    have e2 : (2 : ℚ) ^ a * 2⁻¹ * (2 ^ b * 2) = 2 ^ a * 2 ^ b := by ring
    nlinarith
  unfold ilog2
  simp only [pow2_eq]
  split_ifs with h
  · exact ⟨h, hup⟩
  · push_neg at h
    refine ⟨?_, ?_⟩
    · have e : (a : ℤ) - (b : ℤ) - 1 = (a : ℤ) - (b : ℤ) + -1 := by ring
      rw [e]
      exact hlow
    · have e : (a : ℤ) - (b : ℤ) - 1 + 1 = (a : ℤ) - (b : ℤ) := by ring
      rw [e]
      exact h

theorem ilog2_mono (x y : ℚ) (hx : 0 < x) (hxy : x ≤ y) : ilog2 x ≤ ilog2 y := by
  obtain ⟨h1, _⟩ := ilog2_spec x hx
  obtain ⟨_, h4⟩ := ilog2_spec y (lt_of_lt_of_le hx hxy)
  have h : (2 : ℚ) ^ ilog2 x < 2 ^ (ilog2 y + 1) := lt_of_le_of_lt (le_trans h1 hxy) h4
  have := (zpow_lt_zpow_iff_right₀ (by norm_num : (1 : ℚ) < 2)).mp h
  omega

theorem roundHalfEven_bounds (x : ℚ) :
    ⌊x⌋₊ ≤ roundHalfEven x ∧ roundHalfEven x ≤ ⌊x⌋₊ + 1 := by
  unfold roundHalfEven
  simp only
  split_ifs <;> omega

/-- Rounding moves a non-negative number by at most one half. -/
theorem roundHalfEven_error (x : ℚ) (hx : 0 ≤ x) : |(roundHalfEven x : ℚ) - x| ≤ 1 / 2 := by
  have h1 : (⌊x⌋₊ : ℚ) ≤ x := Nat.floor_le hx
  have h2 : x < ⌊x⌋₊ + 1 := Nat.lt_floor_add_one x
  unfold roundHalfEven
  simp only
  rw [abs_le]
  split_ifs with c1 c2 c3
  · constructor <;> linarith
  · push_cast
    constructor <;> linarith
  · push_neg at c1 c2
    constructor <;> linarith
  · push_neg at c1 c2
    push_cast
    constructor <;> linarith

theorem roundHalfEven_natCast (n : Nat) : roundHalfEven (n : ℚ) = n := by
  unfold roundHalfEven
  simp

theorem roundHalfEven_mono (x y : ℚ) (hxy : x ≤ y) : roundHalfEven x ≤ roundHalfEven y := by
  have hf : ⌊x⌋₊ ≤ ⌊y⌋₊ := Nat.floor_mono hxy
  rcases Nat.lt_or_ge ⌊x⌋₊ ⌊y⌋₊ with hlt | hge
  · have := (roundHalfEven_bounds x).2
    have := (roundHalfEven_bounds y).1
    omega
  · have he : ⌊x⌋₊ = ⌊y⌋₊ := le_antisymm hf hge
    unfold roundHalfEven
    simp only
    rw [he]
    split_ifs <;> first | omega | (exfalso; linarith)

theorem toDoublePos_scaled (q : ℚ) (hq : 0 < q) :
    (2 : ℚ) ^ 52 ≤ q / pow2 (ilog2 q - 52) ∧ q / pow2 (ilog2 q - 52) < (2 : ℚ) ^ 53 := by
  obtain ⟨h1, h2⟩ := ilog2_spec q hq
  have hu : pow2 (ilog2 q - 52) = (2 : ℚ) ^ ilog2 q / 2 ^ 52 := by
    rw [pow2_eq, zpow_sub₀ (by norm_num)]
    norm_cast
  have hp : (0 : ℚ) < 2 ^ ilog2 q := by positivity
  have e1 : (2 : ℚ) ^ (ilog2 q + 1) = 2 ^ ilog2 q * 2 := by
    rw [zpow_add₀ (by norm_num), zpow_one]
  rw [hu, div_div_eq_mul_div]
  constructor
  · rw [le_div_iff₀ hp]
    nlinarith
  · rw [div_lt_iff₀ hp]
    rw [e1] at h2
    have e2 : (2 : ℚ) ^ 53 = 2 ^ 52 * 2 := by norm_num
    rw [e2]
    nlinarith

theorem toDoublePos_significand (q : ℚ) (hq : 0 < q) :
    2 ^ 52 ≤ roundHalfEven (q / pow2 (ilog2 q - 52)) ∧
      roundHalfEven (q / pow2 (ilog2 q - 52)) ≤ 2 ^ 53 := by
  obtain ⟨h1, h2⟩ := toDoublePos_scaled q hq
  constructor
  · have := roundHalfEven_mono _ _ (show (((2 ^ 52 : ℕ) : ℚ)) ≤ q / pow2 (ilog2 q - 52) by
      push_cast
      exact h1)
    rwa [roundHalfEven_natCast] at this
  · have := roundHalfEven_mono _ _ (show q / pow2 (ilog2 q - 52) ≤ (((2 ^ 53 : ℕ) : ℚ)) by
      push_cast
      exact le_of_lt h2)
    rwa [roundHalfEven_natCast] at this

/-- The rounded number stays in the binade of the exact one (or reaches its upper end). -/
theorem toDoublePos_bounds (q : ℚ) (hq : 0 < q) :
    (2 : ℚ) ^ ilog2 q ≤ toDoublePos q ∧ toDoublePos q ≤ (2 : ℚ) ^ (ilog2 q + 1) := by
  obtain ⟨h1, h2⟩ := toDoublePos_significand q hq
  have hu : pow2 (ilog2 q - 52) = (2 : ℚ) ^ ilog2 q / 2 ^ 52 := by
    rw [pow2_eq, zpow_sub₀ (by norm_num)]
    norm_cast
  have hp : (0 : ℚ) < 2 ^ ilog2 q := by positivity
  have e1 : (2 : ℚ) ^ (ilog2 q + 1) = 2 ^ ilog2 q * 2 := by
    rw [zpow_add₀ (by norm_num), zpow_one]
  have H1 : ((2 : ℚ)) ^ 52 ≤ (roundHalfEven (q / pow2 (ilog2 q - 52)) : ℚ) := by
    exact_mod_cast h1
  have H2 : (roundHalfEven (q / pow2 (ilog2 q - 52)) : ℚ) ≤ (2 : ℚ) ^ 53 := by
    exact_mod_cast h2
  unfold toDoublePos
  simp only
  set r : ℚ := (roundHalfEven (q / pow2 (ilog2 q - 52)) : ℚ) with hr
  rw [hu, e1]
  have hpu : (0 : ℚ) < 2 ^ ilog2 q / 2 ^ 52 := by positivity
  constructor
  · have : (2 : ℚ) ^ 52 * (2 ^ ilog2 q / 2 ^ 52) ≤ r * (2 ^ ilog2 q / 2 ^ 52) :=
      mul_le_mul_of_nonneg_right H1 (le_of_lt hpu)
    have e : (2 : ℚ) ^ 52 * (2 ^ ilog2 q / 2 ^ 52) = 2 ^ ilog2 q := by
      field_simp
    linarith
  · have : r * (2 ^ ilog2 q / 2 ^ 52) ≤ (2 : ℚ) ^ 53 * (2 ^ ilog2 q / 2 ^ 52) :=
      mul_le_mul_of_nonneg_right H2 (le_of_lt hpu)
    have e : (2 : ℚ) ^ 53 * (2 ^ ilog2 q / 2 ^ 52) = 2 ^ ilog2 q * 2 := by
      field_simp
      ring
    linarith

theorem toDoublePos_pos (q : ℚ) (hq : 0 < q) : 0 < toDoublePos q :=
  lt_of_lt_of_le (by positivity) (toDoublePos_bounds q hq).1

/-- Rounding a positive number changes it by at most the fraction `2 ^ -53` of itself. -/
theorem toDoublePos_error (q : ℚ) (hq : 0 < q) : |toDoublePos q - q| ≤ q / 2 ^ 53 := by
  obtain ⟨h1, _⟩ := ilog2_spec q hq
  have hu : pow2 (ilog2 q - 52) = (2 : ℚ) ^ ilog2 q / 2 ^ 52 := by
    rw [pow2_eq, zpow_sub₀ (by norm_num)]
    norm_cast
  have hupos : 0 < pow2 (ilog2 q - 52) := pow2_pos _
  have hx : 0 ≤ q / pow2 (ilog2 q - 52) := le_of_lt (div_pos hq hupos)
  have herr := roundHalfEven_error (q / pow2 (ilog2 q - 52)) hx
  unfold toDoublePos
  simp only
  set u := pow2 (ilog2 q - 52) with hudef
  set r : ℚ := (roundHalfEven (q / u) : ℚ) with hr
  have e : r * u - q = (r - q / u) * u := by
    field_simp
  rw [e, abs_mul, abs_of_pos hupos]
  have h2 : |r - q / u| * u ≤ 1 / 2 * u := mul_le_mul_of_nonneg_right herr (le_of_lt hupos)
  have h3 : 1 / 2 * u ≤ q / 2 ^ 53 := by
    rw [hu]
    have e3 : (1 : ℚ) / 2 * (2 ^ ilog2 q / 2 ^ 52) = 2 ^ ilog2 q / 2 ^ 53 := by
      rw [div_mul_div_comm, one_mul]
      norm_num
    rw [e3]
    exact div_le_div_of_nonneg_right h1 (by positivity)
  linarith

theorem toDoublePos_mono (x y : ℚ) (hx : 0 < x) (hxy : x ≤ y) :
    toDoublePos x ≤ toDoublePos y := by
  have hy : 0 < y := lt_of_lt_of_le hx hxy
  have he := ilog2_mono x y hx hxy
  rcases lt_or_eq_of_le he with hlt | heq
  · have h1 := (toDoublePos_bounds x hx).2
    have h2 := (toDoublePos_bounds y hy).1
    have h3 : (2 : ℚ) ^ (ilog2 x + 1) ≤ 2 ^ ilog2 y :=
      zpow_le_zpow_right₀ (by norm_num) (by omega)
    linarith
  · unfold toDoublePos
    simp only
    rw [heq]
    have hupos : 0 < pow2 (ilog2 y - 52) := pow2_pos _
    apply mul_le_mul_of_nonneg_right _ (le_of_lt hupos)
    have : roundHalfEven (x / pow2 (ilog2 y - 52)) ≤ roundHalfEven (y / pow2 (ilog2 y - 52)) :=
      roundHalfEven_mono _ _ (div_le_div_of_nonneg_right hxy (le_of_lt hupos))
    exact_mod_cast this

@[simp] theorem toDouble_zero : toDouble 0 = 0 := by
  unfold toDouble
  simp

theorem toDouble_of_pos (q : ℚ) (hq : 0 < q) : toDouble q = toDoublePos q := by
  unfold toDouble
  rw [if_neg (ne_of_gt hq), if_pos hq]

theorem toDouble_of_neg (q : ℚ) (hq : q < 0) : toDouble q = -toDoublePos (-q) := by
  unfold toDouble
  rw [if_neg (ne_of_lt hq), if_neg (not_lt.mpr (le_of_lt hq))]

theorem toDouble_neg (q : ℚ) : toDouble (-q) = -toDouble q := by
  rcases lt_trichotomy q 0 with h | h | h
  · rw [toDouble_of_neg q h, toDouble_of_pos (-q) (by linarith)]
    ring
  · subst h
    simp
  · rw [toDouble_of_pos q h, toDouble_of_neg (-q) (by linarith)]
    simp

theorem toDouble_nonneg (q : ℚ) (hq : 0 ≤ q) : 0 ≤ toDouble q := by
  rcases eq_or_lt_of_le hq with h | h
  · subst h
    simp
  · rw [toDouble_of_pos q h]
    exact le_of_lt (toDoublePos_pos q h)

theorem toDouble_nonpos (q : ℚ) (hq : q ≤ 0) : toDouble q ≤ 0 := by
  have := toDouble_nonneg (-q) (by linarith)
  rw [toDouble_neg] at this
  linarith

/-- Rounding to binary64 preserves order. -/
theorem toDouble_mono (x y : ℚ) (hxy : x ≤ y) : toDouble x ≤ toDouble y := by
  rcases lt_trichotomy x 0 with hx | hx | hx
  · rcases lt_or_le y 0 with hy | hy
    · rw [toDouble_of_neg x hx, toDouble_of_neg y hy]
      have := toDoublePos_mono (-y) (-x) (by linarith) (by linarith)
      linarith
    · exact le_trans (toDouble_nonpos x (le_of_lt hx)) (toDouble_nonneg y hy)
  · subst hx
    rw [toDouble_zero]
    exact toDouble_nonneg y hxy
  · rw [toDouble_of_pos x hx, toDouble_of_pos y (lt_of_lt_of_le hx hxy)]
    exact toDoublePos_mono x y hx hxy

/-- Rounding to binary64 changes a number by at most the fraction `2 ^ -53` of itself. -/
theorem toDouble_error (q : ℚ) : |toDouble q - q| ≤ |q| / 2 ^ 53 := by
  rcases lt_trichotomy q 0 with h | h | h
  · rw [toDouble_of_neg q h, abs_of_neg h]
    have := toDoublePos_error (-q) (by linarith)
    have e : -toDoublePos (-q) - q = -(toDoublePos (-q) - -q) := by ring
    rw [e, abs_neg]
    exact this
  · subst h
    simp
  · rw [toDouble_of_pos q h, abs_of_pos h]
    exact toDoublePos_error q h

/-- The explicit binary64 division of `convertBuffer` and the rounding `toDouble` give the
same quotient for every 10-bit colour field and every 2-bit alpha field. -/
theorem f64div_agrees :
    (∀ v : Fin 1024, (f64div (255 * v.val) 1023).toRat = toDouble ((255 * v.val : ℕ) / 1023))
    ∧ ∀ v : Fin 4, (f64div (255 * v.val) 3).toRat = toDouble ((255 * v.val : ℕ) / 3) := by
  decide!

/-- Sample values of the rounding, among them `123.0 / 1920.0 * 1920.0`. -/
theorem toDouble_evals :
    toDouble 1920 = 1920 ∧ toDouble (1 / 3) = 6004799503160661 / 18014398509481984 ∧
      toDouble (toDouble (123 / 1920) * 1920) = 8655355533852671 / 70368744177664 ∧
      toDouble (-(1 / 3)) = -(6004799503160661 / 18014398509481984) := by
  decide!


/-! ## Memory lemmas -/

theorem length_writeByte (d : List Byte) (i : Nat) (v : Byte) :
    (writeByte d i v).length = d.length := by
  simp [writeByte]

theorem readByte_writeByte (d : List Byte) (i k : Nat) (v : Byte) :
    readByte (writeByte d i v) k = if k = i ∧ i < d.length then v else readByte d k := by
  unfold readByte writeByte
  rw [List.getD_eq_getElem?_getD, List.getD_eq_getElem?_getD, List.getElem?_set]
  by_cases hik : i = k
  · subst hik
    by_cases hlt : i < d.length
    · simp [hlt]
    · simp [hlt, List.getElem?_eq_none (Nat.le_of_not_lt hlt)]
  · have hki : ¬ k = i := fun h => hik h.symm
    simp [hik, hki]

theorem readByte_writeByte_ne (d : List Byte) (i k : Nat) (v : Byte) (h : k ≠ i) :
    readByte (writeByte d i v) k = readByte d k := by
  rw [readByte_writeByte]; simp [h]

theorem readByte_writeByte_same (d : List Byte) (i : Nat) (v : Byte) (h : i < d.length) :
    readByte (writeByte d i v) i = v := by
  rw [readByte_writeByte]; simp [h]

theorem readByte_of_length_le (d : List Byte) (k : Nat) (h : d.length ≤ k) :
    readByte d k = 0 := by
  unfold readByte
  rw [List.getD_eq_getElem?_getD, List.getElem?_eq_none h]; rfl

/-- Two buffers of equal length with equal bytes everywhere are equal. -/
theorem eq_of_readByte_eq (d e : List Byte) (hlen : d.length = e.length)
    (h : ∀ k, k < d.length → readByte d k = readByte e k) : d = e := by
  apply List.ext_getElem hlen
  intro n h1 h2
  have := h n h1
  unfold readByte at this
  rw [List.getD_eq_getElem?_getD, List.getD_eq_getElem?_getD,
    List.getElem?_eq_getElem h1, List.getElem?_eq_getElem h2] at this
  simpa using this

/-! ## Loops over pixels -/

/-- A pass over the pixels `0 .. N-1` whose step `f · p` preserves the length, touches
only the four bytes of pixel `p` and computes them from those four bytes alone: every
visited pixel ends up as if the step had been applied to the initial buffer, and
everything behind pixel `N` is untouched. -/
theorem foldl_range_pixels (f : List Byte → Nat → List Byte) (N : Nat)
    (hlen : ∀ d p, (f d p).length = d.length)
    (hframe : ∀ d p k, (k < 4 * p ∨ 4 * p + 4 ≤ k) → readByte (f d p) k = readByte d k)
    (hlocal : ∀ d e p, d.length = e.length →
      (∀ j, j < 4 → readByte d (4 * p + j) = readByte e (4 * p + j)) →
      ∀ j, j < 4 → readByte (f d p) (4 * p + j) = readByte (f e p) (4 * p + j))
    (d : List Byte) :
    ((List.range N).foldl f d).length = d.length
    ∧ (∀ k, 4 * N ≤ k → readByte ((List.range N).foldl f d) k = readByte d k)
    ∧ (∀ p, p < N → ∀ j, j < 4 →
        readByte ((List.range N).foldl f d) (4 * p + j) = readByte (f d p) (4 * p + j)) := by
  induction N with
  | zero => simp
  | succ n ih =>
    obtain ⟨ihlen, ihrest, ihpix⟩ := ih
    rw [List.range_succ, List.foldl_append]
    simp only [List.foldl_cons, List.foldl_nil]
    refine ⟨by rw [hlen, ihlen], ?_, ?_⟩
    · intro k hk
      rw [hframe _ _ _ (Or.inr (by omega)), ihrest k (by omega)]
    · intro p hp j hj
      by_cases hpn : p = n
      · subst hpn
        apply hlocal _ _ _ ihlen _ j hj
        intro i hi
        exact ihrest _ (by omega)
      · have hlt : p < n := by omega
        rw [hframe _ _ _ (Or.inl (by omega)), ihpix p hlt j hj]

/-- Two nested counting loops visit the cells of a `w`-wide grid in row-major order. -/
theorem foldl_nested_range {S : Type} (g : S → Nat → Nat → S) (w h : Nat) (s : S) :
    (List.range h).foldl (fun s y => (List.range w).foldl (fun s x => g s y x) s) s
      = (List.range (h * w)).foldl (fun s p => g s (p / w) (p % w)) s := by
  induction h with
  | zero => simp
  | succ n ih =>
    rw [List.range_succ, List.foldl_append, ih, Nat.succ_mul, List.range_add,
      List.foldl_append, List.foldl_map]
    simp only [List.foldl_cons, List.foldl_nil]
    apply List.foldl_ext
    intro a x hx
    have hxw : x < w := List.mem_range.mp hx
    have hw : 0 < w := by omega
    have h1 : (n * w + x) / w = n := by
      rw [Nat.mul_comm, Nat.mul_add_div hw, Nat.div_eq_of_lt hxw, Nat.add_zero]
    have h2 : (n * w + x) % w = x := by
      rw [Nat.mul_comm, Nat.mul_add_mod, Nat.mod_eq_of_lt hxw]
    rw [h1, h2]

theorem loopCount_natCast (n : Nat) : loopCount (n : ℚ) = n := by
  simp [loopCount]

theorem castInt_natCast (n : Nat) : castInt (n : ℚ) = n := by
  simp [castInt]

/-- On a `w × h` grid the loops of `convertBuffer` apply `body` once at the byte offset
`4 * p` of every pixel index `p < h * w`, in increasing order. -/
theorem forEachPixel_eq (w h : Nat) (body : List Byte → Nat → List Byte) (data : List Byte) :
    forEachPixel ⟨w, h⟩ body data
      = (List.range (h * w)).foldl (fun d p => body d (4 * p)) data := by
  unfold forEachPixel
  simp only [loopCount_natCast, castInt_natCast]
  rw [foldl_nested_range (fun d y x => body d (y * w * 4 + x * 4)) w h data]
  apply List.foldl_ext
  intro a p _
  have : p / w * w * 4 + p % w * 4 = 4 * p := by
    have := Nat.div_add_mod p w
    have h2 : p / w * w = w * (p / w) := Nat.mul_comm _ _
    rw [h2]; omega
  rw [this]

theorem forEachPixel_spec (body : List Byte → Nat → List Byte)
    (hlen : ∀ d o, (body d o).length = d.length)
    (hframe : ∀ d o k, (k < o ∨ o + 4 ≤ k) → readByte (body d o) k = readByte d k)
    (hlocal : ∀ d e o, d.length = e.length →
      (∀ j, j < 4 → readByte d (o + j) = readByte e (o + j)) →
      ∀ j, j < 4 → readByte (body d o) (o + j) = readByte (body e o) (o + j))
    (w h : Nat) (data : List Byte) :
    (forEachPixel ⟨w, h⟩ body data).length = data.length
    ∧ (∀ k, 4 * (h * w) ≤ k → readByte (forEachPixel ⟨w, h⟩ body data) k = readByte data k)
    ∧ (∀ p, p < h * w → ∀ j, j < 4 →
        readByte (forEachPixel ⟨w, h⟩ body data) (4 * p + j)
          = readByte (body data (4 * p)) (4 * p + j)) := by
  rw [forEachPixel_eq]
  exact foldl_range_pixels (fun d p => body d (4 * p)) (h * w)
    (fun d p => hlen d (4 * p)) (fun d p k hk => hframe d (4 * p) k hk)
    (fun d e p hl hp => hlocal d e (4 * p) hl hp) data

theorem pixel_index_lt (w h x y : Nat) (hx : x < w) (hy : y < h) : y * w + x < h * w := by
  have : (y + 1) * w ≤ h * w := Nat.mul_le_mul_right w hy
  rw [Nat.succ_mul] at this
  omega

/-! ### The red/blue exchange -/

theorem length_swapRedBlue (d : List Byte) (o : Nat) : (swapRedBlue d o).length = d.length := by
  simp [swapRedBlue, length_writeByte]

theorem readByte_swapRedBlue (d : List Byte) (o k : Nat) :
    readByte (swapRedBlue d o) k
      = if k = o ∧ o < d.length then readByte d (o + 2)
        else if k = o + 2 ∧ o + 2 < d.length then readByte d o else readByte d k := by
  simp only [swapRedBlue, readByte_writeByte, length_writeByte]

theorem swapRedBlue_frame (d : List Byte) (o k : Nat) (hk : k < o ∨ o + 4 ≤ k) :
    readByte (swapRedBlue d o) k = readByte d k := by
  rw [readByte_swapRedBlue]
  have h1 : ¬ k = o := by omega
  have h2 : ¬ k = o + 2 := by omega
  simp [h1, h2]

theorem swapRedBlue_local (d e : List Byte) (o : Nat) (hl : d.length = e.length)
    (hp : ∀ j, j < 4 → readByte d (o + j) = readByte e (o + j)) (j : Nat) (hj : j < 4) :
    readByte (swapRedBlue d o) (o + j) = readByte (swapRedBlue e o) (o + j) := by
  rw [readByte_swapRedBlue, readByte_swapRedBlue, hl, hp j hj, hp 2 (by omega)]
  have h0 := hp 0 (by omega)
  simp only [Nat.add_zero] at h0
  rw [h0]

/-- Bytes of a pixel after the exchange, for a pixel inside the buffer. -/
theorem swapRedBlue_pixel (d : List Byte) (o : Nat) (h : o + 4 ≤ d.length) :
    readByte (swapRedBlue d o) o = readByte d (o + 2)
    ∧ readByte (swapRedBlue d o) (o + 1) = readByte d (o + 1)
    ∧ readByte (swapRedBlue d o) (o + 2) = readByte d o
    ∧ readByte (swapRedBlue d o) (o + 3) = readByte d (o + 3) := by
  have h0 : o < d.length := by omega
  have h2 : o + 2 < d.length := by omega
  refine ⟨?_, ?_, ?_, ?_⟩ <;> rw [readByte_swapRedBlue] <;> simp [h0, h2]

theorem forEachPixel_swap_pixel (w h : Nat) (data : List Byte) (hlen : 4 * (h * w) ≤ data.length)
    (p : Nat) (hp : p < h * w) :
    readByte (forEachPixel ⟨w, h⟩ swapRedBlue data) (4 * p) = readByte data (4 * p + 2)
    ∧ readByte (forEachPixel ⟨w, h⟩ swapRedBlue data) (4 * p + 1) = readByte data (4 * p + 1)
    ∧ readByte (forEachPixel ⟨w, h⟩ swapRedBlue data) (4 * p + 2) = readByte data (4 * p)
    ∧ readByte (forEachPixel ⟨w, h⟩ swapRedBlue data) (4 * p + 3) = readByte data (4 * p + 3) := by
  obtain ⟨_, _, hpix⟩ := forEachPixel_spec swapRedBlue length_swapRedBlue swapRedBlue_frame
    swapRedBlue_local w h data
  obtain ⟨s0, s1, s2, s3⟩ := swapRedBlue_pixel data (4 * p) (by omega)
  have e0 := hpix p hp 0 (by omega)
  simp only [Nat.add_zero] at e0
  exact ⟨by rw [e0, s0], by rw [hpix p hp 1 (by omega), s1], by rw [hpix p hp 2 (by omega), s2],
    by rw [hpix p hp 3 (by omega), s3]⟩

/-- Running the exchange pass twice gives back the buffer. -/
theorem forEachPixel_swap_twice (w h : Nat) (data : List Byte)
    (hlen : 4 * (h * w) ≤ data.length) :
    forEachPixel ⟨w, h⟩ swapRedBlue (forEachPixel ⟨w, h⟩ swapRedBlue data) = data := by
  obtain ⟨l1, r1, _⟩ := forEachPixel_spec swapRedBlue length_swapRedBlue swapRedBlue_frame
    swapRedBlue_local w h data
  obtain ⟨l2, r2, _⟩ := forEachPixel_spec swapRedBlue length_swapRedBlue swapRedBlue_frame
    swapRedBlue_local w h (forEachPixel ⟨w, h⟩ swapRedBlue data)
  apply eq_of_readByte_eq _ _ (by rw [l2, l1])
  intro k _
  by_cases hk : 4 * (h * w) ≤ k
  · rw [r2 k hk, r1 k hk]
  · have hp : k / 4 < h * w := by omega
    obtain ⟨a0, a1, a2, a3⟩ := forEachPixel_swap_pixel w h data hlen (k / 4) hp
    obtain ⟨b0, b1, b2, b3⟩ := forEachPixel_swap_pixel w h
      (forEachPixel ⟨w, h⟩ swapRedBlue data) (by rw [l1]; exact hlen) (k / 4) hp
    have hk4 : k = 4 * (k / 4) ∨ k = 4 * (k / 4) + 1 ∨ k = 4 * (k / 4) + 2
        ∨ k = 4 * (k / 4) + 3 := by omega
    rcases hk4 with e | e | e | e
    · rw [e, b0, a2]
    · rw [e, b1, a1]
    · rw [e, b2, a0]
    · rw [e, b3, a3]

/-! ### The 10-bit rescaling -/

theorem length_writeU32 (d : List Byte) (o v : Nat) : (writeU32 d o v).length = d.length := by
  simp [writeU32, length_writeByte]

theorem readByte_writeU32 (d : List Byte) (o v k : Nat) :
    readByte (writeU32 d o v) k
      = if k = o + 3 ∧ o + 3 < d.length then toUInt8 (v / 2 ^ 24)
        else if k = o + 2 ∧ o + 2 < d.length then toUInt8 (v / 2 ^ 16)
        else if k = o + 1 ∧ o + 1 < d.length then toUInt8 (v / 2 ^ 8)
        else if k = o ∧ o < d.length then toUInt8 v else readByte d k := by
  simp only [writeU32, readByte_writeByte, length_writeByte]

theorem readU32_congr (d e : List Byte) (o : Nat)
    (hp : ∀ j, j < 4 → readByte d (o + j) = readByte e (o + j)) : readU32 d o = readU32 e o := by
  have h0 := hp 0 (by omega)
  simp only [Nat.add_zero] at h0
  simp only [readU32, h0, hp 1 (by omega), hp 2 (by omega), hp 3 (by omega)]

theorem length_convertPixel2101010 (FLIP : Bool) (d : List Byte) (o : Nat) :
    (convertPixel2101010 FLIP d o).length = d.length := by
  simp [convertPixel2101010, length_writeU32]

theorem convertPixel2101010_frame (FLIP : Bool) (d : List Byte) (o k : Nat)
    (hk : k < o ∨ o + 4 ≤ k) : readByte (convertPixel2101010 FLIP d o) k = readByte d k := by
  rw [convertPixel2101010, readByte_writeU32]
  have h0 : ¬ k = o := by omega
  have h1 : ¬ k = o + 1 := by omega
  have h2 : ¬ k = o + 2 := by omega
  have h3 : ¬ k = o + 3 := by omega
  simp [h0, h1, h2, h3]

theorem convertPixel2101010_local (FLIP : Bool) (d e : List Byte) (o : Nat)
    (hl : d.length = e.length) (hp : ∀ j, j < 4 → readByte d (o + j) = readByte e (o + j))
    (j : Nat) (hj : j < 4) :
    readByte (convertPixel2101010 FLIP d o) (o + j)
      = readByte (convertPixel2101010 FLIP e o) (o + j) := by
  rw [convertPixel2101010, convertPixel2101010, readByte_writeU32, readByte_writeU32,
    readU32_congr d e o hp, hl, hp j hj]

/-- Bytes of a pixel after the 10-bit conversion, for a pixel inside the buffer. -/
theorem convertPixel2101010_pixel (FLIP : Bool) (d : List Byte) (o : Nat)
    (h : o + 4 ≤ d.length) :
    readByte (convertPixel2101010 FLIP d o) o = toUInt8 (convert2101010 FLIP (readU32 d o))
    ∧ readByte (convertPixel2101010 FLIP d o) (o + 1)
        = toUInt8 (convert2101010 FLIP (readU32 d o) / 2 ^ 8)
    ∧ readByte (convertPixel2101010 FLIP d o) (o + 2)
        = toUInt8 (convert2101010 FLIP (readU32 d o) / 2 ^ 16)
    ∧ readByte (convertPixel2101010 FLIP d o) (o + 3)
        = toUInt8 (convert2101010 FLIP (readU32 d o) / 2 ^ 24) := by
  have h0 : o < d.length := by omega
  have h1 : o + 1 < d.length := by omega
  have h2 : o + 2 < d.length := by omega
  have h3 : o + 3 < d.length := by omega
  refine ⟨?_, ?_, ?_, ?_⟩ <;> rw [convertPixel2101010, readByte_writeU32] <;>
    simp [h0, h1, h2, h3]

/-- The `double` computation `std::round(255.0 * v / 1023.0)` agrees with the integer
formula `(510 v + 1023) / 2046` on every 10-bit value. -/
theorem f64_rescale10 : ∀ v, v < 1024 →
    f64round (f64div (255 * v) 1023) = (510 * v + 1023) / 2046 := by
  decide!

/-- The `double` computation `std::round(255.0 * a / 3.0)` is `85 a` on every 2-bit value. -/
theorem f64_rescale2 : ∀ a, a < 4 → f64round (f64div (255 * a) 3) = 85 * a := by
  decide!

theorem rescaleExact_1023 (v : Nat) : rescaleExact v 1023 = ((510 * v + 1023) / 2046 : Nat) := by
  unfold rescaleExact
  rw [round_eq]
  have h : (255 * (v : ℚ)) / ((1023 : Nat) : ℚ) + 1 / 2
      = (((510 * v + 1023 : Nat) : ℤ) : ℚ) / ((2046 : Nat) : ℚ) := by
    push_cast
    field_simp
    ring
  rw [h, Rat.floor_intCast_div_natCast]
  norm_cast

theorem rescaleExact_3 (a : Nat) : rescaleExact a 3 = ((85 * a : Nat) : ℤ) := by
  unfold rescaleExact
  have h : (255 * (a : ℚ)) / ((3 : Nat) : ℚ) = (((85 * a : Nat) : ℤ) : ℚ) := by
    push_cast
    field_simp
    ring
  rw [h, round_intCast]

theorem and_shiftRight_distrib (a b s : Nat) : (a &&& b) >>> s = (a >>> s) &&& (b >>> s) := by
  apply Nat.eq_of_testBit_eq
  intro i
  simp [Nat.testBit_shiftRight, Nat.testBit_and]

theorem field_extract (px m s n : Nat) (hm : m >>> s = 2 ^ n - 1) :
    (px &&& m) >>> s = px / 2 ^ s % 2 ^ n := by
  rw [and_shiftRight_distrib, hm, Nat.and_pow_two_sub_one_eq_mod, Nat.shiftRight_eq_div_pow]

/-- Four bytes packed into a little-endian word are recovered by shifting and
truncating. -/
theorem pack_bytes (r0 r1 r2 r3 : Nat) (h0 : r0 < 256) (h1 : r1 < 256) (h2 : r2 < 256)
    (h3 : r3 < 256) :
    (r0 % 256 * 2 ^ 0 + r1 % 256 * 2 ^ 8 + r2 % 256 * 2 ^ 16 + r3 % 256 * 2 ^ 24) % 2 ^ 32 % 256
        = r0
    ∧ (r0 % 256 * 2 ^ 0 + r1 % 256 * 2 ^ 8 + r2 % 256 * 2 ^ 16 + r3 % 256 * 2 ^ 24) % 2 ^ 32
        / 2 ^ 8 % 256 = r1
    ∧ (r0 % 256 * 2 ^ 0 + r1 % 256 * 2 ^ 8 + r2 % 256 * 2 ^ 16 + r3 % 256 * 2 ^ 24) % 2 ^ 32
        / 2 ^ 16 % 256 = r2
    ∧ (r0 % 256 * 2 ^ 0 + r1 % 256 * 2 ^ 8 + r2 % 256 * 2 ^ 16 + r3 % 256 * 2 ^ 24) % 2 ^ 32
        / 2 ^ 24 % 256 = r3 := by
  norm_num
  omega

/-- The four bytes of the word produced by `convert2101010`, as integer formulas in the
fields of the input word. -/
theorem convert2101010_bytes (FLIP : Bool) (px : Nat) :
    (toUInt8 (convert2101010 FLIP px)).val
        = (if FLIP then (510 * (px / 2 ^ 20 % 2 ^ 10) + 1023) / 2046
            else (510 * (px % 2 ^ 10) + 1023) / 2046)
    ∧ (toUInt8 (convert2101010 FLIP px / 2 ^ 8)).val = (510 * (px / 2 ^ 10 % 2 ^ 10) + 1023) / 2046
    ∧ (toUInt8 (convert2101010 FLIP px / 2 ^ 16)).val
        = (if FLIP then (510 * (px % 2 ^ 10) + 1023) / 2046
            else (510 * (px / 2 ^ 20 % 2 ^ 10) + 1023) / 2046)
    ∧ (toUInt8 (convert2101010 FLIP px / 2 ^ 24)).val = 85 * (px / 2 ^ 30 % 2 ^ 2) := by
  have e0 : (px &&& 0b00000000000000000000001111111111) >>> 0 = px % 2 ^ 10 := by
    rw [field_extract px _ 0 10 (by decide)]; simp
  have e1 : (px &&& 0b00000000000011111111110000000000) >>> 10 = px / 2 ^ 10 % 2 ^ 10 :=
    field_extract px _ 10 10 (by decide)
  have e2 : (px &&& 0b00111111111100000000000000000000) >>> 20 = px / 2 ^ 20 % 2 ^ 10 :=
    field_extract px _ 20 10 (by decide)
  have e3 : (px &&& 0b11000000000000000000000000000000) >>> 30 = px / 2 ^ 30 % 2 ^ 2 :=
    field_extract px _ 30 2 (by decide)
  have b0 : px % 2 ^ 10 < 1024 := Nat.mod_lt _ (by norm_num)
  have b1 : px / 2 ^ 10 % 2 ^ 10 < 1024 := Nat.mod_lt _ (by norm_num)
  have b2 : px / 2 ^ 20 % 2 ^ 10 < 1024 := Nat.mod_lt _ (by norm_num)
  have b3 : px / 2 ^ 30 % 2 ^ 2 < 4 := Nat.mod_lt _ (by norm_num)
  have r0 : (510 * (px % 2 ^ 10) + 1023) / 2046 < 256 := by omega
  have r1 : (510 * (px / 2 ^ 10 % 2 ^ 10) + 1023) / 2046 < 256 := by omega
  have r2 : (510 * (px / 2 ^ 20 % 2 ^ 10) + 1023) / 2046 < 256 := by omega
  have r3 : 85 * (px / 2 ^ 30 % 2 ^ 2) < 256 := by omega
  unfold convert2101010
  simp only [e0, e1, e2, e3, f64_rescale10 _ b0, f64_rescale10 _ b1, f64_rescale10 _ b2,
    f64_rescale2 _ b3, Nat.shiftLeft_eq, toUInt8]
  cases FLIP
  · simpa using pack_bytes _ _ _ _ r0 r1 r2 r3
  · simpa using pack_bytes _ _ _ _ r2 r1 r0 r3

/-- Claim C1.  For a frame tagged XRGB2101010 or XBGR2101010 whose buffer holds the
`w × h` pixel grid, `convertBuffer` returns normally and replaces the 32-bit word of every
pixel `(x, y)` by a word whose byte 1 is `round(255 * v / 1023)` of the field at bits
10-19 and whose byte 3 is `round(255 * a / 3)` of the field at bits 30-31; bytes 0 and 2
are `round(255 * v / 1023)` of the fields at bits 0-9 and 20-29 for XRGB2101010, and the
same two values exchanged for XBGR2101010 (exact rational arithmetic, round to nearest). -/
theorem convertBuffer_2101010_rescale (b : SPoolBuffer) (w h x y : Nat)
    (hfmt : b.format = WL_SHM_FORMAT_XRGB2101010 ∨ b.format = WL_SHM_FORMAT_XBGR2101010)
    (hsize : b.pixelSize = ⟨w, h⟩) (hlen : 4 * (h * w) ≤ b.data.length)
    (hx : x < w) (hy : y < h) :
    ∃ b', convertBuffer b = .ok b'
      ∧ ((readByte b'.data ((y * w + x) * 4 + 1)).val : ℤ)
          = rescaleExact (readU32 b.data ((y * w + x) * 4) / 2 ^ 10 % 2 ^ 10) 1023
      ∧ ((readByte b'.data ((y * w + x) * 4 + 3)).val : ℤ)
          = rescaleExact (readU32 b.data ((y * w + x) * 4) / 2 ^ 30 % 2 ^ 2) 3
      ∧ (b.format = WL_SHM_FORMAT_XRGB2101010 →
          ((readByte b'.data ((y * w + x) * 4)).val : ℤ)
              = rescaleExact (readU32 b.data ((y * w + x) * 4) % 2 ^ 10) 1023
          ∧ ((readByte b'.data ((y * w + x) * 4 + 2)).val : ℤ)
              = rescaleExact (readU32 b.data ((y * w + x) * 4) / 2 ^ 20 % 2 ^ 10) 1023)
      ∧ (b.format = WL_SHM_FORMAT_XBGR2101010 →
          ((readByte b'.data ((y * w + x) * 4)).val : ℤ)
              = rescaleExact (readU32 b.data ((y * w + x) * 4) / 2 ^ 20 % 2 ^ 10) 1023
          ∧ ((readByte b'.data ((y * w + x) * 4 + 2)).val : ℤ)
              = rescaleExact (readU32 b.data ((y * w + x) * 4) % 2 ^ 10) 1023) := by
  have hp : y * w + x < h * w := pixel_index_lt w h x y hx hy
  have ho : (y * w + x) * 4 = 4 * (y * w + x) := Nat.mul_comm _ _
  have hne : ¬ (b.format = WL_SHM_FORMAT_ARGB8888 ∨ b.format = WL_SHM_FORMAT_XRGB8888) := by
    rcases hfmt with e | e <;> rw [e] <;> decide
  have hne2 : ¬ (b.format = WL_SHM_FORMAT_ABGR8888 ∨ b.format = WL_SHM_FORMAT_XBGR8888) := by
    rcases hfmt with e | e <;> rw [e] <;> decide
  refine ⟨_, by rw [convertBuffer, if_neg hne, if_neg hne2, if_pos hfmt], ?_⟩
  simp only [hsize, ho]
  generalize hF : (decide (b.format = WL_SHM_FORMAT_XBGR2101010) : Bool) = FLIP
  obtain ⟨_, _, hpix⟩ := forEachPixel_spec (convertPixel2101010 FLIP)
    (length_convertPixel2101010 FLIP) (convertPixel2101010_frame FLIP)
    (convertPixel2101010_local FLIP) w h b.data
  obtain ⟨p0, p1, p2, p3⟩ := convertPixel2101010_pixel FLIP b.data (4 * (y * w + x)) (by omega)
  obtain ⟨c0, c1, c2, c3⟩ := convert2101010_bytes FLIP (readU32 b.data (4 * (y * w + x)))
  have q0 := hpix _ hp 0 (by omega)
  simp only [Nat.add_zero] at q0
  have q1 := hpix _ hp 1 (by omega)
  have q2 := hpix _ hp 2 (by omega)
  have q3 := hpix _ hp 3 (by omega)
  rw [q0, q1, q2, q3, p0, p1, p2, p3, c0, c1, c2, c3]
  simp only [rescaleExact_1023, rescaleExact_3]
  refine ⟨trivial, trivial, ?_, ?_⟩
  · intro e
    have : FLIP = false := by rw [← hF, e]; decide
    simp [this]
  · intro e
    have : FLIP = true := by rw [← hF, e]; decide
    simp [this]

/-! ### The 24-bit conversion -/

theorem grid_offset (w p : Nat) : p / w * (w * 4) + p % w * 4 = 4 * p := by
  have h := Nat.div_add_mod p w
  have h2 : p / w * (w * 4) = 4 * (w * (p / w)) := by ring
  rw [h2]
  omega

theorem forEachPixel24_eq (w h : Nat) (body : List Byte → Nat → Nat → List Byte)
    (d : List Byte) :
    forEachPixel24 ⟨w, h⟩ body d
      = (List.range (h * w)).foldl (fun d p => body d (p / w) (p % w)) d := by
  unfold forEachPixel24
  simp only [loopCount_natCast]
  exact foldl_nested_range body w h d

/-- A pass over a `w × h` grid whose body stores four bytes `v0 .. v3`, computed from the
pixel position alone, at offset `y * (w * 4) + x * 4` of a buffer of `4 * h * w` bytes:
afterwards every pixel holds its four bytes. -/
theorem forEachPixel24_store (v0 v1 v2 v3 : Nat → Nat → Byte) (w h : Nat)
    (body : List Byte → Nat → Nat → List Byte)
    (hbody : ∀ d y x, body d y x
      = writeByte (writeByte (writeByte (writeByte d (y * (w * 4) + x * 4) (v0 y x))
          (y * (w * 4) + x * 4 + 1) (v1 y x)) (y * (w * 4) + x * 4 + 2) (v2 y x))
          (y * (w * 4) + x * 4 + 3) (v3 y x))
    (d : List Byte) (hd : d.length = 4 * (h * w)) (x y : Nat) (hx : x < w) (hy : y < h) :
    readByte (forEachPixel24 ⟨w, h⟩ body d) (4 * (y * w + x)) = v0 y x
    ∧ readByte (forEachPixel24 ⟨w, h⟩ body d) (4 * (y * w + x) + 1) = v1 y x
    ∧ readByte (forEachPixel24 ⟨w, h⟩ body d) (4 * (y * w + x) + 2) = v2 y x
    ∧ readByte (forEachPixel24 ⟨w, h⟩ body d) (4 * (y * w + x) + 3) = v3 y x := by
  have hp : y * w + x < h * w := pixel_index_lt w h x y hx hy
  have hw : 0 < w := by omega
  have hdiv : (y * w + x) / w = y := by
    rw [Nat.mul_comm, Nat.mul_add_div hw, Nat.div_eq_of_lt hx, Nat.add_zero]
  have hmod : (y * w + x) % w = x := by
    rw [Nat.mul_comm, Nat.mul_add_mod, Nat.mod_eq_of_lt hx]
  have hread : ∀ (d : List Byte) (p k : Nat), readByte (body d (p / w) (p % w)) k
      = if k = 4 * p + 3 ∧ 4 * p + 3 < d.length then v3 (p / w) (p % w)
        else if k = 4 * p + 2 ∧ 4 * p + 2 < d.length then v2 (p / w) (p % w)
        else if k = 4 * p + 1 ∧ 4 * p + 1 < d.length then v1 (p / w) (p % w)
        else if k = 4 * p ∧ 4 * p < d.length then v0 (p / w) (p % w)
        else readByte d k := by
    intro d p k
    simp only [hbody, readByte_writeByte, length_writeByte, grid_offset]
  rw [forEachPixel24_eq]
  obtain ⟨_, _, hpix⟩ := foldl_range_pixels (fun d p => body d (p / w) (p % w)) (h * w)
    (fun d p => by simp only [hbody, length_writeByte])
    (fun d p k hk => by
      rw [hread]
      have h0 : ¬ k = 4 * p := by omega
      have h1 : ¬ k = 4 * p + 1 := by omega
      have h2 : ¬ k = 4 * p + 2 := by omega
      have h3 : ¬ k = 4 * p + 3 := by omega
      simp [h0, h1, h2, h3])
    (fun d e p hl hagree j hj => by
      simp only [hread, hl, hagree j hj])
    d
  have q0 := hpix _ hp 0 (by omega)
  have q1 := hpix _ hp 1 (by omega)
  have q2 := hpix _ hp 2 (by omega)
  have q3 := hpix _ hp 3 (by omega)
  have hr := hread d (y * w + x)
  rw [hdiv, hmod] at hr
  simp only [Nat.add_zero, hdiv, hmod, hr] at q0 q1 q2 q3
  have l0 : 4 * (y * w + x) < d.length := by omega
  have l1 : 4 * (y * w + x) + 1 < d.length := by omega
  have l2 : 4 * (y * w + x) + 2 < d.length := by omega
  have l3 : 4 * (y * w + x) + 3 < d.length := by omega
  refine ⟨?_, ?_, ?_, ?_⟩
  · rw [q0]; simp [l0]
  · rw [q1]; simp [l1]
  · rw [q2]; simp [l2]
  · rw [q3]; simp [l3]

/-- Sampling a converted `w × h` 24-bit frame at an in-range pixel reads the four bytes
stored for that pixel, in the order red = byte 2, green = byte 1, blue = byte 0,
alpha = byte 3. -/
theorem getColorFromPixel_converted (b : SPoolBuffer) (conv : List Byte) (w h x y : Nat)
    (hsize : b.pixelSize = ⟨w, h⟩) (hx : x < w) (hy : y < h) :
    getColorFromPixel (surfaceOf24BitFrame b conv) ⟨x, y⟩
      = some ⟨readByte conv (4 * (y * w + x) + 2), readByte conv (4 * (y * w + x) + 1),
          readByte conv (4 * (y * w + x)), readByte conv (4 * (y * w + x) + 3)⟩ := by
  have hoff : y * w * 4 + x * 4 = 4 * (y * w + x) := by ring
  have hxw : ¬ ((w : ℚ) ≤ (x : ℚ)) := by
    rw [not_le]; exact_mod_cast hx
  have hyh : ¬ ((h : ℚ) ≤ (y : ℚ)) := by
    rw [not_le]; exact_mod_cast hy
  have hx0 : ¬ ((x : ℚ) < 0) := by
    rw [not_lt]; exact_mod_cast Nat.zero_le x
  have hy0 : ¬ ((y : ℚ) < 0) := by
    rw [not_lt]; exact_mod_cast Nat.zero_le y
  simp only [getColorFromPixel, surfaceOf24BitFrame, hsize, Vector2D.floor, Int.floor_natCast,
    Int.cast_natCast, ge_iff_le, hxw, hyh, hx0, hy0, or_self, if_false, castInt_natCast, hoff]

theorem castInt_bufferSize (w h : Nat) : castInt ((w : ℚ) * (h : ℚ) * 4) = w * h * 4 := by
  have : ((w : ℚ) * (h : ℚ) * 4) = ((w * h * 4 : Nat) : ℚ) := by push_cast; ring
  rw [this, castInt_natCast]

theorem castInt_rowSize (w : Nat) : castInt ((w : ℚ) * 4) = w * 4 := by
  have : ((w : ℚ) * 4) = ((w * 4 : Nat) : ℚ) := by push_cast; ring
  rw [this, castInt_natCast]

/-- The BGR888 half of claims C3 and C4 holds: for a `w × h` BGR888 frame and an in-range
pixel `(x, y)` with source bytes `b0, b1, b2` at offset `y * stride + 3 * x`, sampling the
converted buffer yields `(R, G, B, A) = (b0, b1, b2, 255)`. -/
theorem sample24_BGR888 (b : SPoolBuffer) (w h x y : Nat)
    (hfmt : b.format = WL_SHM_FORMAT_BGR888) (hsize : b.pixelSize = ⟨w, h⟩)
    (hx : x < w) (hy : y < h) :
    sample24 b ⟨x, y⟩
      = .ok (some ⟨readByte b.data (y * b.stride + x * 3),
          readByte b.data (y * b.stride + x * 3 + 1),
          readByte b.data (y * b.stride + x * 3 + 2), 255⟩) := by
  have hlen : (List.replicate (w * h * 4) (0 : Byte)).length = 4 * (h * w) := by
    rw [List.length_replicate]; ring
  obtain ⟨p0, p1, p2, p3⟩ := forEachPixel24_store
    (fun y x => readByte b.data (y * b.stride + x * 3 + 2))
    (fun y x => readByte b.data (y * b.stride + x * 3 + 1))
    (fun y x => readByte b.data (y * b.stride + x * 3)) (fun _ _ => 0xFF) w h
    (convertPixelBGR888 b.data b.stride (w * 4)) (fun _ _ _ => rfl) _ hlen x y hx hy
  simp only [sample24, convert24To32Buffer, hfmt, hsize, if_true, castInt_natCast,
    castInt_bufferSize, castInt_rowSize, getColorFromPixel_converted b _ w h x y hsize hx hy,
    p0, p1, p2, p3]

/-- The RGB888 path in general: for a `w × h` RGB888 frame and an in-range pixel `(x, y)`
with source bytes `b0, b1, b2` at offset `y * stride + 3 * x`, sampling the converted
buffer yields `(R, G, B, A) = (b1, b0, 255, b2)`; the `0xFF` meant for alpha is read back
as blue and the third source byte as alpha. -/
theorem sample24_RGB888 (b : SPoolBuffer) (w h x y : Nat)
    (hfmt : b.format = WL_SHM_FORMAT_RGB888) (hsize : b.pixelSize = ⟨w, h⟩)
    (hx : x < w) (hy : y < h) :
    sample24 b ⟨x, y⟩
      = .ok (some ⟨readByte b.data (y * b.stride + x * 3 + 1),
          readByte b.data (y * b.stride + x * 3), 255,
          readByte b.data (y * b.stride + x * 3 + 2)⟩) := by
  have hlen : (List.replicate (w * h * 4) (0 : Byte)).length = 4 * (h * w) := by
    rw [List.length_replicate]; ring
  have hne : ¬ (WL_SHM_FORMAT_RGB888 = WL_SHM_FORMAT_BGR888) := by decide
  obtain ⟨p0, p1, p2, p3⟩ := forEachPixel24_store (fun _ _ => 0xFF)
    (fun y x => readByte b.data (y * b.stride + x * 3))
    (fun y x => readByte b.data (y * b.stride + x * 3 + 1))
    (fun y x => readByte b.data (y * b.stride + x * 3 + 2)) w h
    (convertPixelRGB888 b.data b.stride (w * 4)) (fun _ _ _ => rfl) _ hlen x y hx hy
  simp only [sample24, convert24To32Buffer, hfmt, hne, hsize, if_true, if_false, castInt_natCast,
    castInt_bufferSize, castInt_rowSize, getColorFromPixel_converted b _ w h x y hsize hx hy,
    p0, p1, p2, p3]

/-- Claim C2.  On a frame tagged ABGR8888 or XBGR8888 whose buffer holds the `w × h`
pixel grid, `convertBuffer` returns normally, exchanges bytes 0 and 2 (blue and red) of
every pixel, leaves bytes 1 and 3 (green and alpha) as they were, and applied to its own
result gives back the original buffer; on a frame tagged ARGB8888 or XRGB8888 it returns
the buffer unchanged. -/
theorem convertBuffer_swap_red_blue (b : SPoolBuffer) (w h : Nat)
    (hsize : b.pixelSize = ⟨w, h⟩) (hlen : 4 * (h * w) ≤ b.data.length) :
    ((b.format = WL_SHM_FORMAT_ABGR8888 ∨ b.format = WL_SHM_FORMAT_XBGR8888) →
      ∃ b', convertBuffer b = .ok b'
        ∧ (∀ x y, x < w → y < h →
            readByte b'.data ((y * w + x) * 4) = readByte b.data ((y * w + x) * 4 + 2)
            ∧ readByte b'.data ((y * w + x) * 4 + 1) = readByte b.data ((y * w + x) * 4 + 1)
            ∧ readByte b'.data ((y * w + x) * 4 + 2) = readByte b.data ((y * w + x) * 4)
            ∧ readByte b'.data ((y * w + x) * 4 + 3) = readByte b.data ((y * w + x) * 4 + 3))
        ∧ convertBuffer b' = .ok b)
    ∧ ((b.format = WL_SHM_FORMAT_ARGB8888 ∨ b.format = WL_SHM_FORMAT_XRGB8888) →
      convertBuffer b = .ok b) := by
  constructor
  · intro hfmt
    have hne : ¬ (b.format = WL_SHM_FORMAT_ARGB8888 ∨ b.format = WL_SHM_FORMAT_XRGB8888) := by
      rcases hfmt with e | e <;> rw [e] <;> decide
    refine ⟨{ b with data := forEachPixel b.pixelSize swapRedBlue b.data },
      by rw [convertBuffer, if_neg hne, if_pos hfmt], ?_, ?_⟩
    · intro x y hx hy
      have ho : (y * w + x) * 4 = 4 * (y * w + x) := Nat.mul_comm _ _
      simp only [hsize, ho]
      exact forEachPixel_swap_pixel w h b.data hlen _ (pixel_index_lt w h x y hx hy)
    · rw [convertBuffer, if_neg hne, if_pos hfmt]
      simp only [hsize, forEachPixel_swap_twice w h b.data hlen]
      cases b
      simp_all
  · intro hfmt
    rw [convertBuffer, if_pos hfmt]

/-- Claim C3 (failing input).  For the `1 × 1` RGB888 frame with source bytes 10, 20, 30
the conversion succeeds and the sampled pixel `(0, 0)` has alpha 30, the third source
byte, not 255: the conversion stores `0xFF` in byte 0 of the pixel, which the sampler
reads as blue. -/
theorem sample24_RGB888_alpha :
    sample24 frameRGB888 ⟨0, 0⟩ = .ok (some ⟨20, 10, 255, 30⟩) := by
  decide!

/-- Claim C4 (failing input).  For the `2 × 1` RGB888 frame with source bytes 1, 2, 3 and
4, 5, 6 the pixel `(1, 0)`, whose source bytes `b0, b1, b2` are 4, 5, 6, is sampled as
`(R, G, B) = (5, 4, 255)`, that is `(b1, b0, 0xFF)`, not `(b2, b1, b0) = (6, 5, 4)`. -/
theorem sample24_RGB888_channels :
    (readByte frameRGB888Wide.data (0 * frameRGB888Wide.stride + 3 * 1),
      readByte frameRGB888Wide.data (0 * frameRGB888Wide.stride + 3 * 1 + 1),
      readByte frameRGB888Wide.data (0 * frameRGB888Wide.stride + 3 * 1 + 2)) = (4, 5, 6)
    ∧ ∃ c, sample24 frameRGB888Wide ⟨1, 0⟩ = .ok (some c) ∧ (c.r, c.g, c.b) = (5, 4, 255) := by
  refine ⟨by decide, ⟨5, 4, 255, 6⟩, by decide!, by decide⟩

/-- Claim C5.  `convertBuffer` terminates the process, with status 1, exactly when the
format tag is none of ARGB8888, XRGB8888, ABGR8888, XBGR8888, XRGB2101010, XBGR2101010,
and returns normally otherwise; `convert24To32Buffer` terminates the process, with
status 1, exactly when the tag is neither BGR888 nor RGB888, and returns normally
otherwise. -/
theorem convert_exit_iff_unsupported (b : SPoolBuffer) :
    (convertBuffer b = .error 1 ↔
      ¬ (b.format = WL_SHM_FORMAT_ARGB8888 ∨ b.format = WL_SHM_FORMAT_XRGB8888
        ∨ b.format = WL_SHM_FORMAT_ABGR8888 ∨ b.format = WL_SHM_FORMAT_XBGR8888
        ∨ b.format = WL_SHM_FORMAT_XRGB2101010 ∨ b.format = WL_SHM_FORMAT_XBGR2101010))
    ∧ ((∃ b', convertBuffer b = .ok b') ↔
      (b.format = WL_SHM_FORMAT_ARGB8888 ∨ b.format = WL_SHM_FORMAT_XRGB8888
        ∨ b.format = WL_SHM_FORMAT_ABGR8888 ∨ b.format = WL_SHM_FORMAT_XBGR8888
        ∨ b.format = WL_SHM_FORMAT_XRGB2101010 ∨ b.format = WL_SHM_FORMAT_XBGR2101010))
    ∧ (∀ code, convertBuffer b = .error code → code = 1)
    ∧ (convert24To32Buffer b = .error 1 ↔
      ¬ (b.format = WL_SHM_FORMAT_BGR888 ∨ b.format = WL_SHM_FORMAT_RGB888))
    ∧ ((∃ d, convert24To32Buffer b = .ok d) ↔
      (b.format = WL_SHM_FORMAT_BGR888 ∨ b.format = WL_SHM_FORMAT_RGB888))
    ∧ (∀ code, convert24To32Buffer b = .error code → code = 1) := by
  refine ⟨?_, ?_, ?_, ?_, ?_, ?_⟩
  · unfold convertBuffer
    split_ifs <;> simp <;> tauto
  · unfold convertBuffer
    split_ifs <;> simp <;> tauto
  · unfold convertBuffer
    split_ifs <;> simp
  · unfold convert24To32Buffer
    split_ifs <;> simp <;> tauto
  · unfold convert24To32Buffer
    split_ifs <;> simp <;> tauto
  · unfold convert24To32Buffer
    split_ifs <;> simp

/-! ### Buffer acquisition -/

/-- The slot a surface hands out, by cases on which slots are allocated and not busy:
slot 1 whenever it is free, else slot 0 when that is free, else none. -/
theorem getBufferForLS_eq (pLS : CLayerSurface) :
    getBufferForLS pLS
      = if (∃ b, pLS.buffers 1 = some b ∧ b.busy = false) then some 1
        else if (∃ b, pLS.buffers 0 = some b ∧ b.busy = false) then some 0 else none := by
  unfold getBufferForLS
  simp only [List.range_succ, List.range_zero, List.nil_append, List.cons_append,
    List.foldl_cons, List.foldl_nil]
  cases h0 : pLS.buffers 0 with
  | none =>
    cases h1 : pLS.buffers 1 with
    | none => simp
    | some b1 => cases hb1 : b1.busy <;> simp [hb1]
  | some b0 =>
    cases h1 : pLS.buffers 1 with
    | none => cases hb0 : b0.busy <;> simp [hb0]
    | some b1 => cases hb0 : b0.busy <;> cases hb1 : b1.busy <;> simp [hb0, hb1]

/-- Claim C6 (counterexample).  The surface `surfaceTwoFree` has both slots allocated and
free, and `getBufferForLS` does not return slot 0 for it: it returns slot 1. -/
theorem getBufferForLS_two_free_not_first :
    (∃ b0 b1, surfaceTwoFree.buffers 0 = some b0 ∧ b0.busy = false
      ∧ surfaceTwoFree.buffers 1 = some b1 ∧ b1.busy = false)
    ∧ getBufferForLS surfaceTwoFree ≠ some 0
    ∧ getBufferForLS surfaceTwoFree = some 1 := by
  refine ⟨⟨freeBuffer 0, freeBuffer 1, by decide, by decide, by decide, by decide⟩,
    by decide, by decide⟩

/-- Claim C6 (amended).  `getBufferForLS` returns the last slot that is allocated and not
busy: slot 1 whenever slot 1 is allocated and free (in particular when both slots are),
and slot 0 when slot 0 is allocated and free while slot 1 is unallocated or busy. -/
theorem getBufferForLS_last_free (pLS : CLayerSurface) :
    ((∃ b1, pLS.buffers 1 = some b1 ∧ b1.busy = false) → getBufferForLS pLS = some 1)
    ∧ ((∃ b0, pLS.buffers 0 = some b0 ∧ b0.busy = false) →
        ¬ (∃ b1, pLS.buffers 1 = some b1 ∧ b1.busy = false) → getBufferForLS pLS = some 0) := by
  rw [getBufferForLS_eq]
  constructor
  · intro h1
    rw [if_pos h1]
  · intro h0 h1
    rw [if_neg h1, if_pos h0]

/-- Claim C7.  `getBufferForLS` returns the null pointer exactly when each of the two
slots is unallocated or busy; whenever it returns a buffer, that buffer is slot 0 or
slot 1 of the surface, is allocated, and its busy flag is false. -/
theorem getBufferForLS_none_iff_all_busy (pLS : CLayerSurface) :
    (getBufferForLS pLS = none ↔
      ∀ i, i < 2 → (pLS.buffers i = none ∨ ∃ b, pLS.buffers i = some b ∧ b.busy = true))
    ∧ (∀ i, getBufferForLS pLS = some i →
        i < 2 ∧ ∃ b, pLS.buffers i = some b ∧ b.busy = false) := by
  rw [getBufferForLS_eq]
  constructor
  · constructor
    · intro h i hi
      split_ifs at h with h1 h0
      have hcase : i = 0 ∨ i = 1 := by omega
      rcases hcase with e | e
      · subst e
        cases hb : pLS.buffers 0 with
        | none => exact Or.inl rfl
        | some b =>
          right
          refine ⟨b, rfl, ?_⟩
          cases hbusy : b.busy
          · exact absurd ⟨b, hb, hbusy⟩ h0
          · rfl
      · subst e
        cases hb : pLS.buffers 1 with
        | none => exact Or.inl rfl
        | some b =>
          right
          refine ⟨b, rfl, ?_⟩
          cases hbusy : b.busy
          · exact absurd ⟨b, hb, hbusy⟩ h1
          · rfl
    · intro h
      have n1 : ¬ ∃ b, pLS.buffers 1 = some b ∧ b.busy = false := by
        rintro ⟨b, hb, hbusy⟩
        rcases h 1 (by omega) with e | ⟨c, hc, hcb⟩
        · rw [hb] at e; cases e
        · rw [hb] at hc; cases hc; rw [hbusy] at hcb; cases hcb
      have n0 : ¬ ∃ b, pLS.buffers 0 = some b ∧ b.busy = false := by
        rintro ⟨b, hb, hbusy⟩
        rcases h 0 (by omega) with e | ⟨c, hc, hcb⟩
        · rw [hb] at e; cases e
        · rw [hb] at hc; cases hc; rw [hbusy] at hcb; cases hcb
      rw [if_neg n1, if_neg n0]
  · intro i h
    split_ifs at h with h1 h0
    · cases h
      exact ⟨by omega, h1⟩
    · cases h
      exact ⟨by omega, h0⟩

/-! ### Coordinates -/

@[simp] theorem Vector2D.add_x (a b : Vector2D) : (a + b).x = toDouble (a.x + b.x) := rfl
@[simp] theorem Vector2D.add_y (a b : Vector2D) : (a + b).y = toDouble (a.y + b.y) := rfl
@[simp] theorem Vector2D.mul_x (a b : Vector2D) : (a * b).x = toDouble (a.x * b.x) := rfl
@[simp] theorem Vector2D.mul_y (a b : Vector2D) : (a * b).y = toDouble (a.y * b.y) := rfl
@[simp] theorem Vector2D.div_x (a b : Vector2D) : (a / b).x = toDouble (a.x / b.x) := rfl
@[simp] theorem Vector2D.div_y (a b : Vector2D) : (a / b).y = toDouble (a.y / b.y) := rfl
@[simp] theorem Vector2D.floor_x (a : Vector2D) : a.floor.x = ⌊a.x⌋ := rfl
@[simp] theorem Vector2D.floor_y (a : Vector2D) : a.floor.y = ⌊a.y⌋ := rfl

/-- A clamped value lies between the bounds when the bounds are ordered. -/
theorem clamp_mem (v lo hi : ℚ) (h : lo ≤ hi) : lo ≤ clamp v lo hi ∧ clamp v lo hi ≤ hi := by
  unfold clamp
  split_ifs with h1 h2
  · exact ⟨le_refl _, h⟩
  · exact ⟨h, le_refl _⟩
  · exact ⟨not_lt.mp h1, not_lt.mp h2⟩

/-- Claim C8.  For every pointer position and nudge offset (any controller state), every
monitor of positive size and every captured frame of size at least 1 per axis, the
coordinate handed to `getColorFromPixel` by `renderSurface` and the one handed to it by
`finalizePickAtCurrent` lie in `[0, frameWidth - 1] × [0, frameHeight - 1]`. -/
theorem lookup_coordinate_in_frame (s : CHyprpicker) (pSurface : CLayerSurface)
    (PBUFFER screenBuffer : SPoolBuffer)
    (_hmx : 0 < pSurface.m_pMonitor.size.x) (_hmy : 0 < pSurface.m_pMonitor.size.y)
    (hfx : 1 ≤ screenBuffer.pixelSize.x) (hfy : 1 ≤ screenBuffer.pixelSize.y) :
    (0 ≤ (renderSurface_centerBuf s pSurface PBUFFER screenBuffer).x
      ∧ (renderSurface_centerBuf s pSurface PBUFFER screenBuffer).x
          ≤ screenBuffer.pixelSize.x - 1
      ∧ 0 ≤ (renderSurface_centerBuf s pSurface PBUFFER screenBuffer).y
      ∧ (renderSurface_centerBuf s pSurface PBUFFER screenBuffer).y
          ≤ screenBuffer.pixelSize.y - 1)
    ∧ (0 ≤ (finalizePickAtCurrent_CLICKPOS s pSurface screenBuffer).x
      ∧ (finalizePickAtCurrent_CLICKPOS s pSurface screenBuffer).x
          ≤ screenBuffer.pixelSize.x - 1
      ∧ 0 ≤ (finalizePickAtCurrent_CLICKPOS s pSurface screenBuffer).y
      ∧ (finalizePickAtCurrent_CLICKPOS s pSurface screenBuffer).y
          ≤ screenBuffer.pixelSize.y - 1) := by
  have hx : (0 : ℚ) ≤ screenBuffer.pixelSize.x - 1 := by linarith
  have hy : (0 : ℚ) ≤ screenBuffer.pixelSize.y - 1 := by linarith
  unfold renderSurface_centerBuf finalizePickAtCurrent_CLICKPOS
  exact ⟨⟨(clamp_mem _ 0 _ hx).1, (clamp_mem _ 0 _ hx).2, (clamp_mem _ 0 _ hy).1,
      (clamp_mem _ 0 _ hy).2⟩,
    ⟨(clamp_mem _ 0 _ hx).1, (clamp_mem _ 0 _ hx).2, (clamp_mem _ 0 _ hy).1,
      (clamp_mem _ 0 _ hy).2⟩⟩

/-- Clamping does not increase the distance of two numbers. -/
theorem clamp_lipschitz (v w lo hi : ℚ) (h : lo ≤ hi) :
    |clamp v lo hi - clamp w lo hi| ≤ |v - w| := by
  unfold clamp
  split_ifs <;> rw [abs_le] <;> constructor <;>
    first
    | linarith [neg_abs_le (v - w), le_abs_self (v - w)]

/-- The three rounded operations of the pick (`a * f + n` with `a` itself a rounded
quotient) stay within the fraction `2 ^ -51` of the exact value. -/
theorem toDouble_chain_error (a f n : ℚ) :
    |toDouble (toDouble (toDouble a * f) + n) - (a * f + n)| ≤ (|a * f| + |n|) / 2 ^ 51 := by
  have e1 := toDouble_error a
  have e2 := toDouble_error (toDouble a * f)
  have e3 := toDouble_error (toDouble (toDouble a * f) + n)
  set A := toDouble a with hA
  set B := toDouble (A * f) with hB
  set C := toDouble (B + n) with hC
  have d1 : |A * f - a * f| ≤ |a * f| / 2 ^ 53 := by
    have e : A * f - a * f = (A - a) * f := by ring
    rw [e, abs_mul, abs_mul, mul_div_right_comm]
    exact mul_le_mul_of_nonneg_right e1 (abs_nonneg f)
  have b1 : |A * f| ≤ |a * f| + |A * f - a * f| := by
    have := abs_sub_abs_le_abs_sub (A * f) (a * f)
    linarith
  have b2 : |B| ≤ |A * f| + |B - A * f| := by
    have := abs_sub_abs_le_abs_sub B (A * f)
    linarith
  have b3 : |B + n| ≤ |B| + |n| := abs_add B n
  have t : |C - (a * f + n)| ≤ |C - (B + n)| + |B - A * f| + |A * f - a * f| := by
    have e : C - (a * f + n) = (C - (B + n)) + (B - A * f) + (A * f - a * f) := by ring
    rw [e]
    exact abs_add_three _ _ _
  have hL : 0 ≤ |a * f| := abs_nonneg _
  have hn : 0 ≤ |n| := abs_nonneg _
  have p53 : (2 : ℚ) ^ 53 = 9007199254740992 := by norm_num
  have p51 : (2 : ℚ) ^ 51 = 2251799813685248 := by norm_num
  rw [p53] at e1 e2 e3 d1
  rw [p51]
  generalize |a * f| = L at *
  generalize |n| = N at *
  generalize |A * f| = X at *
  generalize |B| = Y at *
  generalize |B + n| = Z at *
  generalize |C - (B + n)| = D3 at *
  generalize |B - A * f| = D2 at *
  generalize |A * f - a * f| = D1 at *
  generalize |C - (a * f + n)| = T at *
  linarith

/-- Claim C9 (counterexample).  With the pointer at the logical position `x = 1.5` on a
monitor 2 units wide and a frame 4 pixels wide, `finalizePickAtCurrent` samples `x = 2`,
not the `x = 3` of the claimed formula: the position is rounded down before the
conversion.  With the pointer at `x = 123` on a monitor 1920 units wide and a frame 1920
pixels wide the claimed formula gives 123 and the code `122.99999999999999`, the pixel
122: each operation is rounded to binary64. -/
theorem finalizePick_not_raw_pointer :
    (finalizePickAtCurrent_CLICKPOS stateHalfPixel surfaceTwoFree frame4x1).x
      ≠ clamp (logicalToFrame stateHalfPixel.m_vLastCoords.x surfaceTwoFree.m_pMonitor.size.x
          frame4x1.pixelSize.x + stateHalfPixel.m_vNudgeBufPx.x) 0 (frame4x1.pixelSize.x - 1)
    ∧ (finalizePickAtCurrent_CLICKPOS stateHalfPixel surfaceTwoFree frame4x1).x = 2
    ∧ clamp (logicalToFrame stateHalfPixel.m_vLastCoords.x surfaceTwoFree.m_pMonitor.size.x
          frame4x1.pixelSize.x + stateHalfPixel.m_vNudgeBufPx.x) 0 (frame4x1.pixelSize.x - 1) = 3
    ∧ stateHalfPixel.m_vLastCoords.x = 3 / 2
    ∧ (finalizePickAtCurrent_CLICKPOS stateAt123 surface1080p buffer1080p).x
      = 8655355533852671 / 70368744177664
    ∧ ⌊(finalizePickAtCurrent_CLICKPOS stateAt123 surface1080p buffer1080p).x⌋ = 122
    ∧ clamp (logicalToFrame stateAt123.m_vLastCoords.x surface1080p.m_pMonitor.size.x
          buffer1080p.pixelSize.x + stateAt123.m_vNudgeBufPx.x) 0 (buffer1080p.pixelSize.x - 1)
        = 123 := by
  decide!

/-- Claim C9 (amended).  The frame-space position sampled by `finalizePickAtCurrent` is,
per axis, `clamp(fl(fl(fl(floor(pointLogical) / monitorLogicalSize) × frameSize) + nudge),
0, frameSize - 1)` with `fl` the rounding to binary64: the pointer position is rounded
down to whole logical units, converted, the nudge is added after the conversion and before
clamping.  For a frame size of at least 1 it differs from
`clamp(floor(pointLogical) / monitorLogicalSize × frameSize + nudge, 0, frameSize - 1)` by
at most the fraction `2 ^ -51` of `|floor(pointLogical) / monitorLogicalSize × frameSize|
+ |nudge|`. -/
theorem finalizePick_position (s : CHyprpicker) (pLastSurface : CLayerSurface)
    (screenBuffer : SPoolBuffer)
    (hfx : 1 ≤ screenBuffer.pixelSize.x) (hfy : 1 ≤ screenBuffer.pixelSize.y) :
    (finalizePickAtCurrent_CLICKPOS s pLastSurface screenBuffer).x
      = clamp (toDouble (toDouble (toDouble (⌊s.m_vLastCoords.x⌋ / pLastSurface.m_pMonitor.size.x)
          * screenBuffer.pixelSize.x) + s.m_vNudgeBufPx.x)) 0 (screenBuffer.pixelSize.x - 1)
    ∧ (finalizePickAtCurrent_CLICKPOS s pLastSurface screenBuffer).y
      = clamp (toDouble (toDouble (toDouble (⌊s.m_vLastCoords.y⌋ / pLastSurface.m_pMonitor.size.y)
          * screenBuffer.pixelSize.y) + s.m_vNudgeBufPx.y)) 0 (screenBuffer.pixelSize.y - 1)
    ∧ |(finalizePickAtCurrent_CLICKPOS s pLastSurface screenBuffer).x
        - clamp (logicalToFrame ⌊s.m_vLastCoords.x⌋ pLastSurface.m_pMonitor.size.x
            screenBuffer.pixelSize.x + s.m_vNudgeBufPx.x) 0 (screenBuffer.pixelSize.x - 1)|
      ≤ (|logicalToFrame ⌊s.m_vLastCoords.x⌋ pLastSurface.m_pMonitor.size.x
            screenBuffer.pixelSize.x| + |s.m_vNudgeBufPx.x|) / 2 ^ 51
    ∧ |(finalizePickAtCurrent_CLICKPOS s pLastSurface screenBuffer).y
        - clamp (logicalToFrame ⌊s.m_vLastCoords.y⌋ pLastSurface.m_pMonitor.size.y
            screenBuffer.pixelSize.y + s.m_vNudgeBufPx.y) 0 (screenBuffer.pixelSize.y - 1)|
      ≤ (|logicalToFrame ⌊s.m_vLastCoords.y⌋ pLastSurface.m_pMonitor.size.y
            screenBuffer.pixelSize.y| + |s.m_vNudgeBufPx.y|) / 2 ^ 51 := by
  have hx : (finalizePickAtCurrent_CLICKPOS s pLastSurface screenBuffer).x
      = clamp (toDouble (toDouble (toDouble (⌊s.m_vLastCoords.x⌋ / pLastSurface.m_pMonitor.size.x)
          * screenBuffer.pixelSize.x) + s.m_vNudgeBufPx.x)) 0 (screenBuffer.pixelSize.x - 1) := rfl
  have hy : (finalizePickAtCurrent_CLICKPOS s pLastSurface screenBuffer).y
      = clamp (toDouble (toDouble (toDouble (⌊s.m_vLastCoords.y⌋ / pLastSurface.m_pMonitor.size.y)
          * screenBuffer.pixelSize.y) + s.m_vNudgeBufPx.y)) 0 (screenBuffer.pixelSize.y - 1) := rfl
  refine ⟨hx, hy, ?_, ?_⟩
  · rw [hx]
    exact le_trans (clamp_lipschitz _ _ 0 _ (by linarith)) (toDouble_chain_error _ _ _)
  · rw [hy]
    exact le_trans (clamp_lipschitz _ _ 0 _ (by linarith)) (toDouble_chain_error _ _ _)

/-! ### Pointer events -/

/-- The pass `markDirty` changes nothing of a surface but its redraw-request flags. -/
theorem markDirty_surfaces (s : CHyprpicker) :
    (markDirty s).m_vLayerSurfaces.map
        (fun ls => { ls with frameCallback := false, dirty := false })
      = s.m_vLayerSurfaces.map (fun ls => { ls with frameCallback := false, dirty := false }) := by
  simp only [markDirty, List.map_map]
  apply List.map_congr_left
  intro ls _
  simp only [Function.comp]
  split_ifs
  · rfl
  · rfl

/-- Claim C10.  After a pointer-motion event and after a pointer-enter event the nudge
offset is `(0, 0)` whatever it was before.  A motion event sets the last pointer
coordinates to the reported position and leaves every other member of the controller as
it was, in particular the focused surface, the zoom state and the pick buffer; of the
surfaces only the redraw-request flags set by `markDirty` may differ. -/
theorem pointer_event_resets_nudge (s : CHyprpicker) (surface : Nat) (surface_x surface_y : Int) :
    (setMotion s surface_x surface_y).m_vNudgeBufPx = ⟨0, 0⟩
    ∧ (setEnter s surface surface_x surface_y).m_vNudgeBufPx = ⟨0, 0⟩
    ∧ (setMotion s surface_x surface_y).m_vLastCoords
        = ⟨wl_fixed_to_double surface_x, wl_fixed_to_double surface_y⟩
    ∧ { setMotion s surface_x surface_y with
          m_vLastCoords := s.m_vLastCoords, m_vNudgeBufPx := s.m_vNudgeBufPx,
          m_vLayerSurfaces := s.m_vLayerSurfaces } = s
    ∧ (setMotion s surface_x surface_y).m_vLayerSurfaces.map
          (fun ls => { ls with frameCallback := false, dirty := false })
        = s.m_vLayerSurfaces.map (fun ls => { ls with frameCallback := false, dirty := false })
    ∧ (setMotion s surface_x surface_y).m_pLastSurface = s.m_pLastSurface
    ∧ (setMotion s surface_x surface_y).m_multiBuffer = s.m_multiBuffer
    ∧ (setMotion s surface_x surface_y).m_multiMode = s.m_multiMode
    ∧ ((setMotion s surface_x surface_y).m_zoomRadiusTargetSrcPx = s.m_zoomRadiusTargetSrcPx
      ∧ (setMotion s surface_x surface_y).m_zoomRadiusCurrentSrcPx = s.m_zoomRadiusCurrentSrcPx
      ∧ (setMotion s surface_x surface_y).m_zoomRadiusVel = s.m_zoomRadiusVel
      ∧ (setMotion s surface_x surface_y).m_zoomMagTarget = s.m_zoomMagTarget
      ∧ (setMotion s surface_x surface_y).m_zoomMagCurrent = s.m_zoomMagCurrent
      ∧ (setMotion s surface_x surface_y).m_zoomMagVel = s.m_zoomMagVel
      ∧ (setMotion s surface_x surface_y).m_zoomMagBase = s.m_zoomMagBase
      ∧ (setMotion s surface_x surface_y).m_zoomMagBaseSet = s.m_zoomMagBaseSet
      ∧ (setMotion s surface_x surface_y).m_lockAperture = s.m_lockAperture
      ∧ (setMotion s surface_x surface_y).m_lockedAperture = s.m_lockedAperture
      ∧ (setMotion s surface_x surface_y).m_apertureBaseUI = s.m_apertureBaseUI
      ∧ (setMotion s surface_x surface_y).m_apertureBaseSet = s.m_apertureBaseSet
      ∧ (setMotion s surface_x surface_y).m_zoomAnimInitialized = s.m_zoomAnimInitialized) := by
  refine ⟨rfl, ?_, rfl, ?_, ?_, rfl, rfl, rfl, rfl, rfl, rfl, rfl, rfl, rfl, rfl, rfl, rfl, rfl,
    rfl, rfl, rfl⟩
  · unfold setEnter
    simp only [markDirty]
    split <;> rfl
  · cases s
    rfl
  · exact markDirty_surfaces _

/-! ### Witnesses at concrete inputs -/

/-- Claim C1 at the `1 × 1` XBGR2101010 frame `frame2101010`. -/
theorem convertBuffer_2101010_rescale_witness :
    ∃ b', convertBuffer frame2101010 = .ok b'
      ∧ ((readByte b'.data 1).val : ℤ)
          = rescaleExact (readU32 frame2101010.data 0 / 2 ^ 10 % 2 ^ 10) 1023
      ∧ ((readByte b'.data 3).val : ℤ)
          = rescaleExact (readU32 frame2101010.data 0 / 2 ^ 30 % 2 ^ 2) 3
      ∧ (frame2101010.format = WL_SHM_FORMAT_XRGB2101010 →
          ((readByte b'.data 0).val : ℤ)
              = rescaleExact (readU32 frame2101010.data 0 % 2 ^ 10) 1023
          ∧ ((readByte b'.data 2).val : ℤ)
              = rescaleExact (readU32 frame2101010.data 0 / 2 ^ 20 % 2 ^ 10) 1023)
      ∧ (frame2101010.format = WL_SHM_FORMAT_XBGR2101010 →
          ((readByte b'.data 0).val : ℤ)
              = rescaleExact (readU32 frame2101010.data 0 / 2 ^ 20 % 2 ^ 10) 1023
          ∧ ((readByte b'.data 2).val : ℤ)
              = rescaleExact (readU32 frame2101010.data 0 % 2 ^ 10) 1023) :=
  convertBuffer_2101010_rescale frame2101010 1 1 0 0 (Or.inr rfl) rfl (by decide) (by decide)
    (by decide)

/-- Claim C2 at the `2 × 1` XBGR8888 frame `frameXBGR8888`. -/
theorem convertBuffer_swap_red_blue_witness :
    ∃ b', convertBuffer frameXBGR8888 = .ok b'
      ∧ (∀ x y, x < 2 → y < 1 →
          readByte b'.data ((y * 2 + x) * 4) = readByte frameXBGR8888.data ((y * 2 + x) * 4 + 2)
          ∧ readByte b'.data ((y * 2 + x) * 4 + 1)
              = readByte frameXBGR8888.data ((y * 2 + x) * 4 + 1)
          ∧ readByte b'.data ((y * 2 + x) * 4 + 2) = readByte frameXBGR8888.data ((y * 2 + x) * 4)
          ∧ readByte b'.data ((y * 2 + x) * 4 + 3)
              = readByte frameXBGR8888.data ((y * 2 + x) * 4 + 3))
      ∧ convertBuffer b' = .ok frameXBGR8888 :=
  (convertBuffer_swap_red_blue frameXBGR8888 2 1 rfl (by decide)).1 (Or.inr rfl)

/-- Claim C5 at the RGB888 frame `frameRGB888`, a tag `convertBuffer` does not support
and `convert24To32Buffer` does. -/
theorem convert_exit_iff_unsupported_witness :
    convertBuffer frameRGB888 = .error 1 ∧ ∃ d, convert24To32Buffer frameRGB888 = .ok d :=
  ⟨(convert_exit_iff_unsupported frameRGB888).1.mpr (by decide),
   (convert_exit_iff_unsupported frameRGB888).2.2.2.2.1.mpr (Or.inr rfl)⟩

/-- Claim C6 (amended) at `surfaceTwoFree`, whose two slots are allocated and free. -/
theorem getBufferForLS_last_free_witness : getBufferForLS surfaceTwoFree = some 1 :=
  (getBufferForLS_last_free surfaceTwoFree).1 ⟨freeBuffer 1, by decide, by decide⟩

/-- Claim C7 at `surfaceTwoFree`: the slot handed out is one of the two and is free. -/
theorem getBufferForLS_none_iff_all_busy_witness :
    1 < 2 ∧ ∃ b, surfaceTwoFree.buffers 1 = some b ∧ b.busy = false :=
  (getBufferForLS_none_iff_all_busy surfaceTwoFree).2 1 (by decide)

/-- Claim C8 at a pointer far outside the monitor with a large nudge. -/
theorem lookup_coordinate_in_frame_witness :
    (0 ≤ (renderSurface_centerBuf stateOutside surfaceTwoFree (freeBuffer 0) frame4x1).x
      ∧ (renderSurface_centerBuf stateOutside surfaceTwoFree (freeBuffer 0) frame4x1).x
          ≤ frame4x1.pixelSize.x - 1
      ∧ 0 ≤ (renderSurface_centerBuf stateOutside surfaceTwoFree (freeBuffer 0) frame4x1).y
      ∧ (renderSurface_centerBuf stateOutside surfaceTwoFree (freeBuffer 0) frame4x1).y
          ≤ frame4x1.pixelSize.y - 1)
    ∧ (0 ≤ (finalizePickAtCurrent_CLICKPOS stateOutside surfaceTwoFree frame4x1).x
      ∧ (finalizePickAtCurrent_CLICKPOS stateOutside surfaceTwoFree frame4x1).x
          ≤ frame4x1.pixelSize.x - 1
      ∧ 0 ≤ (finalizePickAtCurrent_CLICKPOS stateOutside surfaceTwoFree frame4x1).y
      ∧ (finalizePickAtCurrent_CLICKPOS stateOutside surfaceTwoFree frame4x1).y
          ≤ frame4x1.pixelSize.y - 1) :=
  lookup_coordinate_in_frame stateOutside surfaceTwoFree (freeBuffer 0) frame4x1
    (by norm_num [surfaceTwoFree]) (by norm_num [surfaceTwoFree]) (by norm_num [frame4x1])
    (by norm_num [frame4x1])

/-! ## The spring update -/

theorem f64sqrt_1000 : f64sqrt 1000 = ⟨8901020307485223, 48⟩ := by
  decide!

theorem SPRING_C_eq : SPRING_C = 8901020307485223 / 2 ^ 47 := by
  unfold SPRING_C SPRING_ZETA
  rw [f64sqrt_1000]
  simp only [F64.toRat]
  norm_num

/-- Numerical facts about the damping coefficient: it is positive, below 64, and slightly
below the critical value `2 * sqrt(k)`, by less than `10 ^ (-12)` in the square. -/
theorem SPRING_C_bounds :
    0 < SPRING_C ∧ SPRING_C ≤ 64 ∧ 63 ≤ SPRING_C ∧ 2 * SPRING_K ≤ SPRING_C ^ 2
      ∧ SPRING_K - 1 / 10 ^ 12 ≤ SPRING_C ^ 2 / 4 ∧ SPRING_C ^ 2 < 4 * SPRING_K := by
  rw [SPRING_C_eq]
  unfold SPRING_K
  norm_num

/-- The spring update without the snap, as a linear map of displacement and velocity. -/
theorem springUpdate_eq (x t v dt : ℚ) :
    springUpdate x t v dt
      = if |(x + (v + (-SPRING_K * (x - t) - SPRING_C * v) * dt) * dt) - t| < 1 / 100
            ∧ |v + (-SPRING_K * (x - t) - SPRING_C * v) * dt| < 1 / 100 then (t, 0)
        else (x + (v + (-SPRING_K * (x - t) - SPRING_C * v) * dt) * dt,
              v + (-SPRING_K * (x - t) - SPRING_C * v) * dt) := by
  rfl

/-- One update from an approaching state stays approaching and shrinks the displacement by
the factor `1 - k dt²` at least. -/
theorem springUpdate_approaching (x t v dt : ℚ) (hs : GoodStep dt) (h : Approaching x t v) :
    Approaching (springUpdate x t v dt).1 t (springUpdate x t v dt).2
    ∧ (springUpdate x t v dt).1 - t ≤ (1 - SPRING_K * dt ^ 2) * (x - t) := by
  obtain ⟨hdt, hcdt, hF⟩ := hs
  obtain ⟨hx, hv, hvx⟩ := h
  obtain ⟨hc0, _, _, hc2k, _, _⟩ := SPRING_C_bounds
  have hk : (0 : ℚ) < SPRING_K := by unfold SPRING_K; norm_num
  set c := SPRING_C with hc
  set k := SPRING_K with hkk
  have he : 0 ≤ x - t := by linarith
  have hkdt : k * dt ^ 2 ≤ 1 / 2 := by
    have h1 : (c * dt) ^ 2 ≤ 1 := by
      have : 0 ≤ c * dt := by positivity
      nlinarith
    have h2 : (c * dt) ^ 2 = c ^ 2 * dt ^ 2 := by ring
    have h3 : 2 * k * dt ^ 2 ≤ c ^ 2 * dt ^ 2 :=
      mul_le_mul_of_nonneg_right hc2k (by positivity)
    linarith
  -- the raw update
  have hv' : v + (-k * (x - t) - c * v) * dt ≤ 0 := by
    have e : v + (-k * (x - t) - c * v) * dt = (1 - c * dt) * v - k * dt * (x - t) := by ring
    rw [e]
    have a1 : (1 - c * dt) * v ≤ 0 := mul_nonpos_of_nonneg_of_nonpos (by linarith) hv
    have a2 : 0 ≤ k * dt * (x - t) := by positivity
    linarith
  have hx'le : (x + (v + (-k * (x - t) - c * v) * dt) * dt) - t ≤ (1 - k * dt ^ 2) * (x - t) := by
    have e : (x + (v + (-k * (x - t) - c * v) * dt) * dt) - t
        = (1 - k * dt ^ 2) * (x - t) + dt * ((1 - c * dt) * v) := by ring
    rw [e]
    have a1 : (1 - c * dt) * v ≤ 0 := mul_nonpos_of_nonneg_of_nonpos (by linarith) hv
    have a2 : dt * ((1 - c * dt) * v) ≤ 0 := mul_nonpos_of_nonneg_of_nonpos (le_of_lt hdt) a1
    linarith
  have hx' : t ≤ x + (v + (-k * (x - t) - c * v) * dt) * dt := by
    have e : (x + (v + (-k * (x - t) - c * v) * dt) * dt) - t
        = (1 - c / 2 * dt + (c ^ 2 / 2 - k) * dt ^ 2) * (x - t)
          + dt * (1 - c * dt) * (v + c / 2 * (x - t)) := by ring
    have a1 : 0 ≤ 1 - c / 2 * dt + (c ^ 2 / 2 - k) * dt ^ 2 := by
      have : 0 ≤ (c ^ 2 / 2 - k) * dt ^ 2 := mul_nonneg (by linarith) (by positivity)
      linarith
    have a2 : 0 ≤ dt * (1 - c * dt) * (v + c / 2 * (x - t)) :=
      mul_nonneg (mul_nonneg (le_of_lt hdt) (by linarith)) (by linarith)
    have a3 : 0 ≤ (1 - c / 2 * dt + (c ^ 2 / 2 - k) * dt ^ 2) * (x - t) := mul_nonneg a1 he
    linarith
  have hvx' : -(c / 2) * ((x + (v + (-k * (x - t) - c * v) * dt) * dt) - t)
      ≤ v + (-k * (x - t) - c * v) * dt := by
    have e : (v + (-k * (x - t) - c * v) * dt)
          + (c / 2) * ((x + (v + (-k * (x - t) - c * v) * dt) * dt) - t)
        = (1 - c * dt) * (1 + c / 2 * dt) * (v + c / 2 * (x - t))
          + dt * ((c ^ 2 / 4 - k) + dt * (c / 2) * (c ^ 2 / 2 - k)) * (x - t) := by ring
    have a1 : 0 ≤ (1 - c * dt) * (1 + c / 2 * dt) * (v + c / 2 * (x - t)) :=
      mul_nonneg (mul_nonneg (by linarith) (by positivity)) (by linarith)
    have a2 : 0 ≤ dt * ((c ^ 2 / 4 - k) + dt * (c / 2) * (c ^ 2 / 2 - k)) * (x - t) :=
      mul_nonneg (mul_nonneg (le_of_lt hdt) hF) he
    linarith
  rw [springUpdate_eq]
  split_ifs with hsnap
  · refine ⟨⟨le_refl _, le_refl _, by simp⟩, ?_⟩
    have : 0 ≤ (1 - k * dt ^ 2) * (x - t) := mul_nonneg (by linarith) he
    simpa using this
  · exact ⟨⟨hx', hv', hvx'⟩, hx'le⟩

/-- The update commutes with the reflection of value and velocity about the target. -/
theorem springUpdate_mirror (x t v dt : ℚ) :
    springUpdate (2 * t - x) t (-v) dt
      = (2 * t - (springUpdate x t v dt).1, -(springUpdate x t v dt).2) := by
  have e1 : (2 * t - x + (-v + (-SPRING_K * (2 * t - x - t) - SPRING_C * -v) * dt) * dt) - t
      = -((x + (v + (-SPRING_K * (x - t) - SPRING_C * v) * dt) * dt) - t) := by ring
  have e2 : -v + (-SPRING_K * (2 * t - x - t) - SPRING_C * -v) * dt
      = -(v + (-SPRING_K * (x - t) - SPRING_C * v) * dt) := by ring
  rw [springUpdate_eq, springUpdate_eq, e1, e2, abs_neg, abs_neg]
  split_ifs with h
  · simp
    ring
  · simp only [Prod.mk.injEq, and_true]
    ring

theorem springIterate_mirror (t dt x0 : ℚ) (n : Nat) :
    springIterate t dt (2 * t - x0) n
      = (2 * t - (springIterate t dt x0 n).1, -(springIterate t dt x0 n).2) := by
  induction n with
  | zero => simp [springIterate]
  | succ n ih =>
    simp only [springIterate]
    rw [ih, springUpdate_mirror]

/-- Starting at rest on the upper side of the target, every iterate is approaching and the
displacement decays geometrically. -/
theorem springIterate_approaching (t dt x0 : ℚ) (hs : GoodStep dt) (h0 : t ≤ x0) (n : Nat) :
    Approaching (springIterate t dt x0 n).1 t (springIterate t dt x0 n).2
    ∧ (springIterate t dt x0 n).1 - t ≤ (1 - SPRING_K * dt ^ 2) ^ n * (x0 - t) := by
  obtain ⟨hc0, _, _, hc2k, _, _⟩ := SPRING_C_bounds
  have hrho : 0 ≤ 1 - SPRING_K * dt ^ 2 := by
    obtain ⟨hdt, hcdt, _⟩ := hs
    have h1 : (SPRING_C * dt) ^ 2 ≤ 1 := by
      have : 0 ≤ SPRING_C * dt := by positivity
      nlinarith
    have h2 : (SPRING_C * dt) ^ 2 = SPRING_C ^ 2 * dt ^ 2 := by ring
    have h3 : 2 * SPRING_K * dt ^ 2 ≤ SPRING_C ^ 2 * dt ^ 2 :=
      mul_le_mul_of_nonneg_right hc2k (by positivity)
    have h4 : (0 : ℚ) ≤ SPRING_K * dt ^ 2 := by
      unfold SPRING_K; positivity
    linarith
  induction n with
  | zero =>
    refine ⟨⟨h0, le_refl _, ?_⟩, by simp [springIterate]⟩
    simp only [springIterate]
    have : 0 ≤ SPRING_C / 2 * (x0 - t) := mul_nonneg (by linarith) (by linarith)
    linarith
  | succ n ih =>
    obtain ⟨ihA, ihle⟩ := ih
    obtain ⟨hA, hle⟩ := springUpdate_approaching _ t _ dt hs ihA
    simp only [springIterate]
    refine ⟨hA, le_trans hle ?_⟩
    calc (1 - SPRING_K * dt ^ 2) * ((springIterate t dt x0 n).1 - t)
        ≤ (1 - SPRING_K * dt ^ 2) * ((1 - SPRING_K * dt ^ 2) ^ n * (x0 - t)) :=
          mul_le_mul_of_nonneg_left ihle hrho
      _ = (1 - SPRING_K * dt ^ 2) ^ (n + 1) * (x0 - t) := by ring

/-- From the upper side the iterates come within `1 / 100` of the target and stay there. -/
theorem springIterate_converges_upper (t dt x0 : ℚ) (hs : GoodStep dt) (h0 : t ≤ x0) :
    ∃ N, ∀ n, N ≤ n → |(springIterate t dt x0 n).1 - t| < 1 / 100 := by
  have hk : (0 : ℚ) < SPRING_K * dt ^ 2 := by
    obtain ⟨hdt, _, _⟩ := hs
    unfold SPRING_K; positivity
  have hrho0 : 0 ≤ 1 - SPRING_K * dt ^ 2 := by
    have := (springIterate_approaching t dt x0 hs h0 1).2
    have hA := (springIterate_approaching t dt (t + 1) hs (by linarith) 1)
    have h1 := hA.1.1
    have h2 := hA.2
    simp only [pow_one] at h2
    linarith
  have hrho1 : 1 - SPRING_K * dt ^ 2 < 1 := by linarith
  have heps : (0 : ℚ) < 1 / 100 / (x0 - t + 1) := by
    apply div_pos (by norm_num); linarith
  obtain ⟨N, hN⟩ := exists_pow_lt_of_lt_one heps hrho1
  refine ⟨N, fun n hn => ?_⟩
  obtain ⟨hA, hle⟩ := springIterate_approaching t dt x0 hs h0 n
  have hnn : 0 ≤ (springIterate t dt x0 n).1 - t := by linarith [hA.1]
  rw [abs_of_nonneg hnn]
  have hpow : (1 - SPRING_K * dt ^ 2) ^ n ≤ (1 - SPRING_K * dt ^ 2) ^ N :=
    pow_le_pow_of_le_one hrho0 (le_of_lt hrho1) hn
  have hx : 0 ≤ x0 - t := by linarith
  have h1 : (1 - SPRING_K * dt ^ 2) ^ n * (x0 - t) ≤ (1 - SPRING_K * dt ^ 2) ^ N * (x0 - t) :=
    mul_le_mul_of_nonneg_right hpow hx
  have h2 : (1 - SPRING_K * dt ^ 2) ^ N * (x0 - t) ≤ 1 / 100 / (x0 - t + 1) * (x0 - t) :=
    mul_le_mul_of_nonneg_right (le_of_lt hN) hx
  have h3 : 1 / 100 / (x0 - t + 1) * (x0 - t) < 1 / 100 := by
    have hpos : 0 < x0 - t + 1 := by linarith
    rw [div_mul_eq_mul_div, div_lt_iff₀ hpos]
    nlinarith
  linarith

/-- The square of the damping coefficient misses `4 k` by less than `4 * 10 ^ (-13)`. -/
theorem SPRING_C_sharp : SPRING_K - 1 / 10 ^ 13 ≤ SPRING_C ^ 2 / 4 := by
  rw [SPRING_C_eq]
  unfold SPRING_K
  norm_num

theorem goodStep_of_small (dt : ℚ) (hlo : 1 / 10 ^ 17 ≤ dt) (hhi : SPRING_C * dt ≤ 1) :
    GoodStep dt := by
  obtain ⟨hc0, hc64, hc63, hc2k, _, _⟩ := SPRING_C_bounds
  have hcl := SPRING_C_sharp
  have hdt : 0 < dt := lt_of_lt_of_le (by norm_num) hlo
  refine ⟨hdt, hhi, ?_⟩
  have hk : SPRING_K = 1000 := rfl
  rw [hk] at hc2k hcl ⊢
  have h1 : (999 : ℚ) ≤ SPRING_C ^ 2 / 2 - 1000 := by linarith
  have h2 : (31 : ℚ) ≤ SPRING_C / 2 := by linarith
  have h3 : (0 : ℚ) ≤ dt * (SPRING_C / 2) := by positivity
  have h4 : dt * (SPRING_C / 2) * 999 ≤ dt * (SPRING_C / 2) * (SPRING_C ^ 2 / 2 - 1000) :=
    mul_le_mul_of_nonneg_left h1 h3
  have h5 : (1 / 10 ^ 17 : ℚ) * 31 ≤ dt * (SPRING_C / 2) :=
    mul_le_mul hlo h2 (by norm_num) (le_of_lt hdt)
  have h6 : (1 / 10 ^ 17 : ℚ) * 31 * 999 ≤ dt * (SPRING_C / 2) * 999 :=
    mul_le_mul_of_nonneg_right h5 (by norm_num)
  have h7 : (1 / 10 ^ 13 : ℚ) ≤ (1 / 10 ^ 17 : ℚ) * 31 * 999 := by norm_num
  linarith

/-- At a wide step the factor `1 - k dt²` is positive and exceeds `c dt - 1`, and the
contraction factor lies in `[0, 1)`. -/
theorem wideStep_facts (dt : ℚ) (hs : WideStep dt) :
    0 < 1 - SPRING_K * dt ^ 2 ∧ SPRING_C * dt - 1 < 1 - SPRING_K * dt ^ 2
      ∧ 0 < SPRING_K * dt ∧ 0 ≤ wideRate dt ∧ wideRate dt < 1 := by
  obtain ⟨hdt, h1, h2⟩ := hs
  have hkd : (0 : ℚ) < SPRING_K * dt := by
    unfold SPRING_K
    positivity
  have hk : (0 : ℚ) < SPRING_K * dt ^ 2 := by
    unfold SPRING_K
    positivity
  have hP : 0 < 1 - SPRING_K * dt ^ 2 := by linarith
  have ha : SPRING_C * dt - 1 < 1 - SPRING_K * dt ^ 2 := by linarith
  refine ⟨hP, ha, hkd, ?_, ?_⟩
  · unfold wideRate
    have : 0 ≤ (SPRING_C * dt - 1) * (SPRING_K * dt ^ 2) / (1 - SPRING_K * dt ^ 2) :=
      div_nonneg (mul_nonneg (by linarith) (le_of_lt hk)) (le_of_lt hP)
    linarith
  · unfold wideRate
    have h3 : (SPRING_C * dt - 1) * (SPRING_K * dt ^ 2) / (1 - SPRING_K * dt ^ 2)
        < SPRING_K * dt ^ 2 := by
      rw [div_lt_iff₀ hP]
      have : (SPRING_C * dt - 1) * (SPRING_K * dt ^ 2)
          < (1 - SPRING_K * dt ^ 2) * (SPRING_K * dt ^ 2) :=
        mul_lt_mul_of_pos_right ha hk
      linarith
    linarith

/-- One update at a wide step from a braking state stays braking and shrinks the
displacement by the factor `wideRate dt` at least. -/
theorem springUpdate_braking (x t v dt : ℚ) (hs : WideStep dt) (h : Braking x t v dt) :
    Braking (springUpdate x t v dt).1 t (springUpdate x t v dt).2 dt
    ∧ (springUpdate x t v dt).1 - t ≤ wideRate dt * (x - t) := by
  obtain ⟨hP, ha, hkd, hr0, hr1⟩ := wideStep_facts dt hs
  obtain ⟨hdt, hcdt, _⟩ := hs
  obtain ⟨hx, hv, hvx⟩ := h
  have hwr : wideRate dt = (1 - SPRING_K * dt ^ 2)
      + (SPRING_C * dt - 1) * (SPRING_K * dt ^ 2) / (1 - SPRING_K * dt ^ 2) := rfl
  set c := SPRING_C with hc
  set k := SPRING_K with hkk
  set P := 1 - k * dt ^ 2 with hPdef
  have he : 0 ≤ x - t := by linarith
  have hw : 0 ≤ -v := by linarith
  have ha0 : 0 < c * dt - 1 := by linarith
  -- the velocity is bounded by the displacement: P (-v) ≤ k dt (x - t)
  have hB : P * (-v) ≤ k * dt * (x - t) := by linarith
  have hB2 : (c * dt - 1) * (-v) ≤ k * dt * (x - t) := by
    have : (c * dt - 1) * (-v) ≤ P * (-v) := mul_le_mul_of_nonneg_right (le_of_lt ha) hw
    linarith
  have hv' : v + (-k * (x - t) - c * v) * dt ≤ 0 := by
    have e : v + (-k * (x - t) - c * v) * dt = (c * dt - 1) * (-v) - k * dt * (x - t) := by ring
    rw [e]
    linarith
  have e1 : (x + (v + (-k * (x - t) - c * v) * dt) * dt) - t
      = P * (x - t) + dt * ((c * dt - 1) * (-v)) := by
    rw [hPdef]
    ring
  have hx' : t ≤ x + (v + (-k * (x - t) - c * v) * dt) * dt := by
    have a1 : 0 ≤ P * (x - t) := mul_nonneg (le_of_lt hP) he
    have a2 : 0 ≤ dt * ((c * dt - 1) * (-v)) :=
      mul_nonneg (le_of_lt hdt) (mul_nonneg (le_of_lt ha0) hw)
    linarith
  have hvx' : -(k * dt) * ((x + (v + (-k * (x - t) - c * v) * dt) * dt) - t)
      ≤ P * (v + (-k * (x - t) - c * v) * dt) := by
    have e : P * (v + (-k * (x - t) - c * v) * dt)
          + (k * dt) * ((x + (v + (-k * (x - t) - c * v) * dt) * dt) - t)
        = (c * dt - 1) * (-v) := by
      rw [hPdef]
      ring
    have a1 : 0 ≤ (c * dt - 1) * (-v) := mul_nonneg (le_of_lt ha0) hw
    linarith
  have hx'le : (x + (v + (-k * (x - t) - c * v) * dt) * dt) - t ≤ wideRate dt * (x - t) := by
    rw [e1, hwr]
    have hvb : -v ≤ k * dt * (x - t) / P := by
      rw [le_div_iff₀ hP]
      linarith
    have a1 : dt * ((c * dt - 1) * (-v)) ≤ dt * ((c * dt - 1) * (k * dt * (x - t) / P)) :=
      mul_le_mul_of_nonneg_left (mul_le_mul_of_nonneg_left hvb (le_of_lt ha0)) (le_of_lt hdt)
    have e2 : dt * ((c * dt - 1) * (k * dt * (x - t) / P))
        = (c * dt - 1) * (k * dt ^ 2) / P * (x - t) := by
      field_simp
      ring
    rw [e2] at a1
    linarith
  rw [springUpdate_eq]
  split_ifs with hsnap
  · refine ⟨⟨le_refl _, le_refl _, by simp⟩, ?_⟩
    have : 0 ≤ wideRate dt * (x - t) := mul_nonneg hr0 he
    simpa using this
  · exact ⟨⟨hx', hv', hvx'⟩, hx'le⟩

/-- Starting at rest on the upper side of the target, every iterate at a wide step is
braking and the displacement decays geometrically. -/
theorem springIterate_braking (t dt x0 : ℚ) (hs : WideStep dt) (h0 : t ≤ x0) (n : Nat) :
    Braking (springIterate t dt x0 n).1 t (springIterate t dt x0 n).2 dt
    ∧ (springIterate t dt x0 n).1 - t ≤ wideRate dt ^ n * (x0 - t) := by
  obtain ⟨hP, ha, hkd, hr0, hr1⟩ := wideStep_facts dt hs
  induction n with
  | zero =>
    refine ⟨⟨h0, le_refl _, ?_⟩, by simp [springIterate]⟩
    simp only [springIterate]
    have : 0 ≤ SPRING_K * dt * (x0 - t) := mul_nonneg (le_of_lt hkd) (by linarith)
    linarith
  | succ n ih =>
    obtain ⟨ihA, ihle⟩ := ih
    obtain ⟨hA, hle⟩ := springUpdate_braking _ t _ dt hs ihA
    simp only [springIterate]
    refine ⟨hA, le_trans hle ?_⟩
    calc wideRate dt * ((springIterate t dt x0 n).1 - t)
        ≤ wideRate dt * (wideRate dt ^ n * (x0 - t)) :=
          mul_le_mul_of_nonneg_left ihle hr0
      _ = wideRate dt ^ (n + 1) * (x0 - t) := by ring

/-- A displacement that stays non-negative and decays geometrically comes within `1 / 100`
of zero and stays there. -/
theorem geometric_settles (y : Nat → ℚ) (r y0 : ℚ) (hr0 : 0 ≤ r) (hr1 : r < 1)
    (hy0 : 0 ≤ y0) (hy : ∀ n, 0 ≤ y n ∧ y n ≤ r ^ n * y0) :
    ∃ N, ∀ n, N ≤ n → |y n| < 1 / 100 := by
  have heps : (0 : ℚ) < 1 / 100 / (y0 + 1) := by
    apply div_pos (by norm_num)
    linarith
  obtain ⟨N, hN⟩ := exists_pow_lt_of_lt_one heps hr1
  refine ⟨N, fun n hn => ?_⟩
  obtain ⟨hnn, hle⟩ := hy n
  rw [abs_of_nonneg hnn]
  have hpow : r ^ n ≤ r ^ N := pow_le_pow_of_le_one hr0 (le_of_lt hr1) hn
  have h1 : r ^ n * y0 ≤ r ^ N * y0 := mul_le_mul_of_nonneg_right hpow hy0
  have h2 : r ^ N * y0 ≤ 1 / 100 / (y0 + 1) * y0 :=
    mul_le_mul_of_nonneg_right (le_of_lt hN) hy0
  have h3 : 1 / 100 / (y0 + 1) * y0 < 1 / 100 := by
    have hpos : 0 < y0 + 1 := by linarith
    rw [div_mul_eq_mul_div, div_lt_iff₀ hpos]
    nlinarith
  linarith

/-- From the upper side the iterates at a wide step come within `1 / 100` of the target
and stay there. -/
theorem springIterate_converges_wide (t dt x0 : ℚ) (hs : WideStep dt) (h0 : t ≤ x0) :
    ∃ N, ∀ n, N ≤ n → |(springIterate t dt x0 n).1 - t| < 1 / 100 := by
  obtain ⟨_, _, _, hr0, hr1⟩ := wideStep_facts dt hs
  refine geometric_settles (fun n => (springIterate t dt x0 n).1 - t) (wideRate dt) (x0 - t)
    hr0 hr1 (by linarith) (fun n => ?_)
  obtain ⟨hA, hle⟩ := springIterate_braking t dt x0 hs h0 n
  have hnn : 0 ≤ (springIterate t dt x0 n).1 - t := by linarith [hA.1]
  exact ⟨hnn, hle⟩

/-- Within the admitted range of time steps the iterates from the upper side never pass
below the target and settle within `1 / 100` of it. -/
theorem springIterate_upper (t dt x0 : ℚ) (hlo : 1 / 10 ^ 17 ≤ dt)
    (hhi : SPRING_K * dt ^ 2 + SPRING_C * dt < 2) (h0 : t ≤ x0) :
    (∃ N, ∀ n, N ≤ n → |(springIterate t dt x0 n).1 - t| < 1 / 100)
    ∧ ∀ n, t ≤ (springIterate t dt x0 n).1 := by
  have hdt : 0 < dt := lt_of_lt_of_le (by norm_num) hlo
  rcases le_or_lt (SPRING_C * dt) 1 with hc | hc
  · have hs := goodStep_of_small dt hlo hc
    exact ⟨springIterate_converges_upper t dt x0 hs h0,
      fun n => (springIterate_approaching t dt x0 hs h0 n).1.1⟩
  · have hs : WideStep dt := ⟨hdt, hc, hhi⟩
    exact ⟨springIterate_converges_wide t dt x0 hs h0,
      fun n => (springIterate_braking t dt x0 hs h0 n).1.1⟩

/-- Every step of at most `1/44 s` satisfies the bound `k dt² + c dt < 2`; the step
`1/43 s` does not. -/
theorem spring_step_range :
    (∀ dt : ℚ, 0 ≤ dt → dt ≤ 1 / 44 → SPRING_K * dt ^ 2 + SPRING_C * dt < 2)
    ∧ ¬ (SPRING_K * (1 / 43) ^ 2 + SPRING_C * (1 / 43) < 2) := by
  obtain ⟨hc0, hc64, _, _, _, _⟩ := SPRING_C_bounds
  constructor
  · intro dt h0 h1
    have hk : SPRING_K = 1000 := rfl
    rw [hk]
    have a1 : dt ^ 2 ≤ (1 / 44) ^ 2 := pow_le_pow_left₀ h0 h1 2
    have a2 : SPRING_C * dt ≤ SPRING_C * (1 / 44) := mul_le_mul_of_nonneg_left h1 (le_of_lt hc0)
    have a3 : SPRING_C * (1 / 44) < 1438 / 1000 := by
      rw [SPRING_C_eq]
      norm_num
    have a4 : (1000 : ℚ) * (1 / 44) ^ 2 < 517 / 1000 := by norm_num
    nlinarith
  · rw [SPRING_C_eq]
    unfold SPRING_K
    norm_num

/-- At the step `1/30 s` a state with value and velocity on the same side of the target 0,
the speed at least 30 times the distance, is thrown to the other side, 1.2 times as far at
least, and keeps that shape. -/
theorem springUpdate_swing (x v : ℚ) (hx : 1 / 100 ≤ x) (h1 : 30 * x ≤ v) :
    (springUpdate x 0 v (1 / 30)).1 ≤ -(6 / 5 * x)
    ∧ 30 * -(springUpdate x 0 v (1 / 30)).1 ≤ -(springUpdate x 0 v (1 / 30)).2 := by
  obtain ⟨hc0, hc64, hc63, _, _, _⟩ := SPRING_C_bounds
  have hk : SPRING_K = 1000 := rfl
  have hv : 0 < v := by linarith
  have hcv : 63 * v ≤ SPRING_C * v := mul_le_mul_of_nonneg_right hc63 (le_of_lt hv)
  have hx' : x + (v + (-SPRING_K * (x - 0) - SPRING_C * v) * (1 / 30)) * (1 / 30) ≤ -(6 / 5 * x) := by
    rw [hk]
    linarith
  have hnosnap : ¬ (|(x + (v + (-SPRING_K * (x - 0) - SPRING_C * v) * (1 / 30)) * (1 / 30)) - 0|
        < 1 / 100
      ∧ |v + (-SPRING_K * (x - 0) - SPRING_C * v) * (1 / 30)| < 1 / 100) := by
    intro hh
    have := (abs_lt.mp hh.1).1
    linarith
  rw [springUpdate_eq, if_neg hnosnap]
  refine ⟨hx', ?_⟩
  simp only
  rw [hk]
  linarith

/-- At the step `1/30 s`, from the start 1 with target 0, the distance from the target after
`n + 1` updates is at least `(6/5) ^ n / 9`: the iteration diverges. -/
theorem springIterate_diverges_30 (n : Nat) :
    (6 / 5 : ℚ) ^ n / 9 ≤ |(springIterate 0 (1 / 30) 1 (n + 1)).1| := by
  have key : ∀ m : Nat, ∃ x v : ℚ, (6 / 5 : ℚ) ^ m / 9 ≤ x ∧ 30 * x ≤ v
      ∧ (springIterate 0 (1 / 30) 1 (m + 1) = (x, v)
        ∨ springIterate 0 (1 / 30) 1 (m + 1) = (-x, -v)) := by
    intro m
    induction m with
    | zero =>
      refine ⟨1 / 9, 100 / 3, by norm_num, by norm_num, Or.inr ?_⟩
      decide!
    | succ m ih =>
      obtain ⟨x, v, hx, h1, hcase⟩ := ih
      have hpow : (1 : ℚ) ≤ (6 / 5 : ℚ) ^ m := one_le_pow₀ (by norm_num)
      have hx100 : 1 / 100 ≤ x := by
        have : (1 : ℚ) / 9 ≤ (6 / 5 : ℚ) ^ m / 9 := by linarith
        linarith
      obtain ⟨s1, s2⟩ := springUpdate_swing x v hx100 h1
      refine ⟨-(springUpdate x 0 v (1 / 30)).1, -(springUpdate x 0 v (1 / 30)).2, ?_, s2, ?_⟩
      · have e : (6 / 5 : ℚ) ^ (m + 1) / 9 = 6 / 5 * ((6 / 5 : ℚ) ^ m / 9) := by ring
        rw [e]
        linarith
      · have hstep : springIterate 0 (1 / 30) 1 (m + 1 + 1)
            = springUpdate (springIterate 0 (1 / 30) 1 (m + 1)).1 0
                (springIterate 0 (1 / 30) 1 (m + 1)).2 (1 / 30) := rfl
        rcases hcase with hc | hc
        · right
          rw [hstep, hc]
          simp
        · left
          rw [hstep, hc]
          have := springUpdate_mirror x 0 v (1 / 30)
          simp only [mul_zero, zero_sub] at this
          simp only [this]
  obtain ⟨x, v, hx, _, hcase⟩ := key n
  have hx0 : 0 ≤ x := le_trans (by positivity) hx
  rcases hcase with hc | hc
  · rw [hc]
    simp only
    rw [abs_of_nonneg hx0]
    exact hx
  · rw [hc]
    simp only
    rw [abs_neg, abs_of_nonneg hx0]
    exact hx

/-- Claim C11 (counterexample).  With the fixed time step `dt = 1/30 s`, target 0 and
starting value 1 at rest, the first spring update gives the value `-1/9`: it has passed
beyond the target.  From there the distance from the target grows by the factor 1.2 at
least with every update, so the value never comes to stay within `0.01` of the target.
With `dt = 1/42 s` the value passes the target at the 17th update, and with `dt = 1/43 s`
and the starting value `10 ^ 20` at the 99th. -/
theorem spring_overshoots_at_30fps :
    (0 : ℚ) < 1 / 30 ∧ (0 : ℚ) ≤ 1
    ∧ springIterate 0 (1 / 30) 1 0 = (1, 0)
    ∧ (springIterate 0 (1 / 30) 1 1).1 = -1 / 9
    ∧ (springIterate 0 (1 / 30) 1 1).1 < 0
    ∧ (∀ n : Nat, (6 / 5 : ℚ) ^ n / 9 ≤ |(springIterate 0 (1 / 30) 1 (n + 1)).1|)
    ∧ ¬ (∃ N, ∀ n, N ≤ n → |(springIterate 0 (1 / 30) 1 n).1 - 0| < 1 / 100)
    ∧ (springIterate 0 (1 / 42) 1 17).1 < 0
    ∧ (springIterate 0 (1 / 43) (10 ^ 20) 99).1 < 0 := by
  refine ⟨by norm_num, by norm_num, by decide!, by decide!, by decide!,
    springIterate_diverges_30, ?_, by decide!, by decide!⟩
  rintro ⟨N, hN⟩
  have h1 := hN (N + 1) (Nat.le_succ N)
  have h2 := springIterate_diverges_30 N
  have h3 : (1 : ℚ) ≤ (6 / 5 : ℚ) ^ N := one_le_pow₀ (by norm_num)
  rw [sub_zero] at h1
  have h4 : (1 : ℚ) / 9 ≤ (6 / 5 : ℚ) ^ N / 9 := by linarith
  linarith

/-- Claim C11 (amended).  For every target, every starting value at rest and every fixed
time step `dt` with `10⁻¹⁷ ≤ dt` and `k dt² + c dt < 2` (every step up to `1/44 s`
qualifies, `1/43 s` does not), repeated spring updates (`k = 1000`, `zeta = 1`) bring the
value within `0.01` of the target after finitely many updates, where it stays, and at no
update does the value pass beyond the target. -/
theorem spring_converges_without_overshoot (target x0 dt : ℚ)
    (hlo : 1 / 10 ^ 17 ≤ dt) (hhi : SPRING_K * dt ^ 2 + SPRING_C * dt < 2) :
    (∃ N, ∀ n, N ≤ n → |(springIterate target dt x0 n).1 - target| < 1 / 100)
    ∧ (target ≤ x0 → ∀ n, target ≤ (springIterate target dt x0 n).1)
    ∧ (x0 ≤ target → ∀ n, (springIterate target dt x0 n).1 ≤ target)
    ∧ (∀ d : ℚ, 0 ≤ d → d ≤ 1 / 44 → SPRING_K * d ^ 2 + SPRING_C * d < 2)
    ∧ ¬ (SPRING_K * (1 / 43) ^ 2 + SPRING_C * (1 / 43) < 2) := by
  have hmir : ∀ n, (springIterate target dt x0 n).1
      = 2 * target - (springIterate target dt (2 * target - x0) n).1 := by
    intro n
    have := springIterate_mirror target dt (2 * target - x0) n
    have e : 2 * target - (2 * target - x0) = x0 := by ring
    rw [e] at this
    rw [this]
  refine ⟨?_, ?_, ?_, spring_step_range.1, spring_step_range.2⟩
  · rcases le_total target x0 with h | h
    · exact (springIterate_upper target dt x0 hlo hhi h).1
    · obtain ⟨N, hN⟩ := (springIterate_upper target dt (2 * target - x0) hlo hhi
        (by linarith)).1
      refine ⟨N, fun n hn => ?_⟩
      have := hN n hn
      rw [hmir n]
      have e : 2 * target - (springIterate target dt (2 * target - x0) n).1 - target
          = -((springIterate target dt (2 * target - x0) n).1 - target) := by ring
      rw [e, abs_neg]
      exact this
  · intro h n
    exact (springIterate_upper target dt x0 hlo hhi h).2 n
  · intro h n
    have := (springIterate_upper target dt (2 * target - x0) hlo hhi (by linarith)).2 n
    rw [hmir n]
    linarith

/-! ## Zoom state: aperture lock, bounds, toggles -/

theorem zoomAnimInit_lockedAperture (s : CHyprpicker) :
    (zoomAnimInit s).m_lockedAperture = s.m_lockedAperture := by
  simp only [zoomAnimInit]
  split_ifs <;> rfl

theorem zoomSpringTick_lockedAperture (s : CHyprpicker) (dt : ℚ) :
    (zoomSpringTick s dt).m_lockedAperture = s.m_lockedAperture := by
  simp only [zoomSpringTick]
  split_ifs <;> rfl

theorem renderSurface_zoomUpdate_lockedAperture (s : CHyprpicker) (dt : ℚ) :
    (renderSurface_zoomUpdate s dt).m_lockedAperture = s.m_lockedAperture := by
  unfold renderSurface_zoomUpdate
  split_ifs
  · exact zoomSpringTick_lockedAperture s dt
  · rw [zoomSpringTick_lockedAperture, zoomAnimInit_lockedAperture]

theorem foldl_zoomUpdate_lockedAperture (dts : List ℚ) (s : CHyprpicker) :
    (dts.foldl renderSurface_zoomUpdate s).m_lockedAperture = s.m_lockedAperture := by
  induction dts generalizing s with
  | nil => rfl
  | cons d ds ih =>
    simp only [List.foldl_cons]
    rw [ih, renderSurface_zoomUpdate_lockedAperture]

theorem handleAltToggle_lockedAperture (s : CHyprpicker) (toTriple : Bool) :
    (handleAltToggle s toTriple).m_lockedAperture
      = s.m_zoomRadiusCurrentSrcPx * s.m_zoomMagCurrent := by
  simp only [handleAltToggle]
  split_ifs <;> rfl

/-- A tick that starts with the lock active and ends with a magnification above `0.01`
ends with `radius × magnification` equal to the locked aperture. -/
theorem zoomSpringTick_locked_product (s : CHyprpicker) (dt : ℚ) (hdt : 0 < dt)
    (hlock : s.m_lockAperture = true)
    (hmag : 1 / 100 < (zoomSpringTick s dt).m_zoomMagCurrent) :
    (zoomSpringTick s dt).m_zoomRadiusCurrentSrcPx * (zoomSpringTick s dt).m_zoomMagCurrent
      = s.m_lockedAperture := by
  simp only [zoomSpringTick, gt_iff_lt, hdt, if_true, hlock] at hmag ⊢
  split_ifs at hmag ⊢ with h1 h2 h3
  all_goals
    have hne : (springUpdate s.m_zoomMagCurrent s.m_zoomMagTarget s.m_zoomMagVel dt).1 ≠ 0 := by
      intro h0; rw [h0] at hmag; norm_num at hmag
    exact div_mul_cancel₀ _ hne

/-- Claim C12.  After `handleAltToggle` has captured
`lockedAperture = radius_current × magnification_current`, and after any number of further
animation passes, every animation tick with `dt > 0` that starts with the lock still
active and ends with `magnification_current > 0.01` ends with
`radius_current × magnification_current` equal to the captured aperture (exactly, in the
exact-arithmetic model), and the captured aperture itself is unchanged. -/
theorem aperture_lock_invariant (s : CHyprpicker) (toTriple : Bool) (dts : List ℚ) (dt : ℚ)
    (hinit : (dts.foldl renderSurface_zoomUpdate (handleAltToggle s toTriple)).m_zoomAnimInitialized
      = true)
    (hlock : (dts.foldl renderSurface_zoomUpdate (handleAltToggle s toTriple)).m_lockAperture
      = true)
    (hdt : 0 < dt)
    (hmag : 1 / 100 < (renderSurface_zoomUpdate
      (dts.foldl renderSurface_zoomUpdate (handleAltToggle s toTriple)) dt).m_zoomMagCurrent) :
    (renderSurface_zoomUpdate
        (dts.foldl renderSurface_zoomUpdate (handleAltToggle s toTriple)) dt).m_zoomRadiusCurrentSrcPx
      * (renderSurface_zoomUpdate
        (dts.foldl renderSurface_zoomUpdate (handleAltToggle s toTriple)) dt).m_zoomMagCurrent
      = s.m_zoomRadiusCurrentSrcPx * s.m_zoomMagCurrent
    ∧ (renderSurface_zoomUpdate
        (dts.foldl renderSurface_zoomUpdate (handleAltToggle s toTriple)) dt).m_lockedAperture
      = s.m_zoomRadiusCurrentSrcPx * s.m_zoomMagCurrent := by
  have hL := foldl_zoomUpdate_lockedAperture dts (handleAltToggle s toTriple)
  rw [handleAltToggle_lockedAperture] at hL
  generalize dts.foldl renderSurface_zoomUpdate (handleAltToggle s toTriple) = s1 at *
  constructor
  · unfold renderSurface_zoomUpdate at hmag ⊢
    rw [if_pos hinit] at hmag ⊢
    rw [zoomSpringTick_locked_product s1 dt hdt hlock hmag, hL]
  · rw [renderSurface_zoomUpdate_lockedAperture, hL]

theorem clamp_mag_pos (v : ℚ) : (1 : ℚ) / 100 < clamp v ZOOM_MAG_MIN ZOOM_MAG_MAX := by
  have h1 := (clamp_mem v ZOOM_MAG_MIN ZOOM_MAG_MAX
    (by unfold ZOOM_MAG_MIN ZOOM_MAG_MAX; norm_num)).1
  have h2 : (1 : ℚ) / 100 < ZOOM_MAG_MIN := by unfold ZOOM_MAG_MIN; norm_num
  exact lt_of_lt_of_le h2 h1

theorem handleAltToggle_magTarget_mem (s : CHyprpicker) (toTriple : Bool) :
    ZOOM_MAG_MIN ≤ (handleAltToggle s toTriple).m_zoomMagTarget
    ∧ (handleAltToggle s toTriple).m_zoomMagTarget ≤ ZOOM_MAG_MAX := by
  have hb : ZOOM_MAG_MIN ≤ ZOOM_MAG_MAX := by unfold ZOOM_MAG_MIN ZOOM_MAG_MAX; norm_num
  simp only [handleAltToggle]
  split_ifs <;> exact clamp_mem _ _ _ hb

theorem handleAltToggle_radiusTarget_mem (s : CHyprpicker) (toTriple : Bool) :
    ZOOM_RADIUS_MIN ≤ (handleAltToggle s toTriple).m_zoomRadiusTargetSrcPx
    ∧ (handleAltToggle s toTriple).m_zoomRadiusTargetSrcPx ≤ ZOOM_RADIUS_MAX := by
  have hb : ZOOM_RADIUS_MIN ≤ ZOOM_RADIUS_MAX := by
    unfold ZOOM_RADIUS_MIN ZOOM_RADIUS_MAX; norm_num
  have hm := clamp_mag_pos
  simp only [handleAltToggle, gt_iff_lt, hm, if_true]
  split_ifs <;> exact clamp_mem _ _ _ hb

theorem handleRadiusToggle_radiusTarget_mem (s : CHyprpicker) (toDouble : Bool)
    (hmag : 1 / 100 < s.m_zoomMagCurrent) :
    ZOOM_RADIUS_MIN ≤ (handleRadiusToggle s toDouble).m_zoomRadiusTargetSrcPx
    ∧ (handleRadiusToggle s toDouble).m_zoomRadiusTargetSrcPx ≤ ZOOM_RADIUS_MAX := by
  have hb : ZOOM_RADIUS_MIN ≤ ZOOM_RADIUS_MAX := by
    unfold ZOOM_RADIUS_MIN ZOOM_RADIUS_MAX; norm_num
  cases hset : s.m_apertureBaseSet <;>
    simp only [handleRadiusToggle, hset, gt_iff_lt, hmag, if_true, if_false, Bool.false_eq_true] <;>
    exact clamp_mem _ _ _ hb

theorem handleRadiusToggle_magTarget (s : CHyprpicker) (toDouble : Bool) :
    (handleRadiusToggle s toDouble).m_zoomMagTarget = s.m_zoomMagTarget := by
  simp only [handleRadiusToggle]
  split_ifs <;> rfl

theorem renderSurface_zoomUpdate_magTarget (s : CHyprpicker) (dt : ℚ) :
    (renderSurface_zoomUpdate s dt).m_zoomMagTarget = s.m_zoomMagTarget := by
  simp only [renderSurface_zoomUpdate, zoomSpringTick, zoomAnimInit]
  split_ifs <;> rfl

theorem applyZoomEvent_magTarget_mem (s : CHyprpicker) (e : ZoomEvent)
    (h : ZOOM_MAG_MIN ≤ s.m_zoomMagTarget ∧ s.m_zoomMagTarget ≤ ZOOM_MAG_MAX) :
    ZOOM_MAG_MIN ≤ (applyZoomEvent s e).m_zoomMagTarget
    ∧ (applyZoomEvent s e).m_zoomMagTarget ≤ ZOOM_MAG_MAX := by
  cases e with
  | altToggle b => exact handleAltToggle_magTarget_mem s b
  | radiusToggle b =>
    simp only [applyZoomEvent]
    rw [handleRadiusToggle_magTarget]; exact h
  | tick dt =>
    simp only [applyZoomEvent]
    rw [renderSurface_zoomUpdate_magTarget]; exact h

theorem runZoom_magTarget_mem (events : List ZoomEvent) (s : CHyprpicker)
    (h : ZOOM_MAG_MIN ≤ s.m_zoomMagTarget ∧ s.m_zoomMagTarget ≤ ZOOM_MAG_MAX) :
    ZOOM_MAG_MIN ≤ (runZoom s events).m_zoomMagTarget
    ∧ (runZoom s events).m_zoomMagTarget ≤ ZOOM_MAG_MAX := by
  induction events generalizing s with
  | nil => exact h
  | cons e es ih =>
    simp only [runZoom, List.foldl_cons]
    exact ih _ (applyZoomEvent_magTarget_mem s e h)

/-- Claim C13 (counterexample).  From the initial zoom state (radius 10, magnification
10), the first render, one magnification toggle up and five animation passes 1/64 s apart
lead to a state whose current radius and radius target are both below
`ZOOM_RADIUS_MIN = 4`: the aperture lock rewrites them as `100 / magnification_current`. -/
theorem zoom_radius_leaves_bounds :
    initialState.m_zoomRadiusCurrentSrcPx = 10 ∧ initialState.m_zoomMagCurrent = 10
    ∧ (zoomedInAfter 5).m_zoomRadiusCurrentSrcPx < ZOOM_RADIUS_MIN
    ∧ (zoomedInAfter 5).m_zoomRadiusTargetSrcPx < ZOOM_RADIUS_MIN
    ∧ (zoomedInAfter 5).m_zoomRadiusCurrentSrcPx * (zoomedInAfter 5).m_zoomMagCurrent = 100 := by
  decide!

/-- Claim C13 (amended).  In every state reachable from the initial zoom state by any
sequence of magnification toggles, radius toggles and animation passes, the magnification
target lies in `[ZOOM_MAG_MIN, ZOOM_MAG_MAX] = [2, 60]`; a magnification toggle made in
such a state leaves the radius target in `[ZOOM_RADIUS_MIN, ZOOM_RADIUS_MAX] = [4, 60]`,
and so does a radius toggle made while the current magnification exceeds `0.01`. -/
theorem zoom_targets_bounded (events : List ZoomEvent) :
    (2 ≤ (runZoom initialState events).m_zoomMagTarget
      ∧ (runZoom initialState events).m_zoomMagTarget ≤ 60)
    ∧ (∀ toTriple,
        4 ≤ (handleAltToggle (runZoom initialState events) toTriple).m_zoomRadiusTargetSrcPx
        ∧ (handleAltToggle (runZoom initialState events) toTriple).m_zoomRadiusTargetSrcPx ≤ 60)
    ∧ (∀ toDouble, 1 / 100 < (runZoom initialState events).m_zoomMagCurrent →
        4 ≤ (handleRadiusToggle (runZoom initialState events) toDouble).m_zoomRadiusTargetSrcPx
        ∧ (handleRadiusToggle (runZoom initialState events) toDouble).m_zoomRadiusTargetSrcPx
            ≤ 60) := by
  have h0 : ZOOM_MAG_MIN ≤ initialState.m_zoomMagTarget
      ∧ initialState.m_zoomMagTarget ≤ ZOOM_MAG_MAX := by
    unfold ZOOM_MAG_MIN ZOOM_MAG_MAX initialState
    norm_num
  refine ⟨runZoom_magTarget_mem events initialState h0, ?_, ?_⟩
  · intro b
    exact handleAltToggle_radiusTarget_mem _ b
  · intro b hm
    exact handleRadiusToggle_radiusTarget_mem _ b hm

/-- Magnification target after a toggle, in terms of the remembered base. -/
theorem handleAltToggle_magTarget (s : CHyprpicker) (toTriple : Bool) :
    (handleAltToggle s toTriple).m_zoomMagTarget
      = clamp ((if toTriple then 3 else 1)
          * (if s.m_zoomMagBaseSet then s.m_zoomMagBase else s.m_zoomMagTarget)) 2 60
    ∧ (handleAltToggle s toTriple).m_zoomMagBase
      = (if s.m_zoomMagBaseSet then s.m_zoomMagBase else s.m_zoomMagTarget)
    ∧ (handleAltToggle s toTriple).m_zoomMagBaseSet = true := by
  have hm := clamp_mag_pos
  simp only [handleAltToggle, gt_iff_lt, hm, if_true]
  cases toTriple <;> cases hb : s.m_zoomMagBaseSet <;>
    simp [hb, ZOOM_TOGGLE_FACTOR, ZOOM_MAG_MIN, ZOOM_MAG_MAX, mul_comm]

/-- A spring update that ends at rest within `0.01` of the target ends exactly on it. -/
theorem springUpdate_snapped (x t v dt : ℚ)
    (hclose : |(springUpdate x t v dt).1 - t| < 1 / 100)
    (hrest : |(springUpdate x t v dt).2| < 1 / 100) :
    springUpdate x t v dt = (t, 0) := by
  rw [springUpdate_eq] at hclose hrest ⊢
  split_ifs at hclose hrest ⊢ with h
  · rfl
  · exact absurd ⟨hclose, hrest⟩ h

/-- Claim C14 (counterexample).  The state reached from the initial one by the first
render, a magnification toggle up and 38 animation passes 1/64 s apart is
`zoomedInSettled`: it is settled at magnification 30, which lies in `[2, 60]`, with the
base 10 remembered.  Toggling up and then down from it leaves the magnification target at
10, the remembered base, not at 30. -/
theorem toggle_up_down_not_identity :
    zoomedInAfter 38 = zoomedInSettled
    ∧ zoomedInSettled.m_zoomMagCurrent = 30 ∧ zoomedInSettled.m_zoomMagTarget = 30
    ∧ zoomedInSettled.m_zoomMagVel = 0
    ∧ zoomedInSettled.m_zoomRadiusCurrentSrcPx = zoomedInSettled.m_zoomRadiusTargetSrcPx
    ∧ zoomedInSettled.m_zoomRadiusVel = 0
    ∧ (handleAltToggle (handleAltToggle zoomedInSettled true) false).m_zoomMagTarget = 10
    ∧ (handleAltToggle (handleAltToggle zoomedInSettled true) false).m_zoomMagTarget
        ≠ zoomedInSettled.m_zoomMagCurrent := by
  decide!

/-- Claim C14 (amended).  From any zoom state whose remembered base magnification `b`
(the stored base when one has been set, otherwise the current magnification target, which
the first toggle stores) lies in `[2, 60]`, `handleAltToggle(true)` followed by
`handleAltToggle(false)` leaves the magnification target exactly equal to `b`, and a
later spring update that ends at rest within `0.01` of that target puts the magnification
exactly on `b`.  For a settled state this is the magnification of the state when no base
has been set yet or the state sits at its base. -/
theorem toggle_up_down_returns_base (s : CHyprpicker) (b : ℚ)
    (hb : b = if s.m_zoomMagBaseSet then s.m_zoomMagBase else s.m_zoomMagTarget)
    (hlo : 2 ≤ b) (hhi : b ≤ 60) :
    (handleAltToggle (handleAltToggle s true) false).m_zoomMagTarget = b
    ∧ (∀ cur vel dt, |(springUpdate cur b vel dt).1 - b| < 1 / 100 →
        |(springUpdate cur b vel dt).2| < 1 / 100 → springUpdate cur b vel dt = (b, 0))
    ∧ (s.m_zoomMagBaseSet = false → s.m_zoomMagCurrent = s.m_zoomMagTarget →
        (handleAltToggle (handleAltToggle s true) false).m_zoomMagTarget = s.m_zoomMagCurrent) := by
  obtain ⟨_, hbase1, hset1⟩ := handleAltToggle_magTarget s true
  obtain ⟨ht2, _, _⟩ := handleAltToggle_magTarget (handleAltToggle s true) false
  have hfinal : (handleAltToggle (handleAltToggle s true) false).m_zoomMagTarget = b := by
    rw [ht2, hset1, hbase1, ← hb]
    simp only [if_true, Bool.false_eq_true, if_false, one_mul]
    unfold clamp
    rw [if_neg (not_lt.mpr hlo), if_neg (not_lt.mpr hhi)]
  refine ⟨hfinal, fun cur vel dt h1 h2 => springUpdate_snapped cur b vel dt h1 h2, ?_⟩
  intro hns hcur
  rw [hfinal, hb, hns, hcur]
  simp

/-! ## Pick session -/

theorem joinLoop_succ (rest : List String) (i : Nat) (acc : String) :
    joinLoop (i + 1) rest acc = String.intercalate.go acc "\n" rest := by
  induction rest generalizing i acc with
  | nil => simp [joinLoop, String.intercalate.go]
  | cons e rest ih =>
    simp only [joinLoop, String.intercalate.go]
    rw [if_pos (Nat.succ_ne_zero i), ih]

/-- The join loop produces the entries separated by single newlines. -/
theorem joinEntries_eq_intercalate (buf : List String) :
    joinEntries buf = String.intercalate "\n" buf := by
  cases buf with
  | nil => rfl
  | cons a rest =>
    simp only [joinEntries, joinLoop, String.intercalate]
    rw [if_neg (by simp), joinLoop_succ]
    simp

theorem decidePick_shift (s : CHyprpicker) (t : PickTexts) :
    decidePick s false true t
      = ⟨{ s with m_multiMode := true, m_multiBuffer := s.m_multiBuffer ++ [t.formattedColor] },
          [], none⟩ := by
  simp [decidePick]

theorem decidePick_shift_fields (s : CHyprpicker) (t : PickTexts) :
    (decidePick s false true t).state.m_multiBuffer = s.m_multiBuffer ++ [t.formattedColor]
    ∧ (decidePick s false true t).state.m_bAutoCopy = s.m_bAutoCopy
    ∧ (decidePick s false true t).state.m_multiMode = true := by
  rw [decidePick_shift]
  exact ⟨rfl, rfl, rfl⟩

/-- State after a run of accumulating confirms. -/
theorem foldl_accumulate (ts : List PickTexts) (s : CHyprpicker) :
    (ts.foldl (fun st t => (decidePick st false true t).state) s).m_multiBuffer
        = s.m_multiBuffer ++ ts.map (fun t => t.formattedColor)
    ∧ (ts.foldl (fun st t => (decidePick st false true t).state) s).m_bAutoCopy = s.m_bAutoCopy
    ∧ (ts ≠ [] ∨ s.m_multiMode = true →
        (ts.foldl (fun st t => (decidePick st false true t).state) s).m_multiMode = true) := by
  induction ts generalizing s with
  | nil => simp
  | cons t ts ih =>
    obtain ⟨f1, f2, f3⟩ := decidePick_shift_fields s t
    obtain ⟨h1, h2, h3⟩ := ih (decidePick s false true t).state
    simp only [List.foldl_cons]
    refine ⟨?_, ?_, fun _ => h3 (Or.inr f3)⟩
    · rw [h1, f1]; simp
    · rw [h2, f2]

/-- Claim C15.  Starting with an empty session buffer, `n ≥ 1` accumulating (Shift)
confirms contributing the strings `s1 .. sn` followed by a finalizing confirm contributing
`s(n+1)` deliver exactly one text, to the clipboard when auto-copy is on and to the log
otherwise, and terminate with status 0; the text is `s1, .., s(n+1)` in pick order
separated by single newline characters, without a leading or trailing newline.  The
entries `#FF0000` and `#00FF00` are joined to `#FF0000\n#00FF00`. -/
theorem multi_pick_joined (s : CHyprpicker) (accumulated : List PickTexts) (last : PickTexts)
    (hbuf : s.m_multiBuffer = []) (hn : accumulated ≠ []) :
    (decidePick (accumulated.foldl (fun st t => (decidePick st false true t).state) s)
        false false last).effects
      = [if s.m_bAutoCopy
          then Effect.clipboardCopy
            (String.intercalate "\n" ((accumulated ++ [last]).map (fun t => t.formattedColor)))
          else Effect.log
            (String.intercalate "\n" ((accumulated ++ [last]).map (fun t => t.formattedColor)))]
    ∧ (decidePick (accumulated.foldl (fun st t => (decidePick st false true t).state) s)
        false false last).exit = some 0
    ∧ joinEntries ["#FF0000", "#00FF00"] = "#FF0000\n#00FF00" := by
  obtain ⟨h1, h2, h3⟩ := foldl_accumulate accumulated s
  have hm := h3 (Or.inl hn)
  generalize accumulated.foldl (fun st t => (decidePick st false true t).state) s = sN at *
  refine ⟨?_, ?_, by decide⟩
  · simp only [decidePick, Bool.not_false, if_true, Bool.false_eq_true, if_false, hm,
      finishMultiPick, finish, h1, h2, hbuf, List.nil_append, joinEntries_eq_intercalate,
      List.map_append, List.map_cons, List.map_nil]
  · simp only [decidePick, Bool.not_false, if_true, Bool.false_eq_true, if_false, hm,
      finishMultiPick, finish]

theorem toHex_eq_hexByte : ∀ n, n < 256 → ∀ lower, toHex lower n = hexByte lower n := by
  decide!

theorem format02x_eq_hexByte : ∀ n, n < 256 → format02x n = hexByte true n := by
  decide!

/-- The body of the single-pick line in hex mode is the hex notation of the colour. -/
theorem singlePickBody_hex (fx : FloatText) (s : CHyprpicker) (COL : CColor)
    (hmode : s.m_bSelectedOutputMode = .OUTPUT_HEX) :
    singlePickBody fx s COL = hexNotation s.m_bUseLowerCase COL := by
  simp only [singlePickBody, hmode, hexNotation, toHex_eq_hexByte _ COL.r.isLt,
    toHex_eq_hexByte _ COL.g.isLt, toHex_eq_hexByte _ COL.b.isLt]

/-- Claim C16 (counterexample).  With the default options (fancy output on, hex mode,
uppercase) a single pick of the pixel `(255, 0, 0, 255)` logs the line
`ESC[38;2;0;0;0;48;2;255;0;0m#FF0000ESC[0m`, which is not the text `#FF0000`. -/
theorem single_pick_default_is_fancy :
    stateOnRed.m_bFancyOutput = true
    ∧ stateOnRed.m_bSelectedOutputMode = .OUTPUT_HEX
    ∧ stateOnRed.m_bUseLowerCase = false
    ∧ (setButton primaryFloatText stateOnRed 272 WL_POINTER_BUTTON_STATE_PRESSED).map
        (fun o => (o.effects, o.exit))
      = some ([Effect.log "\x1b[38;2;0;0;0;48;2;255;0;0m#FF0000\x1b[0m"], some 0)
    ∧ (setButton primaryFloatText stateOnRed 272 WL_POINTER_BUTTON_STATE_PRESSED).map
        (fun o => o.effects) ≠ some [Effect.log "#FF0000"] := by
  decide!

/-- Claim C16 (amended).  For every sampled colour `(r, g, b, a)` a single pick logs one
line and terminates with status 0.  In hex mode the colour text of the line is `#`
followed by the two-digit hexadecimal of `r`, `g` and `b` in that order, uppercase unless
the lowercase option is set, alpha ignored; in RGB mode it is the decimal `r`, `g`, `b`
separated by single spaces.  The line is this text alone when fancy output is off, and
this text between the escape sequences `ESC[38;2;FG;FG;FG;48;2;r;g;bm` and `ESC[0m` when
it is on.  With fancy output off the pixel `(255, 0, 0, 255)` yields `#FF0000` in hex mode
and `255 0 0` in RGB mode. -/
theorem single_pick_log_line (fx : FloatText) (s : CHyprpicker) (COL : CColor)
    (hidle : s.m_multiMode = false) :
    (s.m_bSelectedOutputMode = .OUTPUT_HEX →
        singlePickBody fx s COL = hexNotation s.m_bUseLowerCase COL)
    ∧ (s.m_bSelectedOutputMode = .OUTPUT_RGB → singlePickBody fx s COL = rgbNotation COL)
    ∧ (decidePick s false false (pickTexts fx s COL)).effects.head?
        = some (Effect.log (if s.m_bFancyOutput
            then fancyPrefix (fx.FG COL) COL ++ singlePickBody fx s COL ++ fancySuffix
            else singlePickBody fx s COL))
    ∧ (decidePick s false false (pickTexts fx s COL)).exit = some 0
    ∧ hexNotation false red = "#FF0000" ∧ hexNotation true red = "#ff0000"
    ∧ rgbNotation red = "255 0 0" := by
  refine ⟨singlePickBody_hex fx s COL, ?_, ?_, ?_, by decide, by decide, by decide⟩
  · intro hmode
    simp only [singlePickBody, hmode, rgbNotation, formatDec]
  · simp only [decidePick, hidle, singlePick, finish, pickTexts, singlePickLine]
    simp
  · simp only [decidePick, hidle, singlePick, finish]
    simp

/-- Claim C17 (failing input).  In hex mode with fancy output off and the lowercase option
off, a plain confirm on the red pixel `(255, 0, 0, 255)` logs `#FF0000`, while a Shift
confirm in the same state stores the entry `#ff0000` in the session buffer: the entry a
colour contributes to a multi-pick is not the text a single pick outputs for it. -/
theorem single_and_multi_pick_differ :
    statePlainOnRed.m_bSelectedOutputMode = .OUTPUT_HEX
    ∧ statePlainOnRed.m_bUseLowerCase = false
    ∧ (setButton primaryFloatText statePlainOnRed 272 WL_POINTER_BUTTON_STATE_PRESSED).map
        (fun o => (o.effects, o.exit)) = some ([Effect.log "#FF0000"], some 0)
    ∧ (setButton primaryFloatText { statePlainOnRed with m_pXKBState := some ⟨true, false⟩ } 272
        WL_POINTER_BUTTON_STATE_PRESSED).map
        (fun o => (o.state.m_multiBuffer, o.effects, o.exit)) = some (["#ff0000"], [], none) := by
  decide!

/-! ### Cancel, accumulate, forced finalize -/

/-- Claim C18.  A cancel input, that is a key press resolved to Escape when a keymap is
loaded, or a press of key code 1 when none is, terminates the process with exit status 2
in every controller state (idle or accumulating, any buffer) without a call to the
clipboard, log or notification collaborators; every pick that terminates the process does
so with status 0, which differs from 2. -/
theorem cancel_exits_with_status_2 (fx : FloatText) (s : CHyprpicker) (key sym : Nat)
    (hcancel : (s.m_pXKBState ≠ none ∧ sym = XKB_KEY_Escape) ∨ (s.m_pXKBState = none ∧ key = 1)) :
    (∃ o, setKey fx s key WL_KEYBOARD_KEY_STATE_PRESSED sym = some o
        ∧ o.effects = [] ∧ o.exit = some 2)
    ∧ (∀ (s2 : CHyprpicker) (forceFinalize withShift : Bool) (o : Outcome) (code : Nat),
        finalizePickWith fx s2 forceFinalize withShift = some o → o.exit = some code → code = 0)
    ∧ (2 : Nat) ≠ 0 := by
  refine ⟨?_, ?_, by decide⟩
  · rcases hcancel with ⟨hx, hsym⟩ | ⟨hx, hkey⟩
    · cases hxs : s.m_pXKBState with
      | none => exact absurd hxs hx
      | some xkb =>
        refine ⟨finish s [] 2, ?_, rfl, rfl⟩
        simp only [setKey, hxs, hsym, if_true]
    · refine ⟨finish s [] 2, ?_, rfl, rfl⟩
      simp only [setKey, hx, hkey, and_self, if_true]
  · intro s2 force shift o code ho hexit
    unfold finalizePickWith at ho
    split at ho
    · cases ho; cases hexit
    · split at ho
      · cases ho
      · split at ho
        · cases ho
        · split at ho
          · cases ho
          · cases ho
            simp only [decidePick, finishMultiPick, singlePick, finish] at hexit
            split_ifs at hexit <;> simp_all

/-- The lookup succeeds whenever the surface has a captured frame. -/
theorem getColorFromPixel_isSome (pLS : CLayerSurface) (sb : SPoolBuffer)
    (h : pLS.screenBuffer = some sb) (pix : Vector2D) :
    ∃ COL, getColorFromPixel pLS pix = some COL := by
  simp only [getColorFromPixel, h]
  split_ifs
  · exact ⟨_, rfl⟩
  · exact ⟨_, rfl⟩

/-- Claim C19.  A pointer button press while Shift is active, with the pointer on a
surface that has a captured frame, in any session state (idle or accumulating), appends
exactly one entry, the formatted colour under the pointer, to the end of the session
buffer, leaves the earlier entries and every other member unchanged, sets
`m_multiMode`, calls no output collaborator and does not terminate. -/
theorem shift_confirm_accumulates (fx : FloatText) (s : CHyprpicker) (i button : Nat)
    (pLS : CLayerSurface) (sb : SPoolBuffer)
    (hfocus : s.m_pLastSurface = some i) (hls : s.m_vLayerSurfaces[i]? = some pLS)
    (hframe : pLS.screenBuffer = some sb) (hshift : shiftActive s = true) :
    ∃ COL, getColorFromPixel pLS (finalizePickAtCurrent_CLICKPOS s pLS sb) = some COL
      ∧ setButton fx s button WL_POINTER_BUTTON_STATE_PRESSED
        = some ⟨{ s with m_multiMode := true,
                         m_multiBuffer := s.m_multiBuffer
                           ++ [formattedColorOf fx s.m_bSelectedOutputMode COL] },
                [], none⟩ := by
  obtain ⟨COL, hcol⟩ := getColorFromPixel_isSome pLS sb hframe
    (finalizePickAtCurrent_CLICKPOS s pLS sb)
  refine ⟨COL, hcol, ?_⟩
  simp only [setButton, if_true, finalizePickAtCurrent, finalizePickWith, hfocus, hls, hframe,
    hcol, hshift, decidePick_shift, pickTexts]

/-- Claim C20.  A forced finalize gives the same outcome, whatever the Shift state, as a
confirm without the modifier in the same state: the same collaborator calls, the same
exit status, the same controller.  While accumulating this is the delivery of the joined
buffer with status 0; while idle it is the single pick.  The Return and keypad Enter keys
run exactly this forced finalize. -/
theorem forced_finalize_as_plain_confirm (fx : FloatText) (s : CHyprpicker) (withShift : Bool) :
    finalizePickWith fx s true withShift = finalizePickWith fx s false false
    ∧ (∀ t, s.m_multiMode = true →
        decidePick s true withShift t = finishMultiPick s t
        ∧ decidePick s false false t = finishMultiPick s t
        ∧ (finishMultiPick s t).exit = some 0
        ∧ (finishMultiPick s t).effects
            = [if s.m_bAutoCopy
                then Effect.clipboardCopy
                  (String.intercalate "\n" (s.m_multiBuffer ++ [t.formattedColor]))
                else Effect.log
                  (String.intercalate "\n" (s.m_multiBuffer ++ [t.formattedColor]))])
    ∧ (∀ t, s.m_multiMode = false → decidePick s true withShift t = singlePick s t)
    ∧ (∀ key sym, s.m_pXKBState ≠ none → (sym = XKB_KEY_Return ∨ sym = XKB_KEY_KP_Enter) →
        setKey fx s key WL_KEYBOARD_KEY_STATE_PRESSED sym
          = finalizePickWith fx s true (shiftActive s)) := by
  have hd : ∀ t, decidePick s true withShift t = decidePick s false false t := by
    intro t
    simp [decidePick]
  refine ⟨?_, ?_, ?_, ?_⟩
  · simp only [finalizePickWith, hd]
  · intro t hm
    refine ⟨by simp [decidePick, hm], by simp [decidePick, hm], rfl, ?_⟩
    simp only [finishMultiPick, finish, joinEntries_eq_intercalate]
  · intro t hm
    simp [decidePick, hm]
  · intro key sym hx hsym
    cases hxs : s.m_pXKBState with
    | none => exact absurd hxs hx
    | some xkb =>
      have hne : ¬ sym = XKB_KEY_Escape := by
        rcases hsym with e | e <;> rw [e] <;> decide
      simp only [setKey, hxs, if_true, hne, if_false, hsym, finalizePickAtCurrent]

/-! ### Witnesses at concrete inputs (zoom and pick session) -/

/-- Claim C11 (amended) at target 30, starting value 10 and `dt = 1/60 s`. -/
theorem spring_converges_without_overshoot_witness :
    (1 / 10 ^ 17 : ℚ) ≤ 1 / 60 ∧ SPRING_K * (1 / 60 : ℚ) ^ 2 + SPRING_C * (1 / 60) < 2
    ∧ (∃ N, ∀ n, N ≤ n → |(springIterate 30 (1 / 60) 10 n).1 - 30| < 1 / 100)
    ∧ ((30 : ℚ) ≤ 10 → ∀ n, 30 ≤ (springIterate 30 (1 / 60) 10 n).1)
    ∧ ((10 : ℚ) ≤ 30 → ∀ n, (springIterate 30 (1 / 60) 10 n).1 ≤ 30) :=
  have h := spring_converges_without_overshoot 30 10 (1 / 60) (by norm_num) (by decide!)
  ⟨by norm_num, by decide!, h.1, h.2.1, h.2.2.1⟩

/-- Claim C12 at the initial state after its first render, toggled up, one animation pass
later and a further pass of 1/64 s. -/
theorem aperture_lock_invariant_witness :
    (renderSurface_zoomUpdate
        ([(1 / 64 : ℚ)].foldl renderSurface_zoomUpdate
          (handleAltToggle (zoomAnimInit initialState) true)) (1 / 64)).m_zoomRadiusCurrentSrcPx
      * (renderSurface_zoomUpdate
        ([(1 / 64 : ℚ)].foldl renderSurface_zoomUpdate
          (handleAltToggle (zoomAnimInit initialState) true)) (1 / 64)).m_zoomMagCurrent
      = (zoomAnimInit initialState).m_zoomRadiusCurrentSrcPx
          * (zoomAnimInit initialState).m_zoomMagCurrent
    ∧ (renderSurface_zoomUpdate
        ([(1 / 64 : ℚ)].foldl renderSurface_zoomUpdate
          (handleAltToggle (zoomAnimInit initialState) true)) (1 / 64)).m_lockedAperture
      = (zoomAnimInit initialState).m_zoomRadiusCurrentSrcPx
          * (zoomAnimInit initialState).m_zoomMagCurrent :=
  aperture_lock_invariant (zoomAnimInit initialState) true [1 / 64] (1 / 64)
    (by decide!) (by decide!) (by norm_num) (by decide!)

/-- Claim C13 (amended) after the first render and one radius toggle. -/
theorem zoom_targets_bounded_witness :
    4 ≤ (handleRadiusToggle (runZoom initialState [.tick 0, .radiusToggle true])
          false).m_zoomRadiusTargetSrcPx
    ∧ (handleRadiusToggle (runZoom initialState [.tick 0, .radiusToggle true])
          false).m_zoomRadiusTargetSrcPx ≤ 60 :=
  (zoom_targets_bounded [.tick 0, .radiusToggle true]).2.2 false (by decide!)

/-- Claim C14 (amended) at the initial state, whose base magnification is 10. -/
theorem toggle_up_down_returns_base_witness :
    (handleAltToggle (handleAltToggle initialState true) false).m_zoomMagTarget = 10
    ∧ (∀ cur vel dt, |(springUpdate cur 10 vel dt).1 - 10| < 1 / 100 →
        |(springUpdate cur 10 vel dt).2| < 1 / 100 → springUpdate cur 10 vel dt = (10, 0))
    ∧ (initialState.m_zoomMagBaseSet = false →
        initialState.m_zoomMagCurrent = initialState.m_zoomMagTarget →
        (handleAltToggle (handleAltToggle initialState true) false).m_zoomMagTarget
          = initialState.m_zoomMagCurrent) :=
  toggle_up_down_returns_base initialState 10 (by decide!) (by norm_num) (by norm_num)

/-- Claim C15 with the accumulated entry `#FF0000` and the final entry `#00FF00`. -/
theorem multi_pick_joined_witness :
    (decidePick ([entryRed].foldl (fun st t => (decidePick st false true t).state) initialState)
        false false entryGreen).effects
      = [if initialState.m_bAutoCopy
          then Effect.clipboardCopy
            (String.intercalate "\n" (([entryRed] ++ [entryGreen]).map (fun t => t.formattedColor)))
          else Effect.log
            (String.intercalate "\n" (([entryRed] ++ [entryGreen]).map (fun t => t.formattedColor)))]
    ∧ (decidePick ([entryRed].foldl (fun st t => (decidePick st false true t).state) initialState)
        false false entryGreen).exit = some 0
    ∧ joinEntries ["#FF0000", "#00FF00"] = "#FF0000\n#00FF00" :=
  multi_pick_joined initialState [entryRed] entryGreen rfl (by decide)

/-- Claim C16 (amended) at the red pixel with fancy output off. -/
theorem single_pick_log_line_witness :
    singlePickBody primaryFloatText statePlainOnRed red
      = hexNotation statePlainOnRed.m_bUseLowerCase red :=
  (single_pick_log_line primaryFloatText statePlainOnRed red rfl).1 rfl

/-- Claim C18 at an accumulating session with a keymap loaded. -/
theorem cancel_exits_with_status_2_witness :
    ∃ o, setKey primaryFloatText stateAccumulating 9 WL_KEYBOARD_KEY_STATE_PRESSED XKB_KEY_Escape
        = some o ∧ o.effects = [] ∧ o.exit = some 2 :=
  (cancel_exits_with_status_2 primaryFloatText stateAccumulating 9 XKB_KEY_Escape
    (Or.inl ⟨by decide, rfl⟩)).1

/-- Claim C19 at an accumulating session with Shift held over the red pixel. -/
theorem shift_confirm_accumulates_witness :
    ∃ COL, getColorFromPixel surfaceRed
          (finalizePickAtCurrent_CLICKPOS stateAccumulating surfaceRed frameRed) = some COL
      ∧ setButton primaryFloatText stateAccumulating 272 WL_POINTER_BUTTON_STATE_PRESSED
        = some ⟨{ stateAccumulating with
                    m_multiMode := true,
                    m_multiBuffer := stateAccumulating.m_multiBuffer
                      ++ [formattedColorOf primaryFloatText
                            stateAccumulating.m_bSelectedOutputMode COL] },
                [], none⟩ :=
  shift_confirm_accumulates primaryFloatText stateAccumulating 0 272 surfaceRed frameRed
    rfl rfl rfl rfl

/-- Claim C20 at an accumulating session: Return delivers the joined buffer. -/
theorem forced_finalize_as_plain_confirm_witness :
    setKey primaryFloatText stateAccumulating 28 WL_KEYBOARD_KEY_STATE_PRESSED XKB_KEY_Return
      = finalizePickWith primaryFloatText stateAccumulating true (shiftActive stateAccumulating) :=
  (forced_finalize_as_plain_confirm primaryFloatText stateAccumulating true).2.2.2 28
    XKB_KEY_Return (by decide) (Or.inl rfl)

/-! ## One animation tick, toggle histories -/

/-- The animation tick is the two spring updates followed by the aperture-lock block. -/
theorem zoomSpringTick_eq_lock (s : CHyprpicker) (dt : ℚ) (hdt : 0 < dt) :
    zoomSpringTick s dt
      = zoomApertureLock
          { s with
            m_zoomRadiusCurrentSrcPx :=
              (springUpdate s.m_zoomRadiusCurrentSrcPx s.m_zoomRadiusTargetSrcPx
                s.m_zoomRadiusVel dt).1,
            m_zoomRadiusVel :=
              (springUpdate s.m_zoomRadiusCurrentSrcPx s.m_zoomRadiusTargetSrcPx
                s.m_zoomRadiusVel dt).2,
            m_zoomMagCurrent :=
              (springUpdate s.m_zoomMagCurrent s.m_zoomMagTarget s.m_zoomMagVel dt).1,
            m_zoomMagVel :=
              (springUpdate s.m_zoomMagCurrent s.m_zoomMagTarget s.m_zoomMagVel dt).2 } := by
  simp only [zoomSpringTick, zoomApertureLock, gt_iff_lt, hdt, if_true]

theorem zoomApertureLock_mag (s : CHyprpicker) :
    (zoomApertureLock s).m_zoomMagCurrent = s.m_zoomMagCurrent
    ∧ (zoomApertureLock s).m_zoomMagVel = s.m_zoomMagVel
    ∧ (zoomApertureLock s).m_zoomMagTarget = s.m_zoomMagTarget := by
  simp only [zoomApertureLock]
  split_ifs <;> exact ⟨rfl, rfl, rfl⟩

/-- Claim C21.  One animation tick with elapsed time `dt > 0` runs, for the radius and for
the magnification, the update `a = -k (x - x_t) - c v; v := v + a dt; x := x + v dt` with
`k = 1000` and `c` the binary64 value of `2 sqrt(k)` (velocity before position), and then
sets `x := x_t`, `v := 0` if `|x - x_t| < 0.01` and `|v| < 0.01`.  The magnification and
its velocity leave the tick with these values; so do the radius and its velocity unless
the aperture lock is active, whose block runs after the two updates.  A tick with
`dt ≤ 0` changes nothing. -/
theorem spring_tick_formula (s : CHyprpicker) (dt : ℚ) :
    (0 < dt →
      zoomSpringTick s dt
        = zoomApertureLock
            { s with
              m_zoomRadiusCurrentSrcPx :=
                (springUpdate s.m_zoomRadiusCurrentSrcPx s.m_zoomRadiusTargetSrcPx
                  s.m_zoomRadiusVel dt).1,
              m_zoomRadiusVel :=
                (springUpdate s.m_zoomRadiusCurrentSrcPx s.m_zoomRadiusTargetSrcPx
                  s.m_zoomRadiusVel dt).2,
              m_zoomMagCurrent :=
                (springUpdate s.m_zoomMagCurrent s.m_zoomMagTarget s.m_zoomMagVel dt).1,
              m_zoomMagVel :=
                (springUpdate s.m_zoomMagCurrent s.m_zoomMagTarget s.m_zoomMagVel dt).2 })
    ∧ (∀ x x_t v : ℚ,
        springUpdate x x_t v dt
          = if |(x + (v + (-1000 * (x - x_t) - SPRING_C * v) * dt) * dt) - x_t| < 1 / 100
                ∧ |v + (-1000 * (x - x_t) - SPRING_C * v) * dt| < 1 / 100 then (x_t, 0)
            else (x + (v + (-1000 * (x - x_t) - SPRING_C * v) * dt) * dt,
                  v + (-1000 * (x - x_t) - SPRING_C * v) * dt))
    ∧ (SPRING_C ^ 2 < 4 * 1000 ∧ 4 * 1000 - 1 / 10 ^ 11 < SPRING_C ^ 2 ∧ 0 < SPRING_C)
    ∧ (0 < dt →
        ((zoomSpringTick s dt).m_zoomMagCurrent, (zoomSpringTick s dt).m_zoomMagVel)
          = springUpdate s.m_zoomMagCurrent s.m_zoomMagTarget s.m_zoomMagVel dt)
    ∧ (0 < dt → s.m_lockAperture = false →
        ((zoomSpringTick s dt).m_zoomRadiusCurrentSrcPx, (zoomSpringTick s dt).m_zoomRadiusVel)
          = springUpdate s.m_zoomRadiusCurrentSrcPx s.m_zoomRadiusTargetSrcPx
              s.m_zoomRadiusVel dt)
    ∧ (dt ≤ 0 → zoomSpringTick s dt = s) := by
  refine ⟨zoomSpringTick_eq_lock s dt, ?_, ?_, ?_, ?_, ?_⟩
  · intro x x_t v
    rw [springUpdate_eq]
    unfold SPRING_K
    rfl
  · obtain ⟨h0, _, _, _, h5, h6⟩ := SPRING_C_bounds
    unfold SPRING_K at h5 h6
    refine ⟨h6, ?_, h0⟩
    linarith
  · intro hdt
    rw [zoomSpringTick_eq_lock s dt hdt]
    obtain ⟨h1, h2, _⟩ := zoomApertureLock_mag
      { s with
        m_zoomRadiusCurrentSrcPx :=
          (springUpdate s.m_zoomRadiusCurrentSrcPx s.m_zoomRadiusTargetSrcPx
            s.m_zoomRadiusVel dt).1,
        m_zoomRadiusVel :=
          (springUpdate s.m_zoomRadiusCurrentSrcPx s.m_zoomRadiusTargetSrcPx
            s.m_zoomRadiusVel dt).2,
        m_zoomMagCurrent :=
          (springUpdate s.m_zoomMagCurrent s.m_zoomMagTarget s.m_zoomMagVel dt).1,
        m_zoomMagVel :=
          (springUpdate s.m_zoomMagCurrent s.m_zoomMagTarget s.m_zoomMagVel dt).2 }
    rw [h1, h2]
  · intro hdt hlock
    simp only [zoomSpringTick, gt_iff_lt, hdt, if_true, hlock, Bool.false_eq_true, if_false]
  · intro hdt
    simp only [zoomSpringTick, gt_iff_lt, not_lt.mpr hdt, if_false]

theorem runZoom_append_singleton (s : CHyprpicker) (l : List ZoomEvent) (e : ZoomEvent) :
    runZoom s (l ++ [e]) = applyZoomEvent (runZoom s l) e := by
  simp [runZoom, List.foldl_append]

theorem lastAltToggle_append_alt (l : List ZoomEvent) (d : Bool) :
    lastAltToggle (l ++ [.altToggle d]) = some d := by
  simp [lastAltToggle, List.foldl_append]

theorem lastAltToggle_append_radius (l : List ZoomEvent) (d : Bool) :
    lastAltToggle (l ++ [.radiusToggle d]) = lastAltToggle l := by
  simp [lastAltToggle, List.foldl_append]

theorem lastAltToggle_append_tick (l : List ZoomEvent) (dt : ℚ) :
    lastAltToggle (l ++ [.tick dt]) = lastAltToggle l := by
  simp [lastAltToggle, List.foldl_append]

theorem zoomSpringTick_base (s : CHyprpicker) (dt : ℚ) :
    (zoomSpringTick s dt).m_zoomMagBaseSet = s.m_zoomMagBaseSet
    ∧ (zoomSpringTick s dt).m_zoomMagBase = s.m_zoomMagBase := by
  simp only [zoomSpringTick]
  split_ifs <;> exact ⟨rfl, rfl⟩

theorem zoomAnimInit_base (s : CHyprpicker) :
    (zoomAnimInit s).m_zoomMagBaseSet = true
    ∧ (zoomAnimInit s).m_zoomMagBase
        = if s.m_zoomMagBaseSet then s.m_zoomMagBase else s.m_zoomMagTarget := by
  cases hset : s.m_zoomMagBaseSet <;> simp [zoomAnimInit, hset]

/-- An animation pass stores the base if none is stored and never changes a stored one. -/
theorem renderSurface_zoomUpdate_base (s : CHyprpicker) (dt : ℚ) :
    ((renderSurface_zoomUpdate s dt).m_zoomMagBaseSet = true →
        (renderSurface_zoomUpdate s dt).m_zoomMagBase
          = if s.m_zoomMagBaseSet then s.m_zoomMagBase else s.m_zoomMagTarget)
    ∧ (s.m_zoomMagBaseSet = true → (renderSurface_zoomUpdate s dt).m_zoomMagBaseSet = true) := by
  by_cases hinit : s.m_zoomAnimInitialized = true
  · obtain ⟨h1, h2⟩ := zoomSpringTick_base s dt
    simp only [renderSurface_zoomUpdate, hinit, if_true, h1, h2]
    exact ⟨fun h => by rw [if_pos h], fun h => h⟩
  · obtain ⟨h1, h2⟩ := zoomSpringTick_base (zoomAnimInit s) 0
    obtain ⟨h3, h4⟩ := zoomAnimInit_base s
    have hinit' : s.m_zoomAnimInitialized = false := by simpa using hinit
    simp only [renderSurface_zoomUpdate, hinit', Bool.false_eq_true, if_false, h1, h2, h3, h4]
    exact ⟨fun _ => trivial, fun _ => trivial⟩

/-- The toggle history determines the magnification target. -/
theorem runZoom_magTarget_history (events : List ZoomEvent) (s : CHyprpicker) (b : ℚ)
    (ht : s.m_zoomMagTarget = b)
    (hbase : s.m_zoomMagBaseSet = true → s.m_zoomMagBase = b) :
    ((runZoom s events).m_zoomMagBaseSet = true → (runZoom s events).m_zoomMagBase = b)
    ∧ (lastAltToggle events = none → (runZoom s events).m_zoomMagTarget = b)
    ∧ (∀ d, lastAltToggle events = some d →
        (runZoom s events).m_zoomMagBaseSet = true
        ∧ (runZoom s events).m_zoomMagTarget = clamp ((if d then 3 else 1) * b) 2 60) := by
  induction events using List.reverseRecOn with
  | nil =>
    refine ⟨hbase, fun _ => ht, ?_⟩
    intro d hd
    simp [lastAltToggle] at hd
  | append_singleton l e ih =>
    obtain ⟨ihb, ihn, ihs⟩ := ih
    rw [runZoom_append_singleton]
    generalize runZoom s l = s1 at *
    cases e with
    | altToggle toTriple =>
      obtain ⟨h1, h2, h3⟩ := handleAltToggle_magTarget s1 toTriple
      have hb1 : (if s1.m_zoomMagBaseSet then s1.m_zoomMagBase else s1.m_zoomMagTarget) = b := by
        cases hset : s1.m_zoomMagBaseSet with
        | true => simpa using ihb hset
        | false =>
          simp only [Bool.false_eq_true, if_false]
          cases hl : lastAltToggle l with
          | none => exact ihn hl
          | some d => exact absurd (ihs d hl).1 (by simp [hset])
      simp only [applyZoomEvent, lastAltToggle_append_alt]
      refine ⟨fun _ => by rw [h2, hb1], fun h => by simp at h, ?_⟩
      intro d hd
      simp only [Option.some.injEq] at hd
      subst hd
      exact ⟨h3, by rw [h1, hb1]⟩
    | radiusToggle toDouble =>
      have hA : (handleRadiusToggle s1 toDouble).m_zoomMagBaseSet = s1.m_zoomMagBaseSet
          ∧ (handleRadiusToggle s1 toDouble).m_zoomMagBase = s1.m_zoomMagBase := by
        simp only [handleRadiusToggle]
        split_ifs <;> exact ⟨rfl, rfl⟩
      simp only [applyZoomEvent, handleRadiusToggle_magTarget, hA.1, hA.2,
        lastAltToggle_append_radius]
      exact ⟨ihb, ihn, ihs⟩
    | tick dt =>
      have hA := renderSurface_zoomUpdate_base s1 dt
      simp only [applyZoomEvent, renderSurface_zoomUpdate_magTarget, lastAltToggle_append_tick]
      refine ⟨?_, ihn, ?_⟩
      · intro hset
        rw [hA.1 hset]
        cases hs1 : s1.m_zoomMagBaseSet with
        | true => simpa using ihb hs1
        | false =>
          simp only [Bool.false_eq_true, if_false]
          cases hl : lastAltToggle l with
          | none => exact ihn hl
          | some d => exact absurd (ihs d hl).1 (by simp [hs1])
      · intro d hd
        exact ⟨hA.2 (ihs d hd).1, (ihs d hd).2⟩

/-- Claim C22.  The magnification toggle does not compound.  Let `b` be the magnification
target of a state in which the stored base, if one is stored, equals that target (so it is
at the first toggle, since nothing but a toggle changes the target).  After every sequence
of magnification toggles, radius toggles and animation passes whose last magnification
toggle was "up" the target is `clamp(3 b, 2, 60)`, and `clamp(b, 2, 60)` if it was
"down"; with no toggle it is still `b`.  Toggling twice in the same direction gives the
same target as toggling once. -/
theorem alt_toggle_does_not_compound (s : CHyprpicker) (events : List ZoomEvent)
    (hbase : s.m_zoomMagBaseSet = true → s.m_zoomMagBase = s.m_zoomMagTarget) :
    (lastAltToggle events = some true →
        (runZoom s events).m_zoomMagTarget = clamp (3 * s.m_zoomMagTarget) 2 60)
    ∧ (lastAltToggle events = some false →
        (runZoom s events).m_zoomMagTarget = clamp s.m_zoomMagTarget 2 60)
    ∧ (lastAltToggle events = none → (runZoom s events).m_zoomMagTarget = s.m_zoomMagTarget)
    ∧ (∀ d between,
        lastAltToggle between = none →
        (runZoom s (events ++ [.altToggle d] ++ between ++ [.altToggle d])).m_zoomMagTarget
          = (runZoom s (events ++ [.altToggle d])).m_zoomMagTarget) := by
  have H := fun ev => runZoom_magTarget_history ev s s.m_zoomMagTarget rfl hbase
  refine ⟨?_, ?_, (H events).2.1, ?_⟩
  · intro h
    simpa using ((H events).2.2 true h).2
  · intro h
    simpa using ((H events).2.2 false h).2
  · intro d between _
    have h1 := lastAltToggle_append_alt (events ++ [.altToggle d] ++ between) d
    have h2 := lastAltToggle_append_alt events d
    rw [((H _).2.2 d h1).2, ((H _).2.2 d h2).2]

/-- Claim C23.  `handleRadiusToggle` always leaves the aperture lock cleared and never
changes the magnification target, the current magnification, the magnification base or
the current radius.  The base aperture is seeded once, from
`radius_current × magnification_current` at the first radius toggle.  When the current
magnification exceeds `0.01` the radius target becomes
`clamp(A / magnification_current, 4, 60)` with `A` the base aperture for "down" and twice
the base aperture for "up"; otherwise the radius target is left as it was. -/
theorem radius_toggle_effect (s : CHyprpicker) (toDouble : Bool) :
    (handleRadiusToggle s toDouble).m_lockAperture = false
    ∧ (handleRadiusToggle s toDouble).m_zoomMagTarget = s.m_zoomMagTarget
    ∧ (handleRadiusToggle s toDouble).m_zoomMagCurrent = s.m_zoomMagCurrent
    ∧ (handleRadiusToggle s toDouble).m_zoomMagBase = s.m_zoomMagBase
    ∧ (handleRadiusToggle s toDouble).m_zoomMagBaseSet = s.m_zoomMagBaseSet
    ∧ (handleRadiusToggle s toDouble).m_zoomRadiusCurrentSrcPx = s.m_zoomRadiusCurrentSrcPx
    ∧ (handleRadiusToggle s toDouble).m_apertureBaseSet = true
    ∧ (handleRadiusToggle s toDouble).m_apertureBaseUI
        = (if s.m_apertureBaseSet then s.m_apertureBaseUI
            else s.m_zoomRadiusCurrentSrcPx * s.m_zoomMagCurrent)
    ∧ (1 / 100 < s.m_zoomMagCurrent →
        (handleRadiusToggle s toDouble).m_zoomRadiusTargetSrcPx
          = clamp ((if toDouble then 2 else 1)
              * (if s.m_apertureBaseSet then s.m_apertureBaseUI
                  else s.m_zoomRadiusCurrentSrcPx * s.m_zoomMagCurrent)
              / s.m_zoomMagCurrent) 4 60)
    ∧ (s.m_zoomMagCurrent ≤ 1 / 100 →
        (handleRadiusToggle s toDouble).m_zoomRadiusTargetSrcPx = s.m_zoomRadiusTargetSrcPx) := by
  rcases lt_or_le ((100 : ℚ)⁻¹) s.m_zoomMagCurrent with hm | hm
  · cases hset : s.m_apertureBaseSet <;> cases toDouble <;>
      simp [handleRadiusToggle, hset, hm, not_le.mpr hm, ZOOM_RADIUS_MIN, ZOOM_RADIUS_MAX,
        mul_comm]
  · cases hset : s.m_apertureBaseSet <;> cases toDouble <;>
      simp [handleRadiusToggle, hset, hm, not_lt.mpr hm, ZOOM_RADIUS_MIN, ZOOM_RADIUS_MAX,
        mul_comm]

/-! ## Rendering and the busy flags -/

/-- A slot handed out by `getBufferForLS` is slot 0 or 1, allocated and not busy. -/
theorem getBufferForLS_some (pLS : CLayerSurface) (slot : Nat)
    (h : getBufferForLS pLS = some slot) :
    (slot = 0 ∨ slot = 1) ∧ ∃ b, pLS.buffers slot = some b ∧ b.busy = false := by
  rw [getBufferForLS_eq] at h
  split_ifs at h with h1 h0
  · cases h
    exact ⟨Or.inr rfl, h1⟩
  · cases h
    exact ⟨Or.inl rfl, h0⟩

/-- No slot is handed out when both slots are busy or unallocated. -/
theorem getBufferForLS_none_of_busy (pLS : CLayerSurface)
    (h : ∀ k b, pLS.buffers k = some b → b.busy = true) : getBufferForLS pLS = none := by
  rw [getBufferForLS_eq]
  rw [if_neg, if_neg]
  · rintro ⟨b, hb, hfree⟩
    rw [h 0 b hb] at hfree
    cases hfree
  · rintro ⟨b, hb, hfree⟩
    rw [h 1 b hb] at hfree
    cases hfree

theorem renderSurface_zoomUpdate_surfaces (s : CHyprpicker) (dt : ℚ) :
    (renderSurface_zoomUpdate s dt).m_vLayerSurfaces = s.m_vLayerSurfaces := by
  simp only [renderSurface_zoomUpdate, zoomSpringTick, zoomAnimInit]
  split_ifs <;> rfl

/-- A render without a writable buffer or without a captured frame changes nothing. -/
theorem renderSurface_skip (paint : CHyprpicker → CLayerSurface → SPoolBuffer → Bool → List Byte)
    (s : CHyprpicker) (i : Nat) (forceInactive : Bool) (dt : ℚ) (pSurface : CLayerSurface)
    (hls : s.m_vLayerSurfaces[i]? = some pSurface)
    (h : getBufferForLS pSurface = none ∨ pSurface.screenBuffer = none) :
    renderSurface paint s i forceInactive dt = some s := by
  simp only [renderSurface, hls]
  rcases h with h | h
  · simp only [h]
  · cases hget : getBufferForLS pSurface with
    | none => rfl
    | some slot =>
      simp only [h]
      cases pSurface.buffers slot <;> rfl

theorem renderSurface_animate_surfaces (s : CHyprpicker) (i : Nat) (forceInactive : Bool)
    (dt : ℚ) :
    (renderSurface_animate s i forceInactive dt).m_vLayerSurfaces = s.m_vLayerSurfaces := by
  unfold renderSurface_animate
  split_ifs
  · exact renderSurface_zoomUpdate_surfaces s dt
  · rfl

/-- The submitted surface: the drawn slot is busy, the other slot and the captured frame
are as before, `rendered` is set. -/
theorem renderSurface_submit_fields (pSurface : CLayerSurface) (slot : Nat)
    (PBUFFER : SPoolBuffer) (data : List Byte) (hslot : slot = 0 ∨ slot = 1) :
    (renderSurface_submit pSurface slot PBUFFER data).buffers slot
        = some { PBUFFER with data := data, busy := true }
    ∧ (renderSurface_submit pSurface slot PBUFFER data).buffers (1 - slot)
        = pSurface.buffers (1 - slot)
    ∧ (renderSurface_submit pSurface slot PBUFFER data).rendered = true
    ∧ (renderSurface_submit pSurface slot PBUFFER data).screenBuffer = pSurface.screenBuffer := by
  rcases hslot with h | h <;> subst h <;>
    simp [renderSurface_submit, CLayerSurface.setBuffer, CLayerSurface.sendFrame,
      CLayerSurface.buffers]

/-- A render with a writable buffer and a captured frame. -/
theorem renderSurface_draw (paint : CHyprpicker → CLayerSurface → SPoolBuffer → Bool → List Byte)
    (s : CHyprpicker) (i : Nat) (forceInactive : Bool) (dt : ℚ) (pSurface : CLayerSurface)
    (slot : Nat) (PBUFFER sb : SPoolBuffer)
    (hls : s.m_vLayerSurfaces[i]? = some pSurface)
    (hget : getBufferForLS pSurface = some slot) (hbuf : pSurface.buffers slot = some PBUFFER)
    (hsb : pSurface.screenBuffer = some sb) :
    renderSurface paint s i forceInactive dt
      = some { renderSurface_animate s i forceInactive dt with
          m_vLayerSurfaces :=
            (renderSurface_animate s i forceInactive dt).m_vLayerSurfaces.set i
              (renderSurface_submit pSurface slot PBUFFER
                (paint (renderSurface_animate s i forceInactive dt) pSurface PBUFFER
                  forceInactive)) } := by
  simp only [renderSurface, hls, hget, hbuf, hsb]

/-- After a drawing render the surface is the submitted one and the others are as before. -/
theorem renderSurface_draw_surfaces
    (paint : CHyprpicker → CLayerSurface → SPoolBuffer → Bool → List Byte)
    (s : CHyprpicker) (i : Nat) (forceInactive : Bool) (dt : ℚ) (pSurface : CLayerSurface)
    (slot : Nat) (PBUFFER sb : SPoolBuffer)
    (hls : s.m_vLayerSurfaces[i]? = some pSurface)
    (hget : getBufferForLS pSurface = some slot) (hbuf : pSurface.buffers slot = some PBUFFER)
    (hsb : pSurface.screenBuffer = some sb) :
    ∃ s1 data, renderSurface paint s i forceInactive dt = some s1
      ∧ s1.m_vLayerSurfaces[i]? = some (renderSurface_submit pSurface slot PBUFFER data)
      ∧ (∀ j, j ≠ i → s1.m_vLayerSurfaces[j]? = s.m_vLayerSurfaces[j]?) := by
  have hi : i < s.m_vLayerSurfaces.length := by
    rcases List.getElem?_eq_some.mp hls with ⟨hi, _⟩
    exact hi
  rw [renderSurface_draw paint s i forceInactive dt pSurface slot PBUFFER sb hls hget hbuf hsb]
  refine ⟨_, paint (renderSurface_animate s i forceInactive dt) pSurface PBUFFER forceInactive,
    rfl, ?_, ?_⟩
  · simp only [renderSurface_animate_surfaces]
    exact List.getElem?_set_self hi
  · intro j hj
    simp only [renderSurface_animate_surfaces]
    exact List.getElem?_set_ne (Ne.symm hj)

/-- The two slots of a surface are slot 0 and every other index. -/
theorem buffers_other (pLS : CLayerSurface) (slot k : Nat) (hslot : slot = 0 ∨ slot = 1) :
    pLS.buffers k = pLS.buffers slot ∨ pLS.buffers k = pLS.buffers (1 - slot) := by
  rcases hslot with h | h <;> subst h <;> by_cases hk : k = 0 <;>
    simp [CLayerSurface.buffers, hk]

/-- The two ways a render can go: it returns at once, or it draws into the free slot that
`getBufferForLS` handed out and submits it. -/
theorem renderSurface_step (paint : CHyprpicker → CLayerSurface → SPoolBuffer → Bool → List Byte)
    (t : CHyprpicker) (i : Nat) (p : CLayerSurface) (f : Bool) (d : ℚ)
    (htp : t.m_vLayerSurfaces[i]? = some p) :
    (renderSurface paint t i f d = some t
      ∧ (getBufferForLS p = none ∨ p.screenBuffer = none))
    ∨ (∃ slot PBUFFER t1 data, (slot = 0 ∨ slot = 1) ∧ getBufferForLS p = some slot
        ∧ p.buffers slot = some PBUFFER ∧ PBUFFER.busy = false
        ∧ renderSurface paint t i f d = some t1
        ∧ t1.m_vLayerSurfaces[i]? = some (renderSurface_submit p slot PBUFFER data)
        ∧ (∀ j, j ≠ i → t1.m_vLayerSurfaces[j]? = t.m_vLayerSurfaces[j]?)) := by
  cases hget : getBufferForLS p with
  | none => exact Or.inl ⟨renderSurface_skip paint t i f d p htp (Or.inl hget), Or.inl rfl⟩
  | some slot =>
    cases hsb : p.screenBuffer with
    | none => exact Or.inl ⟨renderSurface_skip paint t i f d p htp (Or.inr hsb), Or.inr rfl⟩
    | some sb =>
      obtain ⟨hslot, PBUFFER, hbuf, hfree⟩ := getBufferForLS_some p slot hget
      obtain ⟨t1, data, hr, hi, hj⟩ :=
        renderSurface_draw_surfaces paint t i f d p slot PBUFFER sb htp hget hbuf hsb
      exact Or.inr ⟨slot, PBUFFER, t1, data, hslot, rfl, hbuf, hfree, hr, hi, hj⟩

/-- Claim C24.  `renderSurface` never draws into a busy buffer.  If the surface has no
non-busy buffer, or no captured frame, the call returns leaving the whole controller,
hence every busy flag, the rendered flag and the zoom animation state, unchanged.
Otherwise the one buffer it draws into was not busy on entry and is busy on return, the
other slot is unchanged, and `rendered` is set; every buffer that was busy on entry is
found unchanged on return.  Hence after two renders of a surface with no presenter release
in between, a third render is a no-op. -/
theorem renderSurface_never_draws_busy
    (paint : CHyprpicker → CLayerSurface → SPoolBuffer → Bool → List Byte)
    (s : CHyprpicker) (i : Nat) (forceInactive : Bool) (dt : ℚ) (pSurface : CLayerSurface)
    (hls : s.m_vLayerSurfaces[i]? = some pSurface) :
    ((getBufferForLS pSurface = none ∨ pSurface.screenBuffer = none) →
        renderSurface paint s i forceInactive dt = some s)
    ∧ (∀ slot, getBufferForLS pSurface = some slot → pSurface.screenBuffer ≠ none →
        ∃ PBUFFER s1 pSurface1 data,
          pSurface.buffers slot = some PBUFFER ∧ PBUFFER.busy = false
          ∧ renderSurface paint s i forceInactive dt = some s1
          ∧ s1.m_vLayerSurfaces[i]? = some pSurface1
          ∧ pSurface1.buffers slot = some { PBUFFER with data := data, busy := true }
          ∧ pSurface1.buffers (1 - slot) = pSurface.buffers (1 - slot)
          ∧ pSurface1.rendered = true
          ∧ (∀ j, j ≠ i → s1.m_vLayerSurfaces[j]? = s.m_vLayerSurfaces[j]?))
    ∧ (∀ s1 pSurface1, renderSurface paint s i forceInactive dt = some s1 →
        s1.m_vLayerSurfaces[i]? = some pSurface1 →
        ∀ k b, pSurface.buffers k = some b → b.busy = true → pSurface1.buffers k = some b)
    ∧ (∀ (f1 f2 f3 : Bool) (dt1 dt2 dt3 : ℚ) (s1 s2 : CHyprpicker),
        renderSurface paint s i f1 dt1 = some s1 → renderSurface paint s1 i f2 dt2 = some s2 →
        renderSurface paint s2 i f3 dt3 = some s2) := by
  refine ⟨renderSurface_skip paint s i forceInactive dt pSurface hls, ?_, ?_, ?_⟩
  · intro slot hget hsb
    rcases renderSurface_step paint s i pSurface forceInactive dt hls with ⟨_, hno | hno⟩ | h
    · rw [hno] at hget
      cases hget
    · exact absurd hno hsb
    · obtain ⟨slot1, PBUFFER, s1, data, hslot, hget1, hbuf, hfree, hr, hi, hj⟩ := h
      rw [hget] at hget1
      cases hget1
      obtain ⟨h1, h2, h3, _⟩ := renderSurface_submit_fields pSurface slot PBUFFER data hslot
      exact ⟨PBUFFER, s1, _, data, hbuf, hfree, hr, hi, h1, h2, h3, hj⟩
  · intro s1 pSurface1 hr hi k b hb hbusy
    rcases renderSurface_step paint s i pSurface forceInactive dt hls with ⟨hsame, _⟩ | h
    · rw [hsame] at hr
      cases hr
      rw [hls] at hi
      cases hi
      exact hb
    · obtain ⟨slot, PBUFFER, s2, data, hslot, _, hbuf, hfree, hr2, hi2, _⟩ := h
      rw [hr] at hr2
      cases hr2
      rw [hi] at hi2
      cases hi2
      obtain ⟨_, h2, _, _⟩ := renderSurface_submit_fields pSurface slot PBUFFER data hslot
      rcases buffers_other pSurface slot k hslot with hk | hk
      · rw [hk, hbuf] at hb
        cases hb
        rw [hfree] at hbusy
        cases hbusy
      · have hk2 : (renderSurface_submit pSurface slot PBUFFER data).buffers k
            = (renderSurface_submit pSurface slot PBUFFER data).buffers (1 - slot)
            ∨ pSurface.buffers slot = pSurface.buffers (1 - slot) := by
          rcases hslot with h | h <;> subst h <;> by_cases hk0 : k = 0 <;>
            simp_all [CLayerSurface.buffers]
        rcases hk2 with hk2 | hk2
        · rw [hk2, h2, ← hk]
          exact hb
        · rw [hk, ← hk2, hbuf] at hb
          cases hb
          rw [hfree] at hbusy
          cases hbusy
  · intro f1 f2 f3 dt1 dt2 dt3 s1 s2 hr1 hr2
    rcases renderSurface_step paint s i pSurface f1 dt1 hls with ⟨hsame, hno⟩ | h
    · rw [hsame] at hr1
      cases hr1
      have h2 := renderSurface_skip paint s i f2 dt2 pSurface hls hno
      rw [h2] at hr2
      cases hr2
      exact renderSurface_skip paint s i f3 dt3 pSurface hls hno
    · obtain ⟨a, PA, t1, dataA, ha, _, _, _, hr1b, hi1, _⟩ := h
      rw [hr1] at hr1b
      cases hr1b
      obtain ⟨hA1, hA2, _, hAsb⟩ := renderSurface_submit_fields pSurface a PA dataA ha
      rcases renderSurface_step paint s1 i _ f2 dt2 hi1 with ⟨hsame, hno⟩ | h
      · rw [hsame] at hr2
        cases hr2
        exact renderSurface_skip paint s1 i f3 dt3 _ hi1 hno
      · obtain ⟨b, PB, t2, dataB, hb, _, hbufB, hfreeB, hr2b, hi2, _⟩ := h
        rw [hr2] at hr2b
        cases hr2b
        obtain ⟨hB1, hB2, _, _⟩ := renderSurface_submit_fields
          (renderSurface_submit pSurface a PA dataA) b PB dataB hb
        have hba : 1 - b = a := by
          rcases ha with h | h <;> rcases hb with h2 | h2 <;> subst h <;> subst h2
          · rw [hA1] at hbufB
            cases hbufB
            cases hfreeB
          · rfl
          · rfl
          · rw [hA1] at hbufB
            cases hbufB
            cases hfreeB
        apply renderSurface_skip paint s2 i f3 dt3 _ hi2
        left
        apply getBufferForLS_none_of_busy
        intro k bk hk
        rcases buffers_other (renderSurface_submit (renderSurface_submit pSurface a PA dataA) b PB
          dataB) b k hb with h | h
        · rw [h, hB1] at hk
          cases hk
          rfl
        · rw [h, hB2, hba, hA1] at hk
          cases hk
          rfl

/-! ## Preview and pick, sampling, label, delivery -/

/-- Claim C25 (the code departs from it).  With the pointer at `x = 7` on a monitor 10
units wide, a presentation buffer 3 pixels wide and a frame 10 pixels wide, `renderSurface`
looks up the frame position `6.999999999999998`, pixel 6, and `finalizePickAtCurrent` the
position 7, pixel 7: the magnifier shows the blue value 60, the pick returns 70.  On a
monitor of logical size `608 × 342` at the fractional scale 2.25, for which `recheckACK`
makes presentation buffers of `1368 × 770` pixels, with a frame of `1366 × 768` pixels and
the pointer at `y = 57`, the preview looks up row 127 and the pick row 128.  In exact
arithmetic the two positions are equal for every presentation size other than 0. -/
theorem preview_and_pick_differ :
    (renderSurface_centerBuf stateAtSeven surface10x1 presentation3x1 frame10x1).x
      = 3940649673949183 / 562949953421312
    ∧ (finalizePickAtCurrent_CLICKPOS stateAtSeven surface10x1 frame10x1).x = 7
    ∧ getColorFromPixel surface10x1
        (renderSurface_centerBuf stateAtSeven surface10x1 presentation3x1 frame10x1)
      = some ⟨0, 0, 60, 255⟩
    ∧ getColorFromPixel surface10x1
        (finalizePickAtCurrent_CLICKPOS stateAtSeven surface10x1 frame10x1)
      = some ⟨0, 0, 70, 255⟩
    ∧ recheckACK_MONITORSIZE stateAt57 surface768 = presentation770.pixelSize
    ∧ ⌊(renderSurface_centerBuf stateAt57 surface768 presentation770 frame768).y⌋ = 127
    ∧ ⌊(finalizePickAtCurrent_CLICKPOS stateAt57 surface768 frame768).y⌋ = 128
    ∧ (∀ p m pb f n : ℚ, pb ≠ 0 →
        clamp (uiToFrame (p / m * pb) pb f + n) 0 (f - 1)
          = clamp (logicalToFrame p m f + n) 0 (f - 1)) := by
  refine ⟨by decide!, by decide!, by decide!, by decide!, by decide!, by decide!, by decide!, ?_⟩
  intro p m pb f n hpb
  unfold uiToFrame logicalToFrame
  rw [mul_div_assoc, div_self hpb, mul_one]

/-- Claim C26 (counterexample).  On the `1 × 1` frame of `surfaceRed` the coordinate
`(1/2, 0)` lies outside the range `0 ≤ x ≤ w - 1 = 0`, yet `getColorFromPixel` returns the
red pixel, not `(0, 0, 0, 0)`: the coordinate is floored before the range test. -/
theorem sample_above_last_column :
    surfaceRed.screenBuffer = some frameRed ∧ frameRed.pixelSize = ⟨1, 1⟩
    ∧ ¬ ((1 / 2 : ℚ) ≤ 1 - 1)
    ∧ getColorFromPixel surfaceRed ⟨1 / 2, 0⟩ = some red
    ∧ getColorFromPixel surfaceRed ⟨1 / 2, 0⟩ ≠ some ⟨0, 0, 0, 0⟩ := by
  decide!

/-- A coordinate whose floor is a pixel of the frame is read from the buffer: the four
bytes at offset `(floor(y) * w + floor(x)) * 4`, which end inside the `4 w h` bytes. -/
theorem getColorFromPixel_read (pLS : CLayerSurface) (sb : SPoolBuffer) (w h : Nat)
    (pix : Vector2D) (hsb : pLS.screenBuffer = some sb) (hsize : sb.pixelSize = ⟨w, h⟩)
    (hx0 : 0 ≤ pix.x) (hy0 : 0 ≤ pix.y) (hxw : ⌊pix.x⌋₊ + 1 ≤ w) (hyh : ⌊pix.y⌋₊ + 1 ≤ h) :
    getColorFromPixel pLS pix
      = some ⟨readByte (sb.paddedData.getD sb.data) ((⌊pix.y⌋₊ * w + ⌊pix.x⌋₊) * 4 + 2),
              readByte (sb.paddedData.getD sb.data) ((⌊pix.y⌋₊ * w + ⌊pix.x⌋₊) * 4 + 1),
              readByte (sb.paddedData.getD sb.data) ((⌊pix.y⌋₊ * w + ⌊pix.x⌋₊) * 4),
              readByte (sb.paddedData.getD sb.data) ((⌊pix.y⌋₊ * w + ⌊pix.x⌋₊) * 4 + 3)⟩
    ∧ (⌊pix.y⌋₊ * w + ⌊pix.x⌋₊) * 4 + 4 ≤ 4 * w * h := by
  have hix : (⌊pix.x⌋ : ℚ) = (⌊pix.x⌋₊ : ℚ) := by
    have := Int.natCast_floor_eq_floor hx0
    rw [← this]
    norm_cast
  have hiy : (⌊pix.y⌋ : ℚ) = (⌊pix.y⌋₊ : ℚ) := by
    have := Int.natCast_floor_eq_floor hy0
    rw [← this]
    norm_cast
  constructor
  · have hnot : ¬ ((⌊pix.x⌋ : ℚ) ≥ (w : ℚ) ∨ (⌊pix.y⌋ : ℚ) ≥ (h : ℚ) ∨ (⌊pix.x⌋ : ℚ) < 0
        ∨ (⌊pix.y⌋ : ℚ) < 0) := by
      rw [hix, hiy]
      rintro (h1 | h1 | h1 | h1)
      · have : w ≤ ⌊pix.x⌋₊ := by exact_mod_cast h1
        omega
      · have : h ≤ ⌊pix.y⌋₊ := by exact_mod_cast h1
        omega
      · exact absurd h1 (not_lt.mpr (Nat.cast_nonneg _))
      · exact absurd h1 (not_lt.mpr (Nat.cast_nonneg _))
    have hcx : castInt (⌊pix.x⌋ : ℚ) = ⌊pix.x⌋₊ := by
      rw [hix]
      exact castInt_natCast _
    have hcy : castInt (⌊pix.y⌋ : ℚ) = ⌊pix.y⌋₊ := by
      rw [hiy]
      exact castInt_natCast _
    simp only [getColorFromPixel, hsb, hsize, Vector2D.floor_x, Vector2D.floor_y, hnot,
      if_false, hcx, hcy, castInt_natCast]
    have hoff : ⌊pix.y⌋₊ * w * 4 + ⌊pix.x⌋₊ * 4 = (⌊pix.y⌋₊ * w + ⌊pix.x⌋₊) * 4 := by ring
    rw [hoff]
    cases sb.paddedData <;> rfl
  · have h1 : ⌊pix.y⌋₊ * w + ⌊pix.x⌋₊ + 1 ≤ h * w := by
      calc ⌊pix.y⌋₊ * w + ⌊pix.x⌋₊ + 1 ≤ ⌊pix.y⌋₊ * w + w := by omega
        _ = (⌊pix.y⌋₊ + 1) * w := by ring
        _ ≤ h * w := Nat.mul_le_mul_right w hyh
    nlinarith

/-- Claim C26 (amended).  For every frame of width `w` and height `h` and every coordinate
with `0 ≤ x ≤ w - 1` and `0 ≤ y ≤ h - 1`, `getColorFromPixel` does not take its
out-of-range branch: it reads the four bytes at offset `(floor(y) * w + floor(x)) * 4`,
which is at most `4 w h - 4`, and returns them as (blue, green, red, alpha) in memory
order.  For a coordinate with `x < 0`, `y < 0`, `floor(x) ≥ w` or `floor(y) ≥ h` it
returns `(0, 0, 0, 0)` whatever the buffer holds.  Every coordinate with `0 ≤ x < w` and
`0 ≤ y < h`, the strips `w - 1 < x < w` and `h - 1 < y < h` included, is read in the same
way. -/
theorem getColorFromPixel_in_range (pLS : CLayerSurface) (sb : SPoolBuffer) (w h : Nat)
    (pix : Vector2D) (hsb : pLS.screenBuffer = some sb) (hsize : sb.pixelSize = ⟨w, h⟩) :
    (0 ≤ pix.x → pix.x ≤ w - 1 → 0 ≤ pix.y → pix.y ≤ h - 1 →
      getColorFromPixel pLS pix
        = some ⟨readByte (sb.paddedData.getD sb.data) ((⌊pix.y⌋₊ * w + ⌊pix.x⌋₊) * 4 + 2),
                readByte (sb.paddedData.getD sb.data) ((⌊pix.y⌋₊ * w + ⌊pix.x⌋₊) * 4 + 1),
                readByte (sb.paddedData.getD sb.data) ((⌊pix.y⌋₊ * w + ⌊pix.x⌋₊) * 4),
                readByte (sb.paddedData.getD sb.data) ((⌊pix.y⌋₊ * w + ⌊pix.x⌋₊) * 4 + 3)⟩
      ∧ (⌊pix.y⌋₊ * w + ⌊pix.x⌋₊) * 4 + 4 ≤ 4 * w * h)
    ∧ ((pix.x < 0 ∨ pix.y < 0 ∨ (w : ℚ) ≤ ⌊pix.x⌋ ∨ (h : ℚ) ≤ ⌊pix.y⌋) →
        ∀ data padded,
          getColorFromPixel
              { pLS with screenBuffer := some { sb with data := data, paddedData := padded } } pix
            = some ⟨0, 0, 0, 0⟩)
    ∧ (0 ≤ pix.x → pix.x < w → 0 ≤ pix.y → pix.y < h →
      getColorFromPixel pLS pix
        = some ⟨readByte (sb.paddedData.getD sb.data) ((⌊pix.y⌋₊ * w + ⌊pix.x⌋₊) * 4 + 2),
                readByte (sb.paddedData.getD sb.data) ((⌊pix.y⌋₊ * w + ⌊pix.x⌋₊) * 4 + 1),
                readByte (sb.paddedData.getD sb.data) ((⌊pix.y⌋₊ * w + ⌊pix.x⌋₊) * 4),
                readByte (sb.paddedData.getD sb.data) ((⌊pix.y⌋₊ * w + ⌊pix.x⌋₊) * 4 + 3)⟩
      ∧ (⌊pix.y⌋₊ * w + ⌊pix.x⌋₊) * 4 + 4 ≤ 4 * w * h) := by
  refine ⟨?_, ?_, ?_⟩
  · intro hx0 hx1 hy0 hy1
    have hfx : (⌊pix.x⌋₊ : ℚ) ≤ pix.x := Nat.floor_le hx0
    have hfy : (⌊pix.y⌋₊ : ℚ) ≤ pix.y := Nat.floor_le hy0
    have hxw : ⌊pix.x⌋₊ + 1 ≤ w := by
      have : (⌊pix.x⌋₊ : ℚ) + 1 ≤ w := by linarith
      exact_mod_cast this
    have hyh : ⌊pix.y⌋₊ + 1 ≤ h := by
      have : (⌊pix.y⌋₊ : ℚ) + 1 ≤ h := by linarith
      exact_mod_cast this
    exact getColorFromPixel_read pLS sb w h pix hsb hsize hx0 hy0 hxw hyh
  · intro hout data padded
    have hcond : (⌊pix.x⌋ : ℚ) ≥ (w : ℚ) ∨ (⌊pix.y⌋ : ℚ) ≥ (h : ℚ) ∨ (⌊pix.x⌋ : ℚ) < 0
        ∨ (⌊pix.y⌋ : ℚ) < 0 := by
      rcases hout with h1 | h1 | h1 | h1
      · right; right; left
        have : ⌊pix.x⌋ < 0 := Int.floor_lt.mpr (by exact_mod_cast h1)
        exact_mod_cast this
      · right; right; right
        have : ⌊pix.y⌋ < 0 := Int.floor_lt.mpr (by exact_mod_cast h1)
        exact_mod_cast this
      · left
        exact h1
      · right; left
        exact h1
    simp only [getColorFromPixel, hsize, Vector2D.floor_x, Vector2D.floor_y, hcond, if_true]
  · intro hx0 hx1 hy0 hy1
    have hxw : ⌊pix.x⌋₊ + 1 ≤ w := (Nat.floor_lt hx0).mpr hx1
    have hyh : ⌊pix.y⌋₊ + 1 ≤ h := (Nat.floor_lt hy0).mpr hy1
    exact getColorFromPixel_read pLS sb w h pix hsb hsize hx0 hy0 hxw hyh

/-- Claim C28 (counterexample).  With the pointer at the origin of the surface the
magnifier centre in a `1920 × 1080` presentation buffer is `(0, 0)`, and for a label of 7
characters the label rectangle then starts at `x = -38.5`: it is not inside
`[0, W] × [0, H]`. -/
theorem label_clipped_at_left_edge :
    renderSurface_uiCenter stateOnRed surfaceRed buffer1080p frameRed = ⟨0, 0⟩
    ∧ buffer1080p.pixelSize = ⟨1920, 1080⟩
    ∧ renderSurface_labelRect ⟨0, 0⟩ ⟨1920, 1080⟩ 7 = (-77 / 2, 20, 85, 28)
    ∧ (renderSurface_labelRect ⟨0, 0⟩ ⟨1920, 1080⟩ 7).1 < 0 := by
  decide!

/-- Claim C28 (amended).  For every magnifier centre inside the presentation buffer of
size `W × H` and every label text of length `len`, the label rectangle
`[x, x + 8 + 11 len] × [y, y + 28]` computed by `renderSurface` never reaches below the
bottom edge, stays below the top edge when `H ≥ 90`, and stays left of the right edge when
`len ≤ 13`; its left side is at most `centre.x - 5.5 len`, so it crosses the left edge
whenever the centre is closer than `5.5 len` to it. -/
theorem label_placement_bounds (uiCenter pixelSize : Vector2D) (len : Nat)
    (hx1 : uiCenter.x ≤ pixelSize.x - 1)
    (hy0 : 0 ≤ uiCenter.y) (hy1 : uiCenter.y ≤ pixelSize.y - 1) :
    (renderSurface_labelRect uiCenter pixelSize len).2.2.1 = 8 + 11 * len
    ∧ (renderSurface_labelRect uiCenter pixelSize len).2.2.2 = 28
    ∧ (renderSurface_labelRect uiCenter pixelSize len).2.1 + 28 ≤ pixelSize.y
    ∧ (90 ≤ pixelSize.y → 0 ≤ (renderSurface_labelRect uiCenter pixelSize len).2.1)
    ∧ (len ≤ 13 →
        (renderSurface_labelRect uiCenter pixelSize len).1 + (8 + 11 * len) ≤ pixelSize.x)
    ∧ (renderSurface_labelRect uiCenter pixelSize len).1 ≤ uiCenter.x - 11 / 2 * len
    ∧ (uiCenter.x < 11 / 2 * len → (renderSurface_labelRect uiCenter pixelSize len).1 < 0) := by
  have hlen : (0 : ℚ) ≤ len := Nat.cast_nonneg _
  by_cases hb : uiCenter.y > pixelSize.y - 50 <;> by_cases hr : uiCenter.x > pixelSize.x - 100 <;>
    simp only [renderSurface_labelRect, hb, hr, and_self, and_true, and_false, if_true, if_false,
      Nat.cast_mul, Nat.cast_ofNat] <;>
    simp only [gt_iff_lt, not_lt] at hb hr <;>
    refine ⟨trivial, trivial, ?_, fun hH => ?_, fun hl => ?_, ?_, fun hc => ?_⟩ <;>
    first
    | linarith
    | (have hl2 : (len : ℚ) ≤ 13 := by exact_mod_cast hl
       linarith)

/-- Claim C29.  When a multi-pick session is finalized, by a confirm without Shift or by a
forced finalize, the joined string goes to exactly one collaborator: the clipboard if
auto-copy is enabled, otherwise the log.  No notification is sent whatever the
notification option, and with auto-copy enabled nothing is logged.  A single pick always
logs its line first, then copies if auto-copy is on, then notifies if notifications are
on. -/
theorem multi_pick_one_collaborator (s : CHyprpicker) (t : PickTexts)
    (forceFinalize withShift : Bool) :
    (s.m_multiMode = true → (forceFinalize = true ∨ withShift = false) →
      (∃ joined,
          (decidePick s forceFinalize withShift t).effects
            = [if s.m_bAutoCopy then Effect.clipboardCopy joined else Effect.log joined]
          ∧ joined = String.intercalate "\n" (s.m_multiBuffer ++ [t.formattedColor]))
      ∧ (decidePick s forceFinalize withShift t).effects.length = 1
      ∧ (∀ hexColor text,
          Effect.notify hexColor text ∉ (decidePick s forceFinalize withShift t).effects)
      ∧ (s.m_bAutoCopy = true →
          ∀ text, Effect.log text ∉ (decidePick s forceFinalize withShift t).effects)
      ∧ (s.m_bAutoCopy = false →
          ∀ text, Effect.clipboardCopy text ∉ (decidePick s forceFinalize withShift t).effects))
    ∧ (s.m_multiMode = false → (forceFinalize = true ∨ withShift = false) →
        (decidePick s forceFinalize withShift t).effects
          = [Effect.log t.logLine]
            ++ (if s.m_bAutoCopy then [Effect.clipboardCopy t.formattedColor] else [])
            ++ (if s.m_bNotify
                then [Effect.notify t.hexColor
                  (if s.m_bSelectedOutputMode = .OUTPUT_HEX then t.hexColor
                    else t.formattedColor)]
                else [])) := by
  constructor
  · intro hm hfin
    have hd : decidePick s forceFinalize withShift t = finishMultiPick s t := by
      rcases hfin with h | h <;> subst h <;> simp [decidePick, hm]
    rw [hd]
    have he : (finishMultiPick s t).effects
        = [if s.m_bAutoCopy
            then Effect.clipboardCopy
              (String.intercalate "\n" (s.m_multiBuffer ++ [t.formattedColor]))
            else Effect.log (String.intercalate "\n" (s.m_multiBuffer ++ [t.formattedColor]))] := by
      simp only [finishMultiPick, finish, joinEntries_eq_intercalate]
    rw [he]
    refine ⟨⟨_, rfl, rfl⟩, rfl, ?_, ?_, ?_⟩
    · intro hexColor text
      cases s.m_bAutoCopy <;> simp
    · intro ha text
      simp [ha]
    · intro ha text
      simp [ha]
  · intro hm hfin
    have hd : decidePick s forceFinalize withShift t = singlePick s t := by
      rcases hfin with h | h <;> subst h <;> simp [decidePick, hm]
    rw [hd]
    simp only [singlePick, finish]
    cases s.m_bSelectedOutputMode <;> rfl

/-! ## Key repeat -/

theorem markDirty_fields (s : CHyprpicker) :
    (markDirty s).m_vNudgeBufPx = s.m_vNudgeBufPx
    ∧ (markDirty s).m_keyLeft = s.m_keyLeft ∧ (markDirty s).m_keyRight = s.m_keyRight
    ∧ (markDirty s).m_keyUp = s.m_keyUp ∧ (markDirty s).m_keyDown = s.m_keyDown
    ∧ (markDirty s).m_repeatRate = s.m_repeatRate
    ∧ (markDirty s).m_repeatDelay = s.m_repeatDelay :=
  ⟨rfl, rfl, rfl, rfl, rfl, rfl, rfl⟩

/-- The repeat nudge leaves the held keys and the repeat info as they are. -/
theorem repeatNudge_keys (s : CHyprpicker) :
    (repeatNudge s).m_keyLeft = s.m_keyLeft ∧ (repeatNudge s).m_keyRight = s.m_keyRight
    ∧ (repeatNudge s).m_keyUp = s.m_keyUp ∧ (repeatNudge s).m_keyDown = s.m_keyDown
    ∧ (repeatNudge s).m_repeatRate = s.m_repeatRate
    ∧ (repeatNudge s).m_repeatDelay = s.m_repeatDelay := by
  simp only [repeatNudge]
  split_ifs <;> exact ⟨rfl, rfl, rfl, rfl, rfl, rfl⟩

/-- The repeat nudge: each held direction contributes one step. -/
theorem repeatNudge_nudge (s : CHyprpicker) :
    (repeatNudge s).m_vNudgeBufPx
      = if !s.m_bNoZoom ∧ s.m_bCoordsInitialized ∧ s.m_pLastSurface.isSome then
          ⟨s.m_vNudgeBufPx.x + (if shiftActive s then 8 else 1)
              * ((if s.m_keyRight then 1 else 0) - (if s.m_keyLeft then 1 else 0)),
           s.m_vNudgeBufPx.y + (if shiftActive s then 8 else 1)
              * ((if s.m_keyDown then 1 else 0) - (if s.m_keyUp then 1 else 0))⟩
        else s.m_vNudgeBufPx := by
  by_cases hact : (!s.m_bNoZoom ∧ s.m_bCoordsInitialized ∧ s.m_pLastSurface.isSome)
  · simp only [repeatNudge, hact, and_self, if_true, (markDirty_fields _).1]
    cases s.m_keyLeft <;> cases s.m_keyRight <;> cases s.m_keyUp <;> cases s.m_keyDown <;>
      simp only [Bool.false_eq_true, if_true, if_false, Vector2D.mk.injEq] <;>
      constructor <;> ring
  · simp only [repeatNudge, hact, if_false]

theorem repeatIteration_held (l : RepeatLocals) (s : CHyprpicker) (now : Int) :
    ((repeatIteration l s now).2.m_keyLeft = s.m_keyLeft
      ∧ (repeatIteration l s now).2.m_keyRight = s.m_keyRight
      ∧ (repeatIteration l s now).2.m_keyUp = s.m_keyUp
      ∧ (repeatIteration l s now).2.m_keyDown = s.m_keyDown
      ∧ (repeatIteration l s now).2.m_repeatRate = s.m_repeatRate
      ∧ (repeatIteration l s now).2.m_repeatDelay = s.m_repeatDelay) := by
  simp only [repeatIteration]
  split_ifs <;> first | exact ⟨rfl, rfl, rfl, rfl, rfl, rfl⟩ | exact repeatNudge_keys s

/-- Claim C27 (counterexample).  With the Right key held, the repeat rate 30 and no delay,
iterations at 0 ms, 5 ms and 38 ms: the second and the third both move the nudge, although
only 33 ms, less than 1/30 s, lie between them. -/
theorem repeat_sooner_than_rate :
    stateRightHeld.m_repeatRate = 30
    ∧ (repeatRun ⟨false, 0, 0⟩ stateRightHeld [0]).2.m_vNudgeBufPx = ⟨0, 0⟩
    ∧ (repeatRun ⟨false, 0, 0⟩ stateRightHeld [0, 5000000]).2.m_vNudgeBufPx = ⟨1, 0⟩
    ∧ (repeatRun ⟨false, 0, 0⟩ stateRightHeld [0, 5000000, 38000000]).2.m_vNudgeBufPx = ⟨2, 0⟩
    ∧ ((38000000 - 5000000 : Int) * 30 < 1000000000) := by
  decide!

/-- While a key stays held and no other thread interferes, the next repeat is never
scheduled before the first observation plus the delay. -/
theorem repeatRun_delay (nows : List Int) (l : RepeatLocals) (s : CHyprpicker) (t0 D : Int)
    (hheld : (s.m_keyLeft || s.m_keyRight || s.m_keyUp || s.m_keyDown) = true)
    (hl : l.anyPrev = true) (hp : l.pressStart = t0) (hn : t0 + D ≤ l.nextRepeat) :
    (repeatRun l s nows).1.anyPrev = true ∧ (repeatRun l s nows).1.pressStart = t0
    ∧ t0 + D ≤ (repeatRun l s nows).1.nextRepeat := by
  induction nows generalizing l s with
  | nil => exact ⟨hl, hp, hn⟩
  | cons now rest ih =>
    have hrun : repeatRun l s (now :: rest)
        = repeatRun (repeatIteration l s now).1 (repeatIteration l s now).2 rest := rfl
    rw [hrun]
    obtain ⟨k1, k2, k3, k4, _, _⟩ := repeatIteration_held l s now
    have hheld2 : ((repeatIteration l s now).2.m_keyLeft || (repeatIteration l s now).2.m_keyRight
        || (repeatIteration l s now).2.m_keyUp || (repeatIteration l s now).2.m_keyDown) = true := by
      rw [k1, k2, k3, k4]
      exact hheld
    have hloc : (repeatIteration l s now).1.anyPrev = true
        ∧ (repeatIteration l s now).1.pressStart = t0
        ∧ t0 + D ≤ (repeatIteration l s now).1.nextRepeat
        ∧ l.nextRepeat ≤ (repeatIteration l s now).1.nextRepeat := by
      simp only [repeatIteration, hheld, if_true, hl, Bool.not_true, Bool.false_eq_true, if_false]
      split_ifs with hrate hnow
      · refine ⟨rfl, hp, ?_, ?_⟩
        · have h1 : t0 + D ≤ now := le_trans hn hnow
          have h2 : 0 ≤ milliseconds (1000 / s.m_repeatRate) := by
            unfold milliseconds
            have : 0 ≤ 1000 / s.m_repeatRate := Int.ediv_nonneg (by norm_num) (le_of_lt hrate)
            positivity
          show t0 + D ≤ now + milliseconds (1000 / s.m_repeatRate)
          linarith
        · have h2 : 0 ≤ milliseconds (1000 / s.m_repeatRate) := by
            unfold milliseconds
            have : 0 ≤ 1000 / s.m_repeatRate := Int.ediv_nonneg (by norm_num) (le_of_lt hrate)
            positivity
          show l.nextRepeat ≤ now + milliseconds (1000 / s.m_repeatRate)
          linarith
      · exact ⟨hl, hp, hn, le_refl _⟩
      · exact ⟨hl, hp, hn, le_refl _⟩
    exact ih _ _ hheld2 hloc.1 hloc.2.1 hloc.2.2.1

/-- With a repeat rate of zero or less the loop never changes the controller. -/
theorem repeatRun_rate_off (nows : List Int) (l : RepeatLocals) (s : CHyprpicker)
    (hrate : s.m_repeatRate ≤ 0) : (repeatRun l s nows).2 = s := by
  induction nows generalizing l with
  | nil => rfl
  | cons now rest ih =>
    have hrun : repeatRun l s (now :: rest)
        = repeatRun (repeatIteration l s now).1 (repeatIteration l s now).2 rest := rfl
    have hs : (repeatIteration l s now).2 = s := by
      simp only [repeatIteration, gt_iff_lt, not_lt.mpr hrate, if_false]
      split_ifs <;> rfl
    rw [hrun, hs]
    exact ih _

/-- Claim C27 (amended).  For every iteration of the key-repeat loop: the nudge offset
changes only if at least one directional key is held, the repeat rate is positive, an
earlier iteration has observed a held key, and the scheduled time `nextRepeat` has come.
The iteration that first observes a held key schedules the first repeat `max(0,
repeatDelay)` ms later; an iteration that applies a repeat schedules the next one
`1000 / rate` whole milliseconds later (`1/rate` s truncated to milliseconds), so while
the key stays held no repeat comes before the first observation plus the delay.  An
applied repeat moves the nudge by one step per held direction, 1 frame pixel or 8 when
Shift is active, so opposite held keys cancel; it moves nothing while the magnifier is
inactive.  With a rate of zero or less the loop never changes the nudge. -/
theorem repeat_iteration_nudge (l : RepeatLocals) (s : CHyprpicker) (now : Int) :
    ((repeatIteration l s now).2.m_vNudgeBufPx ≠ s.m_vNudgeBufPx →
        (s.m_keyLeft || s.m_keyRight || s.m_keyUp || s.m_keyDown) = true
        ∧ 0 < s.m_repeatRate ∧ l.anyPrev = true ∧ l.nextRepeat ≤ now)
    ∧ ((s.m_keyLeft || s.m_keyRight || s.m_keyUp || s.m_keyDown) = true → l.anyPrev = false →
        repeatIteration l s now
          = (⟨true, now, now + milliseconds (max 0 s.m_repeatDelay)⟩, s))
    ∧ ((s.m_keyLeft || s.m_keyRight || s.m_keyUp || s.m_keyDown) = true → l.anyPrev = true →
        0 < s.m_repeatRate → l.nextRepeat ≤ now →
        (repeatIteration l s now).1
            = ⟨true, l.pressStart, now + milliseconds (1000 / s.m_repeatRate)⟩
        ∧ (repeatIteration l s now).2.m_vNudgeBufPx
            = if !s.m_bNoZoom ∧ s.m_bCoordsInitialized ∧ s.m_pLastSurface.isSome then
                ⟨s.m_vNudgeBufPx.x + (if shiftActive s then 8 else 1)
                    * ((if s.m_keyRight then 1 else 0) - (if s.m_keyLeft then 1 else 0)),
                 s.m_vNudgeBufPx.y + (if shiftActive s then 8 else 1)
                    * ((if s.m_keyDown then 1 else 0) - (if s.m_keyUp then 1 else 0))⟩
              else s.m_vNudgeBufPx)
    ∧ ((s.m_keyLeft || s.m_keyRight || s.m_keyUp || s.m_keyDown) = true →
        ∀ (nows : List Int) (t0 : Int),
          (repeatRun ⟨false, l.pressStart, l.nextRepeat⟩ s (t0 :: nows)).1.anyPrev = true
          ∧ (repeatRun ⟨false, l.pressStart, l.nextRepeat⟩ s (t0 :: nows)).1.pressStart = t0
          ∧ t0 + milliseconds (max 0 s.m_repeatDelay)
              ≤ (repeatRun ⟨false, l.pressStart, l.nextRepeat⟩ s (t0 :: nows)).1.nextRepeat)
    ∧ (s.m_repeatRate ≤ 0 → ∀ nows, (repeatRun l s nows).2 = s)
    ∧ ((s.m_keyLeft || s.m_keyRight || s.m_keyUp || s.m_keyDown) = false →
        repeatIteration l s now = ({ l with anyPrev := false }, s)) := by
  refine ⟨?_, ?_, ?_, ?_, fun hrate nows => repeatRun_rate_off nows l s hrate, ?_⟩
  · intro hne
    by_cases hheld : (s.m_keyLeft || s.m_keyRight || s.m_keyUp || s.m_keyDown) = true
    · cases hprev : l.anyPrev with
      | false =>
        exact absurd (by simp only [repeatIteration, hheld, if_true, hprev, Bool.not_false]) hne
      | true =>
        by_cases hrate : s.m_repeatRate > 0
        · by_cases hnow : now ≥ l.nextRepeat
          · exact ⟨hheld, hrate, rfl, hnow⟩
          · exact absurd (by simp only [repeatIteration, hheld, if_true, hprev, Bool.not_true,
              Bool.false_eq_true, if_false, hrate, hnow]) hne
        · exact absurd (by simp only [repeatIteration, hheld, if_true, hprev, Bool.not_true,
            Bool.false_eq_true, if_false, hrate]) hne
    · exact absurd (by simp only [repeatIteration, hheld, Bool.false_eq_true, if_false]) hne
  · intro hheld hprev
    simp only [repeatIteration, hheld, if_true, hprev, Bool.not_false]
  · intro hheld hprev hrate hnow
    have hrate2 : s.m_repeatRate > 0 := hrate
    have hnow2 : now ≥ l.nextRepeat := hnow
    simp only [repeatIteration, hheld, if_true, hprev, Bool.not_true, Bool.false_eq_true,
      if_false, hrate2, hnow2, repeatNudge_nudge]
    exact ⟨trivial, trivial⟩
  · intro hheld nows t0
    have hit : repeatIteration ⟨false, l.pressStart, l.nextRepeat⟩ s t0
        = (⟨true, t0, t0 + milliseconds (max 0 s.m_repeatDelay)⟩, s) := by
      simp only [repeatIteration, hheld, if_true, Bool.not_false]
    have hrun : repeatRun ⟨false, l.pressStart, l.nextRepeat⟩ s (t0 :: nows)
        = repeatRun (repeatIteration ⟨false, l.pressStart, l.nextRepeat⟩ s t0).1
            (repeatIteration ⟨false, l.pressStart, l.nextRepeat⟩ s t0).2 nows := rfl
    rw [hrun, hit]
    exact repeatRun_delay nows _ s t0 (milliseconds (max 0 s.m_repeatDelay)) hheld rfl rfl
      (le_refl _)
  · intro hheld
    simp only [repeatIteration, hheld, Bool.false_eq_true, if_false]

/-! ## Key presses and the nudge offset -/

theorem clamp_mono (v w lo hi : ℚ) (h : lo ≤ hi) (hvw : v ≤ w) : clamp v lo hi ≤ clamp w lo hi := by
  unfold clamp
  split_ifs <;> linarith

/-- The key handler on a press of a direction key. -/
theorem setKey_direction_eq (fx : FloatText) (s : CHyprpicker) (xkb : XkbState) (sym : Nat)
    (hx : s.m_pXKBState = some xkb)
    (hsym : sym = XKB_KEY_Left ∨ sym = XKB_KEY_Right ∨ sym = XKB_KEY_Up ∨ sym = XKB_KEY_Down) :
    setKey fx s 0 WL_KEYBOARD_KEY_STATE_PRESSED sym
      = some ⟨if !s.m_bNoZoom ∧ s.m_bCoordsInitialized ∧ s.m_pLastSurface.isSome
              then nudgeOnPress s sym (if xkb.shift then 8 else 1) else s, [], none⟩ := by
  have h1 : ¬ sym = XKB_KEY_Escape := by
    rcases hsym with h | h | h | h <;> subst h <;> decide
  have h2 : ¬ (sym = XKB_KEY_Return ∨ sym = XKB_KEY_KP_Enter) := by
    rcases hsym with h | h | h | h <;> subst h <;> decide
  simp only [setKey, hx, if_true, h1, h2, if_false]
  split_ifs <;> rfl

/-- The nudge of a press: the offset moves by `step` along `nudgeDelta`. -/
theorem nudgeOnPress_fields (s : CHyprpicker) (sym : Nat) (step : ℚ)
    (hsym : sym = XKB_KEY_Left ∨ sym = XKB_KEY_Right ∨ sym = XKB_KEY_Up ∨ sym = XKB_KEY_Down) :
    (nudgeOnPress s sym step).m_pXKBState = s.m_pXKBState
    ∧ (nudgeOnPress s sym step).m_bNoZoom = s.m_bNoZoom
    ∧ (nudgeOnPress s sym step).m_bCoordsInitialized = s.m_bCoordsInitialized
    ∧ (nudgeOnPress s sym step).m_pLastSurface = s.m_pLastSurface
    ∧ (nudgeOnPress s sym step).m_vLastCoords = s.m_vLastCoords
    ∧ (nudgeOnPress s sym step).m_vNudgeBufPx
        = ⟨s.m_vNudgeBufPx.x + step * (nudgeDelta sym).x,
           s.m_vNudgeBufPx.y + step * (nudgeDelta sym).y⟩ := by
  rcases hsym with h | h | h | h <;> subst h <;>
    refine ⟨rfl, rfl, rfl, rfl, rfl, ?_⟩ <;>
    simp [nudgeOnPress, markDirty, nudgeDelta, XKB_KEY_Left, XKB_KEY_Right, XKB_KEY_Up,
      XKB_KEY_Down] <;> ring

/-- One press of a direction key: the nudge moves by `pressStep` along `nudgeDelta`, the
members that decide the step and the pointer position stay as they are. -/
theorem setKey_direction (fx : FloatText) (s : CHyprpicker) (xkb : XkbState) (sym : Nat)
    (hx : s.m_pXKBState = some xkb)
    (hsym : sym = XKB_KEY_Left ∨ sym = XKB_KEY_Right ∨ sym = XKB_KEY_Up ∨ sym = XKB_KEY_Down) :
    ∃ s1, setKey fx s 0 WL_KEYBOARD_KEY_STATE_PRESSED sym = some ⟨s1, [], none⟩
      ∧ s1.m_pXKBState = s.m_pXKBState ∧ s1.m_bNoZoom = s.m_bNoZoom
      ∧ s1.m_bCoordsInitialized = s.m_bCoordsInitialized
      ∧ s1.m_pLastSurface = s.m_pLastSurface ∧ s1.m_vLastCoords = s.m_vLastCoords
      ∧ s1.m_vNudgeBufPx
          = ⟨s.m_vNudgeBufPx.x + pressStep s * (nudgeDelta sym).x,
             s.m_vNudgeBufPx.y + pressStep s * (nudgeDelta sym).y⟩ := by
  have hshift : shiftActive s = xkb.shift := by
    simp only [shiftActive, hx]
  rw [setKey_direction_eq fx s xkb sym hx hsym]
  by_cases hact : (!s.m_bNoZoom ∧ s.m_bCoordsInitialized ∧ s.m_pLastSurface.isSome)
  · obtain ⟨f1, f2, f3, f4, f5, f6⟩ :=
      nudgeOnPress_fields s sym (if xkb.shift then 8 else 1) hsym
    refine ⟨nudgeOnPress s sym (if xkb.shift then 8 else 1), by rw [if_pos hact],
      f1, f2, f3, f4, f5, ?_⟩
    rw [f6]
    simp only [pressStep, hact, and_self, if_true, hshift]
  · refine ⟨s, by rw [if_neg hact], rfl, rfl, rfl, rfl, rfl, ?_⟩
    simp only [pressStep, hact, if_false, zero_mul, add_zero]

theorem pressStep_congr (s s1 : CHyprpicker) (h1 : s1.m_pXKBState = s.m_pXKBState)
    (h2 : s1.m_bNoZoom = s.m_bNoZoom) (h3 : s1.m_bCoordsInitialized = s.m_bCoordsInitialized)
    (h4 : s1.m_pLastSurface = s.m_pLastSurface) : pressStep s1 = pressStep s := by
  simp only [pressStep, shiftActive, h1, h2, h3, h4]

theorem pressStep_nonneg (s : CHyprpicker) : 0 ≤ pressStep s := by
  simp only [pressStep]
  split_ifs <;> norm_num

/-- The controller after `k` presses of one direction key. -/
theorem pressKeys_replicate (fx : FloatText) (xkb : XkbState) (sym : Nat)
    (hsym : sym = XKB_KEY_Left ∨ sym = XKB_KEY_Right ∨ sym = XKB_KEY_Up ∨ sym = XKB_KEY_Down)
    (k : Nat) (rest : List Nat) (s : CHyprpicker) (hx : s.m_pXKBState = some xkb) :
    ∃ s1, pressKeys fx s (List.replicate k sym ++ rest) = pressKeys fx s1 rest
      ∧ s1.m_pXKBState = s.m_pXKBState ∧ s1.m_bNoZoom = s.m_bNoZoom
      ∧ s1.m_bCoordsInitialized = s.m_bCoordsInitialized
      ∧ s1.m_pLastSurface = s.m_pLastSurface ∧ s1.m_vLastCoords = s.m_vLastCoords
      ∧ s1.m_vNudgeBufPx
          = ⟨s.m_vNudgeBufPx.x + k * (pressStep s * (nudgeDelta sym).x),
             s.m_vNudgeBufPx.y + k * (pressStep s * (nudgeDelta sym).y)⟩ := by
  induction k generalizing s with
  | zero =>
    refine ⟨s, rfl, rfl, rfl, rfl, rfl, rfl, ?_⟩
    simp
  | succ k ih =>
    obtain ⟨s1, hk, g1, g2, g3, g4, g5, g6⟩ := setKey_direction fx s xkb sym hx hsym
    obtain ⟨s2, hk2, e1, e2, e3, e4, e5, e6⟩ := ih s1 (by rw [g1, hx])
    refine ⟨s2, ?_, by rw [e1, g1], by rw [e2, g2], by rw [e3, g3], by rw [e4, g4],
      by rw [e5, g5], ?_⟩
    · rw [List.replicate_succ, List.cons_append]
      simp only [pressKeys, hk, Option.isSome_none, Bool.false_eq_true, if_false]
      exact hk2
    · rw [e6, g6, pressStep_congr s s1 g1 g2 g3 g4]
      simp only [Vector2D.mk.injEq]
      push_cast
      constructor <;> ring

theorem nudgeDelta_opposite (dir opp : Nat)
    (hdir : (dir = XKB_KEY_Left ∧ opp = XKB_KEY_Right) ∨ (dir = XKB_KEY_Right ∧ opp = XKB_KEY_Left)
      ∨ (dir = XKB_KEY_Up ∧ opp = XKB_KEY_Down) ∨ (dir = XKB_KEY_Down ∧ opp = XKB_KEY_Up)) :
    (dir = XKB_KEY_Left ∨ dir = XKB_KEY_Right ∨ dir = XKB_KEY_Up ∨ dir = XKB_KEY_Down)
    ∧ (opp = XKB_KEY_Left ∨ opp = XKB_KEY_Right ∨ opp = XKB_KEY_Up ∨ opp = XKB_KEY_Down)
    ∧ (nudgeDelta opp).x = -(nudgeDelta dir).x ∧ (nudgeDelta opp).y = -(nudgeDelta dir).y := by
  rcases hdir with ⟨h1, h2⟩ | ⟨h1, h2⟩ | ⟨h1, h2⟩ | ⟨h1, h2⟩ <;> subst h1 <;> subst h2 <;>
    refine ⟨by simp, by simp, ?_, ?_⟩ <;>
    simp [nudgeDelta, XKB_KEY_Left, XKB_KEY_Right, XKB_KEY_Up, XKB_KEY_Down]

/-- The sampled position depends on the controller through the pointer position and the
nudge only. -/
theorem CLICKPOS_congr (s s1 : CHyprpicker) (pLS : CLayerSurface) (sb : SPoolBuffer)
    (h1 : s1.m_vLastCoords = s.m_vLastCoords) (h2 : s1.m_vNudgeBufPx = s.m_vNudgeBufPx) :
    finalizePickAtCurrent_CLICKPOS s1 pLS sb = finalizePickAtCurrent_CLICKPOS s pLS sb
    ∧ ∀ PBUFFER, renderSurface_centerBuf s1 pLS PBUFFER sb
        = renderSurface_centerBuf s pLS PBUFFER sb := by
  simp only [finalizePickAtCurrent_CLICKPOS, renderSurface_centerBuf, h1, h2]
  exact ⟨trivial, fun _ => trivial⟩

theorem clamp_pinned_hi (v w lo hi : ℚ) (h : lo ≤ hi) (hv : clamp v lo hi = hi) (hvw : v ≤ w) :
    clamp w lo hi = hi := by
  have h1 := clamp_mono v w lo hi h hvw
  rw [hv] at h1
  exact le_antisymm (clamp_mem w lo hi h).2 h1

theorem clamp_pinned_lo (v w lo hi : ℚ) (h : lo ≤ hi) (hv : clamp v lo hi = lo) (hwv : w ≤ v) :
    clamp w lo hi = lo := by
  have h1 := clamp_mono w v lo hi h hwv
  rw [hv] at h1
  exact le_antisymm h1 (clamp_mem w lo hi h).1

theorem nudgeDelta_values :
    nudgeDelta XKB_KEY_Left = ⟨-1, 0⟩ ∧ nudgeDelta XKB_KEY_Right = ⟨1, 0⟩
    ∧ nudgeDelta XKB_KEY_Up = ⟨0, -1⟩ ∧ nudgeDelta XKB_KEY_Down = ⟨0, 1⟩ := by
  refine ⟨?_, ?_, ?_, ?_⟩ <;>
    simp [nudgeDelta, XKB_KEY_Left, XKB_KEY_Right, XKB_KEY_Up, XKB_KEY_Down]

/-- A press of the opposite key after `k ≥ 2` presses towards an edge leaves the sampled
position where the first press had put it, if that was on the edge. -/
theorem CLICKPOS_pinned (s s1 sk : CHyprpicker) (pLS : CLayerSurface) (sb : SPoolBuffer)
    (dir opp : Nat) (k : Nat) (st : ℚ) (hst : 0 ≤ st) (hk : 2 ≤ k)
    (hdir : (dir = XKB_KEY_Left ∧ opp = XKB_KEY_Right) ∨ (dir = XKB_KEY_Right ∧ opp = XKB_KEY_Left)
      ∨ (dir = XKB_KEY_Up ∧ opp = XKB_KEY_Down) ∨ (dir = XKB_KEY_Down ∧ opp = XKB_KEY_Up))
    (hc1 : s1.m_vLastCoords = s.m_vLastCoords) (hck : sk.m_vLastCoords = s.m_vLastCoords)
    (hn1 : s1.m_vNudgeBufPx
      = ⟨s.m_vNudgeBufPx.x + st * (nudgeDelta dir).x, s.m_vNudgeBufPx.y + st * (nudgeDelta dir).y⟩)
    (hnk : sk.m_vNudgeBufPx
      = ⟨s.m_vNudgeBufPx.x + k * (st * (nudgeDelta dir).x) + st * (nudgeDelta opp).x,
         s.m_vNudgeBufPx.y + k * (st * (nudgeDelta dir).y) + st * (nudgeDelta opp).y⟩)
    (hw : 1 ≤ sb.pixelSize.x) (hh : 1 ≤ sb.pixelSize.y)
    (hedge : atEdge dir (finalizePickAtCurrent_CLICKPOS s1 pLS sb) sb.pixelSize) :
    finalizePickAtCurrent_CLICKPOS sk pLS sb = finalizePickAtCurrent_CLICKPOS s1 pLS sb := by
  obtain ⟨dL, dR, dU, dD⟩ := nudgeDelta_values
  have hk2 : (2 : ℚ) ≤ k := by exact_mod_cast hk
  have hwx : (0 : ℚ) ≤ sb.pixelSize.x - 1 := by linarith
  have hhy : (0 : ℚ) ≤ sb.pixelSize.y - 1 := by linarith
  obtain ⟨eL, eR, eU, eD⟩ := hedge
  simp only [finalizePickAtCurrent_CLICKPOS, hc1, hck, hn1, hnk, Vector2D.add_x, Vector2D.add_y,
    Vector2D.mul_x, Vector2D.mul_y, Vector2D.div_x, Vector2D.div_y, Vector2D.floor_x,
    Vector2D.floor_y, Vector2D.mk.injEq] at eL eR eU eD ⊢
  rcases hdir with ⟨h1, h2⟩ | ⟨h1, h2⟩ | ⟨h1, h2⟩ | ⟨h1, h2⟩ <;> subst h1 <;> subst h2
  · have e := eL rfl
    simp only [dL, dR, mul_zero, add_zero, mul_neg, mul_one] at e ⊢
    refine ⟨?_, trivial⟩
    rw [e]
    refine clamp_pinned_lo _ _ 0 _ hwx e ?_
    apply toDouble_mono
    nlinarith
  · have e := eR rfl
    simp only [dL, dR, mul_zero, add_zero, mul_neg, mul_one] at e ⊢
    refine ⟨?_, trivial⟩
    rw [e]
    refine clamp_pinned_hi _ _ 0 _ hwx e ?_
    apply toDouble_mono
    nlinarith
  · have e := eU rfl
    simp only [dU, dD, mul_zero, add_zero, mul_neg, mul_one] at e ⊢
    refine ⟨trivial, ?_⟩
    rw [e]
    refine clamp_pinned_lo _ _ 0 _ hhy e ?_
    apply toDouble_mono
    nlinarith
  · have e := eD rfl
    simp only [dU, dD, mul_zero, add_zero, mul_neg, mul_one] at e ⊢
    refine ⟨trivial, ?_⟩
    rw [e]
    refine clamp_pinned_hi _ _ 0 _ hhy e ?_
    apply toDouble_mono
    nlinarith

/-- Claim C30.  The nudge offset is never clamped, only the sampled coordinate is.  With a
keymap loaded, `k` presses of a direction key move the offset by `k` steps (the step is 1,
8 with Shift, 0 while the magnifier is inactive), and `k` further presses of the opposite
key restore the offset, and with it the coordinate sampled by the pick and by the preview,
exactly, whatever the frame size.  Consequently, after `k ≥ 2` presses of which the first
already put the sampled position on the frame edge, a single press of the opposite key
leaves the sampled position on that edge. -/
theorem nudge_presses_cancel (fx : FloatText) (s : CHyprpicker) (xkb : XkbState)
    (dir opp : Nat) (k : Nat) (hx : s.m_pXKBState = some xkb)
    (hdir : (dir = XKB_KEY_Left ∧ opp = XKB_KEY_Right) ∨ (dir = XKB_KEY_Right ∧ opp = XKB_KEY_Left)
      ∨ (dir = XKB_KEY_Up ∧ opp = XKB_KEY_Down) ∨ (dir = XKB_KEY_Down ∧ opp = XKB_KEY_Up)) :
    (∃ sk, pressKeys fx s (List.replicate k dir) = some sk
        ∧ sk.m_vNudgeBufPx
            = ⟨s.m_vNudgeBufPx.x + k * (pressStep s * (nudgeDelta dir).x),
               s.m_vNudgeBufPx.y + k * (pressStep s * (nudgeDelta dir).y)⟩)
    ∧ (∃ s2, pressKeys fx s (List.replicate k dir ++ List.replicate k opp) = some s2
        ∧ s2.m_vNudgeBufPx = s.m_vNudgeBufPx
        ∧ ∀ pLS sb,
            finalizePickAtCurrent_CLICKPOS s2 pLS sb = finalizePickAtCurrent_CLICKPOS s pLS sb
            ∧ ∀ PBUFFER, renderSurface_centerBuf s2 pLS PBUFFER sb
                = renderSurface_centerBuf s pLS PBUFFER sb)
    ∧ (2 ≤ k → ∃ s1 sk, pressKeys fx s [dir] = some s1
        ∧ pressKeys fx s (List.replicate k dir ++ [opp]) = some sk
        ∧ ∀ pLS sb, 1 ≤ sb.pixelSize.x → 1 ≤ sb.pixelSize.y →
            atEdge dir (finalizePickAtCurrent_CLICKPOS s1 pLS sb) sb.pixelSize →
            finalizePickAtCurrent_CLICKPOS sk pLS sb
              = finalizePickAtCurrent_CLICKPOS s1 pLS sb) := by
  obtain ⟨hd, ho, hox, hoy⟩ := nudgeDelta_opposite dir opp hdir
  refine ⟨?_, ?_, ?_⟩
  · obtain ⟨sk, hk, _, _, _, _, _, e6⟩ := pressKeys_replicate fx xkb dir hd k [] s hx
    rw [List.append_nil] at hk
    exact ⟨sk, hk, e6⟩
  · obtain ⟨sa, hk, a1, a2, a3, a4, a5, a6⟩ :=
      pressKeys_replicate fx xkb dir hd k (List.replicate k opp) s hx
    obtain ⟨sb2, hk2, b1, b2, b3, b4, b5, b6⟩ :=
      pressKeys_replicate fx xkb opp ho k [] sa (by rw [a1, hx])
    rw [List.append_nil] at hk2
    have hn : sb2.m_vNudgeBufPx = s.m_vNudgeBufPx := by
      rw [b6, a6, pressStep_congr s sa a1 a2 a3 a4, hox, hoy]
      cases s.m_vNudgeBufPx
      simp only [Vector2D.mk.injEq]
      constructor <;> ring
    refine ⟨sb2, by rw [hk, hk2]; rfl, hn, fun pLS sb => ?_⟩
    exact CLICKPOS_congr s sb2 pLS sb (by rw [b5, a5]) hn
  · intro hk2
    obtain ⟨s1, h1, c1, c2, c3, c4, c5, c6⟩ := setKey_direction fx s xkb dir hx hd
    obtain ⟨sa, hk, a1, a2, a3, a4, a5, a6⟩ := pressKeys_replicate fx xkb dir hd k [opp] s hx
    obtain ⟨sk, hko, d1, d2, d3, d4, d5, d6⟩ :=
      setKey_direction fx sa xkb opp (by rw [a1, hx]) ho
    refine ⟨s1, sk, ?_, ?_, ?_⟩
    · simp only [pressKeys, h1, Option.isSome_none, Bool.false_eq_true, if_false]
    · rw [hk]
      simp only [pressKeys, hko, Option.isSome_none, Bool.false_eq_true, if_false]
    · intro pLS sb hw hh hedge
      refine CLICKPOS_pinned s s1 sk pLS sb dir opp k (pressStep s) (pressStep_nonneg s) hk2 hdir
        c5 (by rw [d5, a5]) c6 ?_ hw hh hedge
      rw [d6, a6, pressStep_congr s sa a1 a2 a3 a4]

/-! ### Witnesses at concrete inputs (tick, toggles, rendering, sampling, key repeat) -/

/-- Claim C21 at the locked zoom state and `dt = 1/64 s`: the magnification leaves the
tick with the value of the spring update. -/
theorem spring_tick_formula_witness :
    ((zoomSpringTick zoomLocked (1 / 64)).m_zoomMagCurrent,
      (zoomSpringTick zoomLocked (1 / 64)).m_zoomMagVel)
      = springUpdate zoomLocked.m_zoomMagCurrent zoomLocked.m_zoomMagTarget
          zoomLocked.m_zoomMagVel (1 / 64) :=
  (spring_tick_formula zoomLocked (1 / 64)).2.2.2.1 (by norm_num)

/-- Claim C22 at the initial state: up, a pass, up again gives `clamp(3 · 10) = 30`. -/
theorem alt_toggle_does_not_compound_witness :
    (runZoom initialState [.tick 0, .altToggle true, .tick (1 / 64), .altToggle true]).m_zoomMagTarget
      = clamp (3 * initialState.m_zoomMagTarget) 2 60 :=
  (alt_toggle_does_not_compound initialState
    [.tick 0, .altToggle true, .tick (1 / 64), .altToggle true]
    (fun h => absurd h (by decide))).1 rfl

/-- Claim C23 at the initial state: a radius toggle "up" asks for twice the aperture
`10 × 10` at magnification 10. -/
theorem radius_toggle_effect_witness :
    (handleRadiusToggle initialState true).m_zoomRadiusTargetSrcPx
      = clamp ((if true then 2 else 1)
          * (if initialState.m_apertureBaseSet then initialState.m_apertureBaseUI
              else initialState.m_zoomRadiusCurrentSrcPx * initialState.m_zoomMagCurrent)
          / initialState.m_zoomMagCurrent) 4 60 :=
  (radius_toggle_effect initialState true).2.2.2.2.2.2.2.2.1 (by decide!)

/-- Claim C24 at a surface with two free buffers: the render draws into slot 1. -/
theorem renderSurface_never_draws_busy_witness :
    ∃ PBUFFER s1 pSurface1 data,
      surfaceRedTwoFree.buffers 1 = some PBUFFER ∧ PBUFFER.busy = false
      ∧ renderSurface paintClear stateTwoFree 0 false (1 / 64) = some s1
      ∧ s1.m_vLayerSurfaces[0]? = some pSurface1
      ∧ pSurface1.buffers 1 = some { PBUFFER with data := data, busy := true }
      ∧ pSurface1.buffers (1 - 1) = surfaceRedTwoFree.buffers (1 - 1)
      ∧ pSurface1.rendered = true
      ∧ (∀ j, j ≠ 0 → s1.m_vLayerSurfaces[j]? = stateTwoFree.m_vLayerSurfaces[j]?) :=
  (renderSurface_never_draws_busy paintClear stateTwoFree 0 false (1 / 64) surfaceRedTwoFree
    rfl).2.1 1 (by decide) (by decide)

/-- Claim C9 (amended) with the pointer at `x = 123` on a monitor and a frame 1920 wide. -/
theorem finalizePick_position_witness :
    (finalizePickAtCurrent_CLICKPOS stateAt123 surface1080p buffer1080p).x
      = clamp (toDouble (toDouble (toDouble (⌊stateAt123.m_vLastCoords.x⌋
            / surface1080p.m_pMonitor.size.x)
          * buffer1080p.pixelSize.x) + stateAt123.m_vNudgeBufPx.x)) 0
          (buffer1080p.pixelSize.x - 1)
    ∧ (finalizePickAtCurrent_CLICKPOS stateAt123 surface1080p buffer1080p).y
      = clamp (toDouble (toDouble (toDouble (⌊stateAt123.m_vLastCoords.y⌋
            / surface1080p.m_pMonitor.size.y)
          * buffer1080p.pixelSize.y) + stateAt123.m_vNudgeBufPx.y)) 0
          (buffer1080p.pixelSize.y - 1)
    ∧ |(finalizePickAtCurrent_CLICKPOS stateAt123 surface1080p buffer1080p).x
        - clamp (logicalToFrame ⌊stateAt123.m_vLastCoords.x⌋ surface1080p.m_pMonitor.size.x
            buffer1080p.pixelSize.x + stateAt123.m_vNudgeBufPx.x) 0
            (buffer1080p.pixelSize.x - 1)|
      ≤ (|logicalToFrame ⌊stateAt123.m_vLastCoords.x⌋ surface1080p.m_pMonitor.size.x
            buffer1080p.pixelSize.x| + |stateAt123.m_vNudgeBufPx.x|) / 2 ^ 51
    ∧ |(finalizePickAtCurrent_CLICKPOS stateAt123 surface1080p buffer1080p).y
        - clamp (logicalToFrame ⌊stateAt123.m_vLastCoords.y⌋ surface1080p.m_pMonitor.size.y
            buffer1080p.pixelSize.y + stateAt123.m_vNudgeBufPx.y) 0
            (buffer1080p.pixelSize.y - 1)|
      ≤ (|logicalToFrame ⌊stateAt123.m_vLastCoords.y⌋ surface1080p.m_pMonitor.size.y
            buffer1080p.pixelSize.y| + |stateAt123.m_vNudgeBufPx.y|) / 2 ^ 51 :=
  finalizePick_position stateAt123 surface1080p buffer1080p (by decide!) (by decide!)

/-- Claim C26 (amended) at the coordinate `(5/2, 0)` of the `4 × 1` frame: the bytes at
offset 8 are read. -/
theorem getColorFromPixel_in_range_witness :
    getColorFromPixel surface4x1 ⟨5 / 2, 0⟩
      = some ⟨readByte (frame4x1.paddedData.getD frame4x1.data)
                ((⌊(0 : ℚ)⌋₊ * 4 + ⌊(5 / 2 : ℚ)⌋₊) * 4 + 2),
              readByte (frame4x1.paddedData.getD frame4x1.data)
                ((⌊(0 : ℚ)⌋₊ * 4 + ⌊(5 / 2 : ℚ)⌋₊) * 4 + 1),
              readByte (frame4x1.paddedData.getD frame4x1.data)
                ((⌊(0 : ℚ)⌋₊ * 4 + ⌊(5 / 2 : ℚ)⌋₊) * 4),
              readByte (frame4x1.paddedData.getD frame4x1.data)
                ((⌊(0 : ℚ)⌋₊ * 4 + ⌊(5 / 2 : ℚ)⌋₊) * 4 + 3)⟩
    ∧ (⌊(0 : ℚ)⌋₊ * 4 + ⌊(5 / 2 : ℚ)⌋₊) * 4 + 4 ≤ 4 * 4 * 1 :=
  (getColorFromPixel_in_range surface4x1 frame4x1 4 1 ⟨5 / 2, 0⟩ rfl (by decide!)).1
    (by decide!) (by decide!) (by decide!) (by decide!)

/-- Claim C27 (amended) at the held Right key: the iteration that first observes it
schedules the first repeat and moves nothing. -/
theorem repeat_iteration_nudge_witness :
    repeatIteration ⟨false, 0, 0⟩ stateRightHeld 7
      = (⟨true, 7, 7 + milliseconds (max 0 stateRightHeld.m_repeatDelay)⟩, stateRightHeld) :=
  (repeat_iteration_nudge ⟨false, 0, 0⟩ stateRightHeld 7).2.1 (by decide) rfl

/-- Claim C28 (amended) at the centre `(100, 100)` of a `1920 × 1080` buffer, 7 characters. -/
theorem label_placement_bounds_witness :
    (renderSurface_labelRect ⟨100, 100⟩ ⟨1920, 1080⟩ 7).2.1 + 28 ≤ 1080 :=
  (label_placement_bounds ⟨100, 100⟩ ⟨1920, 1080⟩ 7 (by decide!) (by decide!)
    (by decide!)).2.2.1

/-- Claim C29 at the accumulating session: one log call, the two entries joined. -/
theorem multi_pick_one_collaborator_witness :
    (decidePick stateAccumulating false false entryRed).effects.length = 1 :=
  ((multi_pick_one_collaborator stateAccumulating entryRed false false).1 rfl
    (Or.inr rfl)).2.1

/-- Claim C30 at three presses of Right followed by three presses of Left. -/
theorem nudge_presses_cancel_witness :
    ∃ s2, pressKeys primaryFloatText stateOn4x1
          (List.replicate 3 XKB_KEY_Right ++ List.replicate 3 XKB_KEY_Left) = some s2
      ∧ s2.m_vNudgeBufPx = stateOn4x1.m_vNudgeBufPx
      ∧ ∀ pLS sb,
          finalizePickAtCurrent_CLICKPOS s2 pLS sb
            = finalizePickAtCurrent_CLICKPOS stateOn4x1 pLS sb
          ∧ ∀ PBUFFER, renderSurface_centerBuf s2 pLS PBUFFER sb
              = renderSurface_centerBuf stateOn4x1 pLS PBUFFER sb :=
  (nudge_presses_cancel primaryFloatText stateOn4x1 ⟨false, false⟩ XKB_KEY_Right XKB_KEY_Left 3
    rfl (Or.inr (Or.inl ⟨rfl, rfl⟩))).2.1

end Hyprpicker
